import Mathlib

/-!
# noah: path lookup and the file-descriptor table of `src/fs/fs.c`

A shallow embedding of the virtual file system layer of noah.

Conventions of the embedding.

* A C string is the list of its bytes before the terminating NUL (`List Char`); the names
  handed to the functions are C strings and hold no NUL.
* The arrays `path->subpath`, `buf` and `buf2` of `__vfs_grab_dir` have `LINUX_PATH_MAX`
  bytes. The lookup is embedded in two layers. `walk`, `visit`, `__vfs_grab_dir` and
  `vfs_grab_dir` compute what the statements of the function do on arrays that hold every
  write; `walk_writes`, `visit_writes` and `grab_writes` give the extent of each write.
  `__vfs_grab_dir_bounded`, `vfs_grab_dir_bounded` and `vfs_openat_bounded` put the two
  together: they have a result only when every write stays within its array, and no
  result (`none`) when a `strcpy` or `strcat` overruns one, where the C call has no defined
  behaviour.
* `int` values are `Int`; flag words are `Nat` bit patterns; the `atomic_uint` reference
  count is a `Nat` that is updated modulo `2 ^ 32`.
* Host calls and the operations reached through a table of function pointers are oracles
  passed as arguments.
* `assert` is taken to be enabled; a failed assertion and an access outside `proc.fdtab`
  leave a function without a result.
* Recursion and loops carry a budget so that the definitions are structurally recursive;
  the theorems show that the budget used by the callers is never exhausted.
-/

namespace Noah

/-! ## Constants -/

/-- Modelled from the spec: `linux/errno.h` is not among the sources; the spec fixes the
errno numbering to that of Linux 4.6.4, where `ENOENT` is 2. -/
def LINUX_ENOENT : Int := 2

/-- Modelled from the spec: Linux 4.6.4 numbering, `EBADF` is 9. -/
def LINUX_EBADF : Int := 9

/-- Modelled from the spec: Linux 4.6.4 numbering, `EINVAL` is 22. -/
def LINUX_EINVAL : Int := 22

/-- Modelled from the spec: Linux 4.6.4 numbering, `ELOOP` is 40. -/
def LINUX_ELOOP : Int := 40

/-- Modelled from the spec: `linux/fs.h` is not among the sources; Linux x86-64 `AT_FDCWD`. -/
def LINUX_AT_FDCWD : Int := -100

/-- Modelled from the spec: the host header is not among the sources; Darwin `AT_FDCWD`. -/
def AT_FDCWD : Int := -2

/-- Modelled from the spec: Linux x86-64 `O_DIRECTORY` (octal 0200000). -/
def LINUX_O_DIRECTORY : Nat := 0x10000

/-- Modelled from the spec: Linux x86-64 `O_NOFOLLOW` (octal 0400000). -/
def LINUX_O_NOFOLLOW : Nat := 0x20000

/-- Source: `#define LOOKUP_NOFOLLOW 0x0001` -/
def LOOKUP_NOFOLLOW : Nat := 0x0001

/-- Source: `#define LOOKUP_DIRECTORY 0x0002` -/
def LOOKUP_DIRECTORY : Nat := 0x0002

/-- Source: `#define LOOP_MAX 20` -/
def LOOP_MAX : Int := 20

/-! ## C strings -/

/-- The C string stored in a byte buffer: the bytes before the first NUL. -/
def cstr (l : List Char) : List Char :=
  l.takeWhile (fun ch => ch ≠ Char.ofNat 0)

/-- Source: `strncmp(name, lit, sizeof lit - 1) != 0` for a literal `lit` without NUL:
the name does not begin with `lit`. -/
def strncmp_ne (name lit : List Char) : Bool :=
  !(lit.isPrefixOf name)

/-- The mount-prefix test of `__vfs_grab_dir`:
`strncmp(name, "/Users", ..) && strncmp(name, "/Volumes", ..) && strncmp(name, "/dev", ..)
&& strncmp(name, "/tmp", ..)`. -/
def outside_mounts (name : List Char) : Bool :=
  strncmp_ne name ['/', 'U', 's', 'e', 'r', 's'] &&
  strncmp_ne name ['/', 'V', 'o', 'l', 'u', 'm', 'e', 's'] &&
  strncmp_ne name ['/', 'd', 'e', 'v'] &&
  strncmp_ne name ['/', 't', 'm', 'p']

/-- The loop `while (sp >= path->subpath && *--sp != '/') ; *++sp = 0;`:
the subpath is cut after its last `/`, or emptied when it has none. -/
def remove_last_component (subpath : List Char) : List Char :=
  (subpath.reverse.dropWhile (fun ch => ch ≠ '/')).reverse

/-! ## Path lookup -/

/-- Source: `struct path`. The field `fs` is left out: `__vfs_grab_dir` always stores the address of
its single static `darwinfs`. `dir` is `path->dir->fd`. `subpath` is the C string in the
array `char subpath[LINUX_PATH_MAX]`; that it fits the array is not part of the type: the
writes into the array are listed by `grab_writes`, and a value of `__vfs_grab_dir_bounded`
has a subpath of fewer than `LINUX_PATH_MAX` bytes. -/
structure path where
  dir : Int
  subpath : List Char
deriving DecidableEq, Repr

/-- The oracle for `fs->ops->readlinkat(fs, &dir, path->subpath, buf, sizeof buf)`.
`some l` means the call returned `l.length` and stored the bytes `l` at the start of `buf`;
`none` means it returned a value that is not positive. -/
abbrev Readlinkat := Int → List Char → Option (List Char)

/-- How the `while (*c)` loop of `__vfs_grab_dir` is left. -/
inductive Walk where
  /-- the loop ran to the end of the name; the argument is `path->subpath` -/
  | out (subpath : List Char)
  /-- a symlink was met; the argument is the name passed to the recursive call -/
  | follow (name : List Char)
  /-- the iteration budget of the model ran out -/
  | diverge
deriving DecidableEq, Repr

/-- The `while (*c)` loop of `__vfs_grab_dir`, computed on arrays that hold every write.
`sp` is the content of `path->subpath` written so far and `c` the part of the name not yet
read. The extent of each write is given by `walk_writes`; the C loop does what `walk`
computes as long as those extents stay within `LINUX_PATH_MAX`, which
`__vfs_grab_dir_bounded` requires. -/
def walk (readlinkat : Readlinkat) (dir : Int) (flags : Nat) :
    Nat → List Char → List Char → Walk
  | 0, _, _ => Walk.diverge
  | fuel + 1, sp, c =>
    if c = [] then Walk.out sp
    else
      -- while (*c && *c != '/') *sp++ = *c++;
      let sp1 := sp ++ c.takeWhile (fun ch => ch ≠ '/')
      let c1 := c.dropWhile (fun ch => ch ≠ '/')
      let link := if flags &&& LOOKUP_NOFOLLOW = 0 then readlinkat dir sp1 else none
      match link with
      | some l =>
        if 0 < l.length then
          -- strcpy(buf + n, c);
          let buf := cstr (l ++ c1)
          if buf.head? = some '/' then Walk.follow buf
          else
            -- strcpy(buf2, path->subpath); strcat(buf2, buf);
            Walk.follow (remove_last_component sp1 ++ buf)
        else
          match c1 with
          | [] => walk readlinkat dir flags fuel sp1 []
          | ch :: c2 => walk readlinkat dir flags fuel (sp1 ++ [ch]) c2
      | none =>
        match c1 with
        | [] => walk readlinkat dir flags fuel sp1 []
        | ch :: c2 => walk readlinkat dir flags fuel (sp1 ++ [ch]) c2

/-- What a call of `__vfs_grab_dir` does. -/
inductive Grab where
  /-- it returned 0 and filled `*path` -/
  | ok (p : path)
  /-- it returned the negative value `r` -/
  | fail (r : Int)
  /-- `assert(*c)` failed -/
  | abort
  /-- the recursion budget of the model ran out -/
  | diverge
deriving DecidableEq, Repr

/-- How the body of `__vfs_grab_dir` below its two guards is left. -/
inductive Visit where
  /-- through the label `out`, with `*path` filled -/
  | out (p : path)
  /-- through one of the two recursive calls `__vfs_grab_dir(&dir, .., flags, path, loop + 1)`;
  the arguments are `dir.fd` and the new name -/
  | again (dir : Int) (name : List Char)
  /-- `assert(*c)` failed -/
  | abort
  /-- the iteration budget of the model ran out -/
  | diverge
deriving DecidableEq, Repr

/-- The body of `__vfs_grab_dir` from `struct dir dir = *parent` on: mount points, then the
symlink walk, up to the recursive call. `parent` is `parent->fd`, `vfs_root` is
`proc.vfs_root`. -/
def visit (readlinkat : Readlinkat) (vfs_root : Int) (parent : Int) (name : List Char)
    (flags : Nat) : Visit :=
  if name.head? = some '/' ∧ name.tail = [] then
    Visit.out { dir := vfs_root, subpath := ['.'] }
  else
    -- resolve mountpoints
    let rebase : Bool := name.head? = some '/' ∧ outside_mounts name
    let dir := if rebase then vfs_root else parent
    let name1 := if rebase then name.tail else name
    -- assert(*c);
    if name1 = [] then Visit.abort
    else
      match walk readlinkat dir flags (name1.length + 1) [] name1 with
      | Walk.out sp => Visit.out { dir := dir, subpath := sp }
      | Walk.follow nm => Visit.again dir nm
      | Walk.diverge => Visit.diverge

/-- Source: `__vfs_grab_dir(parent, name, flags, path, loop)`, computed on arrays that hold
every write (see `__vfs_grab_dir_bounded` for the call with its arrays of `LINUX_PATH_MAX`
bytes). The first argument bounds the depth of the recursion. -/
def __vfs_grab_dir (readlinkat : Readlinkat) (vfs_root : Int) :
    Nat → Int → List Char → Nat → Int → Grab
  | 0, _, _, _, _ => Grab.diverge
  | fuel + 1, parent, name, flags, loop =>
    if flags &&& (0xFFFFFFFF ^^^ (LOOKUP_NOFOLLOW ||| LOOKUP_DIRECTORY)) ≠ 0 then
      Grab.fail (-LINUX_EINVAL)
    else if loop > LOOP_MAX then
      Grab.fail (-LINUX_ELOOP)
    else
      match visit readlinkat vfs_root parent name flags with
      | Visit.out p => Grab.ok p
      | Visit.again dir nm => __vfs_grab_dir readlinkat vfs_root fuel dir nm flags (loop + 1)
      | Visit.abort => Grab.abort
      | Visit.diverge => Grab.diverge

/-- Recursion budget that no call of `__vfs_grab_dir` starting at `loop = 0` exhausts:
`LOOP_MAX + 2` nested calls. -/
def grab_fuel : Nat := 22

/-- Source: `vfs_grab_dir(dirfd, name, flags, path)`. -/
def vfs_grab_dir (readlinkat : Readlinkat) (vfs_root : Int)
    (dirfd : Int) (name : List Char) (flags : Nat) : Grab :=
  if name = [] then Grab.fail (-LINUX_ENOENT)
  else
    let dir := if dirfd = LINUX_AT_FDCWD then AT_FDCWD else dirfd
    __vfs_grab_dir readlinkat vfs_root grab_fuel dir name flags 0

/-- Source: `struct file`. The field `ops` is left out: every record made in this file gets
`vkern->darwinfs_ops`; the operation `ops->close` is an argument of the functions that
call it. `ref` is the `atomic_uint`. -/
structure file where
  fd : Int
  ref : Nat
deriving DecidableEq, Repr

/-- What the functions below do to the world outside the descriptor table. -/
inductive Event where
  /-- `file->ops->close(file)` was called on the record at address `p`, whose field `fd`
  held `fd` -/
  | ops_close (p : Nat) (fd : Int)
  /-- `shm_free(file)` was called on the record at address `p` -/
  | shm_free (p : Nat)
  /-- the host `dup2(oldfd, newfd)` was called -/
  | host_dup2 (oldfd newfd : Nat)
  /-- the host `fcntl(fd, F_SETFD, FD_CLOEXEC)` was called -/
  | host_cloexec (fd : Nat)
  /-- the host `pipe(fildes)` was called and stored the two descriptors -/
  | host_pipe (fd0 fd1 : Int)
  /-- the host `fcntl(fd, F_SETFD, FD_CLOEXEC)` was called by `sys_pipe2` -/
  | host_setfd (fd : Int)
  /-- the host `fcntl(fd, F_SETFL, O_NONBLOCK)` was called -/
  | host_setfl (fd : Int)
  /-- the host `fcntl(fd, F_NOCACHE, 1)` was called -/
  | host_nocache (fd : Int)
  /-- the host `close(fd)` was called directly -/
  | host_close (fd : Int)
  /-- the call `copy_to_user(gaddr, data, ..)` was made with the `int` values `data` -/
  | copy_to_user (gaddr : Nat) (data : List Int)
deriving DecidableEq, Repr

/-- The part of `struct proc` that `fs.c` uses, with the shared heap of `struct file`
records. `fdtab` has `proc.nr_fdtab` entries, each `NULL` (`none`) or the address of a
record. `heap p` is the record at address `p`, `none` when nothing is allocated there.
An address stands for one allocation: `shm_malloc` hands out the address `next` and a freed
address is not handed out again. `trace` lists the calls that leave the table. -/
structure proc where
  vfs_root : Int
  fdtab : List (Option Nat)
  heap : Nat → Option file
  next : Nat
  trace : List Event

/-- Source: `proc.fdtab[i]`, for `i < proc.nr_fdtab`. -/
def proc.slot (st : proc) (i : Nat) : Option Nat :=
  st.fdtab.getD i none

/-- The heap with the cell at `p` replaced. -/
def heap_set (heap : Nat → Option file) (p : Nat) (v : Option file) : Nat → Option file :=
  fun q => if q = p then v else heap q

/-- Source: `file_incref`: `atomic_fetch_add(&file->ref, 1)`. Undefined on an address without a
record. -/
def file_incref (st : proc) (p : Nat) : Option proc :=
  match st.heap p with
  | some f => some { st with heap := heap_set st.heap p (some { f with ref := (f.ref + 1) % 2 ^ 32 }) }
  | none => none

/-- Source: `file_decref`: `atomic_fetch_sub(&file->ref, 1)`, which returns the old count. -/
def file_decref (st : proc) (p : Nat) : Option (proc × Nat) :=
  match st.heap p with
  | some f =>
    some ({ st with heap := heap_set st.heap p (some { f with ref := (f.ref + 2 ^ 32 - 1) % 2 ^ 32 }) },
      f.ref)
  | none => none

/-- Source: `vfs_acquire(fd)`: the new state and the pointer returned (`none` for `NULL`). -/
def vfs_acquire (st : proc) (fd : Int) : Option (proc × Option Nat) :=
  if ¬ (0 ≤ fd ∧ fd.toNat < st.fdtab.length) then some (st, none)
  else
    match st.slot fd.toNat with
    | none => some (st, none)
    | some p =>
      match file_incref st p with
      | some st1 => some (st1, some p)
      | none => none

/-- Source: `vfs_release(file)`; `close` is `file->ops->close`. -/
def vfs_release (close : file → Int) (st : proc) (p : Nat) : Option (proc × Int) :=
  match file_decref st p with
  | none => none
  | some (st1, old) =>
    if old = 1 then
      match st1.heap p with
      | some f =>
        some ({ st1 with
                heap := heap_set st1.heap p none
                trace := st1.trace ++ [Event.ops_close p f.fd, Event.shm_free p] },
          close f)
      | none => none
    else some (st1, 0)

/-- Source: `vfs_close(fd)`; `close` is `file->ops->close`. -/
def vfs_close (close : file → Int) (st : proc) (fd : Int) : Option (proc × Int) :=
  if ¬ (0 ≤ fd ∧ fd.toNat < st.fdtab.length) then some (st, -LINUX_EBADF)
  else
    match st.slot fd.toNat with
    | none => some (st, -LINUX_EBADF)
    | some p =>
      match st.heap p with
      | none => none
      | some f =>
        let ret := close f
        let st1 := { st with trace := st.trace ++ [Event.ops_close p f.fd] }
        if ret < 0 then some (st1, ret)
        else
          let st2 := { st1 with fdtab := st1.fdtab.set fd.toNat none }
          match file_decref st2 p with
          | none => none
          | some (st3, old) =>
            if old = 1 then
              some ({ st3 with
                      heap := heap_set st3.heap p none
                      trace := st3.trace ++ [Event.shm_free p] },
                ret)
            else some (st3, ret)

/-- Source: `do_close(fd)` and `sys_close(fd)`: both are `vfs_close(fd)`. -/
def sys_close (close : file → Int) (st : proc) (fd : Int) : Option (proc × Int) :=
  vfs_close close st fd

/-- Source: `shm_malloc` of a `struct file` with `ref = ATOMIC_VAR_INIT(1)` and the given `fd`:
the new state and the address of the record. -/
def new_file (st : proc) (fd : Int) : proc × Nat :=
  ({ st with heap := heap_set st.heap st.next (some { fd := fd, ref := 1 }), next := st.next + 1 },
    st.next)

/-- Source: `vfs_expose_darwinfs_fd(fd)`; `none` when one of its two assertions fails. -/
def vfs_expose_darwinfs_fd (st : proc) (fd : Int) : Option proc :=
  let (st1, p) := new_file st fd
  if 0 ≤ fd ∧ fd.toNat < st1.fdtab.length ∧ st1.slot fd.toNat = none then
    some { st1 with fdtab := st1.fdtab.set fd.toNat (some p) }
  else none

/-- Modelled from the spec: the macro `syswrap` of `common.h`, which is not among the
sources: a thin translation from a negative result with the host `errno` to minus the Linux
errno. The argument pairs the result of the host call with `errno`. -/
def syswrap (darwin_to_linux_errno : Int → Int) (res : Int × Int) : Int :=
  if res.1 < 0 then -(darwin_to_linux_errno res.2) else res.1

/-- The host, as far as the functions below call it. Every host call answers with its result
and the value of `errno`. `linux_to_darwin_o_flags` and `darwin_to_linux_errno` are the
conversions declared in `noah.h`, whose bodies are not among the sources. -/
structure host where
  readlinkat : Readlinkat
  openat : Int → List Char → Nat → Nat → Int × Int
  close : Int → Int × Int
  dup2 : Nat → Nat → Int × Int
  fcntl_cloexec : Nat → Int × Int
  linux_to_darwin_o_flags : Nat → Nat
  darwin_to_linux_errno : Int → Int

/-- Source: `darwinfs_close(file)`: `syswrap(close(file->fd))`. -/
def darwinfs_close (h : host) (f : file) : Int :=
  syswrap h.darwin_to_linux_errno (h.close f.fd)

/-- Source: `darwinfs_openat(fs, dir, path, l_flags, mode, out)`: the new state, the value returned
and the record stored in `*out`. -/
def darwinfs_openat (h : host) (st : proc) (dir : Int) (subpath : List Char)
    (l_flags mode : Nat) : proc × Int × Option Nat :=
  let r := syswrap h.darwin_to_linux_errno
    (h.openat dir subpath (h.linux_to_darwin_o_flags l_flags) mode)
  if r < 0 then (st, r, none)
  else
    let (st1, p) := new_file st r
    (st1, 0, some p)

/-- The lookup flags that `vfs_openat` derives from the open flags. -/
def open_lkflag (flags : Nat) : Nat :=
  (if flags &&& LINUX_O_NOFOLLOW ≠ 0 then LOOKUP_NOFOLLOW else 0) |||
  (if flags &&& LINUX_O_DIRECTORY ≠ 0 then LOOKUP_DIRECTORY else 0)

/-- Source: `vfs_openat(dirfd, name, flags, mode)`: the new state and the value returned. `none`
when the lookup aborts, when `assert(proc.fdtab[file->fd] == NULL)` fails, or when
`file->fd` is not an index of `proc.fdtab`. -/
def vfs_openat (h : host) (st : proc) (dirfd : Int) (name : List Char) (flags mode : Nat) :
    Option (proc × Int) :=
  match vfs_grab_dir h.readlinkat st.vfs_root dirfd name (open_lkflag flags) with
  | Grab.abort => none
  | Grab.diverge => none
  | Grab.fail r => some (st, r)
  | Grab.ok path =>
    match darwinfs_openat h st path.dir path.subpath flags mode with
    | (st1, _, some p) =>
      match st1.heap p with
      | some f =>
        if 0 ≤ f.fd ∧ f.fd.toNat < st1.fdtab.length ∧ st1.slot f.fd.toNat = none then
          some ({ st1 with fdtab := st1.fdtab.set f.fd.toNat (some p) }, f.fd)
        else none
      | none => none
    | (st1, r, none) => some (st1, r)

/-- Modelled from the spec: Linux x86-64 `O_CLOEXEC` (octal 02000000); `linux/fs.h` is not
among the sources. -/
def LINUX_O_CLOEXEC : Nat := 0x80000

/-- Source: `sys_dup3(oldfd, newfd, flags)`: the new state and the value returned. `none` when
`newfd` is not an index of `proc.fdtab`. -/
def sys_dup3 (h : host) (st : proc) (oldfd newfd : Nat) (flags : Nat) : Option (proc × Int) :=
  if flags &&& (0xFFFFFFFF ^^^ LINUX_O_CLOEXEC) ≠ 0 then some (st, -LINUX_EINVAL)
  else if oldfd = newfd then some (st, -LINUX_EINVAL)
  else if ¬ newfd < st.fdtab.length then none
  else
    let alloc_newfile : Bool := st.slot newfd = none
    let ret := syswrap h.darwin_to_linux_errno (h.dup2 oldfd newfd)
    let st1 := { st with trace := st.trace ++ [Event.host_dup2 oldfd newfd] }
    let st2 :=
      if alloc_newfile ∧ 0 ≤ ret then
        let (st3, p) := new_file st1 (Int.ofNat newfd)
        { st3 with fdtab := st3.fdtab.set newfd (some p) }
      else st1
    if ret = 0 ∧ flags &&& LINUX_O_CLOEXEC ≠ 0 then
      some ({ st2 with trace := st2.trace ++ [Event.host_cloexec newfd] },
        syswrap h.darwin_to_linux_errno (h.fcntl_cloexec newfd))
    else some (st2, ret)

/-! ## Sequences of operations -/

/-- The operations on the descriptor table that a client runs one after the other. Each
carries the answers of the host and of `ops->close` at that moment. -/
inductive Op where
  | openat (h : host) (dirfd : Int) (name : List Char) (flags mode : Nat)
  | expose (fd : Int)
  | dup3 (h : host) (oldfd newfd flags : Nat)
  | acquire (fd : Int)
  | release (close : file → Int) (p : Nat)
  | close (close : file → Int) (fd : Int)

/-- One operation. The second component is the list of the pointers that `vfs_acquire` has
returned and that have not been handed to `vfs_release` yet. `none` when the operation has no
defined result, and for a `vfs_release` of a pointer that is not in that list. -/
def step (s : proc × List Nat) : Op → Option (proc × List Nat)
  | Op.openat h dirfd name flags mode =>
    (vfs_openat h s.1 dirfd name flags mode).map (fun r => (r.1, s.2))
  | Op.expose fd => (vfs_expose_darwinfs_fd s.1 fd).map (fun st => (st, s.2))
  | Op.dup3 h oldfd newfd flags => (sys_dup3 h s.1 oldfd newfd flags).map (fun r => (r.1, s.2))
  | Op.acquire fd =>
    (vfs_acquire s.1 fd).map (fun r =>
      match r.2 with
      | some p => (r.1, p :: s.2)
      | none => (r.1, s.2))
  | Op.release close p =>
    if p ∈ s.2 then (vfs_release close s.1 p).map (fun r => (r.1, s.2.erase p)) else none
  | Op.close close fd => (vfs_close close s.1 fd).map (fun r => (r.1, s.2))

/-- A sequence of operations, from left to right. -/
def run (s : proc × List Nat) : List Op → Option (proc × List Nat)
  | [] => some s
  | op :: ops =>
    match step s op with
    | some s1 => run s1 ops
    | none => none

/-- The process with an empty descriptor table of `nr_fdtab` entries and nothing allocated. -/
def proc_init (vfs_root : Int) (nr_fdtab : Nat) : proc :=
  { vfs_root := vfs_root, fdtab := List.replicate nr_fdtab none, heap := fun _ => none,
    next := 0, trace := [] }

/-! ## Definitions used by the statements and proofs -/

/-- The `Visit` that the body of `__vfs_grab_dir` makes of the way its loop is left. -/
def Walk.visit (dir : Int) : Walk → Visit
  | Walk.out sp => Visit.out { dir := dir, subpath := sp }
  | Walk.follow nm => Visit.again dir nm
  | Walk.diverge => Visit.diverge

/-- The four literals of the mount-prefix test: `/Users`, `/Volumes`, `/dev`, `/tmp`. -/
def mount_points : List (List Char) :=
  [['/', 'U', 's', 'e', 'r', 's'], ['/', 'V', 'o', 'l', 'u', 'm', 'e', 's'],
   ['/', 'd', 'e', 'v'], ['/', 't', 'm', 'p']]

/-- A file system with the two symlinks `a -> /b` and `b -> /a` and nothing else. -/
def readlink_ab : Readlinkat := fun _ p =>
  if p = ['a'] then some ['/', 'b'] else if p = ['b'] then some ['/', 'a'] else none

/-- A file system whose only symlink is `/tmp -> private/tmp`, as on the host. -/
def readlink_tmp : Readlinkat := fun _ p =>
  if p = ['/', 't', 'm', 'p'] then some ['p', 'r', 'i', 'v', 'a', 't', 'e', '/', 't', 'm', 'p']
  else none

/-- A host whose file system is `readlink_ab`, whose `openat` answers 5 and whose other
calls answer 0. -/
def host_ab : host where
  readlinkat := readlink_ab
  openat := fun _ _ _ _ => (5, 0)
  close := fun _ => (0, 0)
  dup2 := fun _ newfd => (Int.ofNat newfd, 0)
  fcntl_cloexec := fun _ => (0, 0)
  linux_to_darwin_o_flags := fun fl => fl
  darwin_to_linux_errno := fun e => e

/-- A process with four slots, of which slot 3 holds the record at address 0, a file with
`fd = 3` and reference count 1. -/
def proc_one : proc where
  vfs_root := 0
  fdtab := [none, none, none, some 0]
  heap := fun q => if q = 0 then some { fd := 3, ref := 1 } else none
  next := 1
  trace := []

/-- The number of references to the record at `p` that a client state holds: the slots of
`fdtab` that point to it and the pointers from `vfs_acquire` not yet released. -/
def refs (s : proc × List Nat) (p : Nat) : Nat :=
  s.1.fdtab.count (some p) + s.2.count p

/-- The bound under which an `atomic_uint` counts the references without wrapping: the
number of slots plus the number of pointers in flight is below `2 ^ 32`. -/
def in_flight_ok (s : proc × List Nat) : Bool :=
  decide (s.1.fdtab.length + s.2.length < 2 ^ 32)

/-- The bound `in_flight_ok` holds in every state that a sequence of operations passes. -/
def bounded : proc × List Nat → List Op → Bool
  | s, [] => in_flight_ok s
  | s, op :: ops =>
    in_flight_ok s &&
      match step s op with
      | some s1 => bounded s1 ops
      | none => true

/-- The invariant of the descriptor table: addresses from `next` on are unused; the count of
a record is the number of references to it and is positive; a freed or unused address has
no reference; `shm_free` was called once on each freed record and never on another. -/
structure Inv (s : proc × List Nat) : Prop where
  fresh : ∀ p, s.1.next ≤ p → s.1.heap p = none
  live : ∀ p f, s.1.heap p = some f → f.ref = refs s p ∧ 1 ≤ f.ref
  dead : ∀ p, s.1.heap p = none → refs s p = 0
  freed : ∀ p, s.1.trace.count (Event.shm_free p) =
    if p < s.1.next ∧ s.1.heap p = none then 1 else 0

/-- What one operation may do to the heap: an address that is allocated and without a record
after the step was so before, or held a record with reference count 1 before. -/
def heap_step (s t : proc × List Nat) : Prop :=
  ∀ p, t.1.heap p = none → p < t.1.next →
    (s.1.heap p = none ∧ p < s.1.next) ∨ (∃ f, s.1.heap p = some f ∧ f.ref = 1)

/-- Open descriptor 3, take a reference to its file. -/
def ops_acquire : List Op :=
  [Op.expose 3, Op.acquire 3]

/-- Open descriptor 3, take a reference to its file, close the descriptor, then release the
reference; `ops->close` answers 0 the first time and `-EBADF` the second time. -/
def ops_acquire_close_release : List Op :=
  [Op.expose 3, Op.acquire 3, Op.close (fun _ => 0) 3, Op.release (fun _ => -LINUX_EBADF) 0]

/-! ## System-call handlers of `fs.c` that read a path from guest memory -/

/-- Modelled from the spec: Linux 4.6.4 numbering, `EPERM` is 1. -/
def LINUX_EPERM : Int := 1

/-- Modelled from the spec: Linux 4.6.4 numbering, `EACCES` is 13. -/
def LINUX_EACCES : Int := 13

/-- Modelled from the spec: Linux 4.6.4 numbering, `EFAULT` is 14. -/
def LINUX_EFAULT : Int := 14

/-- Modelled from the spec: Linux 4.6.4 numbering, `ENAMETOOLONG` is 36. -/
def LINUX_ENAMETOOLONG : Int := 36

/-- Modelled from the spec: the host header is not among the sources; Darwin `PATH_MAX`. -/
def PATH_MAX : Int := 1024

/-- Guest memory as `strncpy_from_user(buf, gaddr, sizeof buf)` sees it: for a guest address,
the value that the call returns (negative when the copy fails) and the C string that the
buffer `buf` holds afterwards. After a failed copy the buffer holds whatever the oracle
says: the handlers do not initialise it. -/
abbrev UserStr := Nat → Int × List Char

/-- Source: `sys_openat(dirfd, path_ptr, flags, mode)`. The value that `strncpy_from_user`
returns is not looked at. -/
def sys_openat (h : host) (user : UserStr) (st : proc) (dirfd : Int) (path_ptr : Nat)
    (flags mode : Nat) : Option (proc × Int) :=
  vfs_openat h st dirfd (user path_ptr).2 flags mode

/-- Source: `sys_faccessat(dirfd, path_ptr, mode)`; `faccessat` is
`path.fs->ops->faccessat`, given the directory token and the subpath. `none` when the lookup
has no result. -/
def sys_faccessat (rl : Readlinkat) (faccessat : Int → List Char → Nat → Int) (vfs_root : Int)
    (user : UserStr) (dirfd : Int) (path_ptr : Nat) (mode : Nat) : Option Int :=
  if (user path_ptr).1 < 0 then some (-LINUX_EFAULT)
  else
    match vfs_grab_dir rl vfs_root dirfd (user path_ptr).2 0 with
    | Grab.abort => none
    | Grab.diverge => none
    | Grab.fail r => some r
    | Grab.ok p => some (faccessat p.dir p.subpath mode)

/-- Source: `struct cred` as `init_first_proc` of `main.c` fills `proc.cred`: the real, the
effective and the saved UID of the emulated process. -/
structure cred where
  uid : Int
  euid : Int
  suid : Int
deriving DecidableEq, Repr

/-- Source: `sys_chroot(path_ptr)`. `getuid` is the value of the host call `getuid()`, the
real UID of the host process. -/
def sys_chroot (getuid : Int) (user : UserStr) (path_ptr : Nat) : Int :=
  let len := (user path_ptr).1
  let path := (user path_ptr).2
  if len = PATH_MAX then -LINUX_ENAMETOOLONG
  else if len < 0 then -LINUX_EFAULT
  else if getuid ≠ 0 then -LINUX_EPERM
  else if ¬ (path.head? = some '/' ∧ path.tail = []) then -LINUX_EACCES
  else 0

/-! ## Directory entries -/

/-- The fields of the host `struct dirent` that `darwinfs_getdents` reads; `d_name` holds
the bytes of the name buffer. -/
structure dirent where
  d_ino : Nat
  d_seekoff : Nat
  d_namlen : Nat
  d_type : Nat
  d_name : List Nat
deriving DecidableEq, Repr

/-- One record that `darwinfs_getdents` writes into the buffer `direntp`: the offset `pos`
of the record, the values it stores in `d_reclen`, `d_ino` and `d_off`, the offset
`name_at` at which `memcpy` stores the `name` (the first `d_namlen + 1` bytes of the host
name buffer), and the offset `type_at` of the byte that receives `d_type`. -/
structure l_dirent_record where
  pos : Nat
  d_reclen : Nat
  d_ino : Nat
  d_off : Nat
  name_at : Nat
  name : List Nat
  type_at : Nat
  d_type : Nat
deriving DecidableEq, Repr

/-- Modelled from the spec: the macro `roundup(x, y)` of the host `sys/param.h`, which
rounds `x` up to a multiple of `y`. -/
def roundup (x y : Nat) : Nat :=
  ((x + (y - 1)) / y) * y

/-- The record length that `darwinfs_getdents` computes for an entry; `name_off` is
`offsetof(struct l_dirent, d_name)`, whose header is not among the sources. -/
def dirent_reclen (name_off : Nat) (dent : dirent) : Nat :=
  roundup (name_off + dent.d_namlen + 2) 8

/-- The `while ((dent = readdir(dir)) != NULL)` loop of `darwinfs_getdents` over the entries
that `readdir` still has to deliver: the records written and the final `pos`. -/
def getdents_loop (name_off count : Nat) : List dirent → Nat → List l_dirent_record × Nat
  | [], pos => ([], pos)
  | dent :: rest, pos =>
    let reclen := dirent_reclen name_off dent
    if pos + reclen > count then ([], pos)
    else
      let r : l_dirent_record :=
        { pos := pos, d_reclen := reclen, d_ino := dent.d_ino, d_off := dent.d_seekoff,
          name_at := pos + name_off, name := dent.d_name.take (dent.d_namlen + 1),
          type_at := pos + reclen - 1, d_type := dent.d_type }
      let out := getdents_loop name_off count rest (pos + reclen)
      (r :: out.1, out.2)

/-- The conversion of a `size_t` to the `int` that a function returns. -/
def int_of_size (n : Nat) : Int :=
  if n % 2 ^ 32 < 2 ^ 31 then ((n % 2 ^ 32 : Nat) : Int) else ((n % 2 ^ 32 : Nat) : Int) - 2 ^ 32

/-- What the host answers to `darwinfs_getdents`: whether `fdopendir` fails and with which
`errno`; the entries that `readdir` delivers before it returns `NULL`; and the `errno` that
this last `readdir` leaves (0 at the end of the directory). -/
structure dir_host where
  fdopendir_errno : Option Int
  entries : List dirent
  readdir_errno : Int
  darwin_to_linux_errno : Int → Int

/-- Source: `darwinfs_getdents(file, direntp, count)`: the records written into `direntp`
and the value returned. -/
def darwinfs_getdents (h : dir_host) (name_off : Nat) (count : Nat) :
    List l_dirent_record × Int :=
  match h.fdopendir_errno with
  | some e => ([], -(h.darwin_to_linux_errno e))
  | none =>
    let out := getdents_loop name_off count h.entries 0
    -- the loop ends at `goto end` when an entry does not fit, else when `readdir` is `NULL`
    if out.1.length < h.entries.length then (out.1, int_of_size out.2)
    else if h.readdir_errno ≠ 0 then (out.1, -(h.darwin_to_linux_errno h.readdir_errno))
    else (out.1, int_of_size out.2)

/-! ## Pipes -/

/-- Modelled from the spec: Linux x86-64 `O_NONBLOCK` (octal 04000); `linux/fs.h` is not
among the sources. -/
def LINUX_O_NONBLOCK : Nat := 0x800

/-- Modelled from the spec: Linux x86-64 `O_DIRECT` (octal 040000); `linux/fs.h` is not
among the sources. -/
def LINUX_O_DIRECT : Nat := 0x4000

/-- The host, as far as `sys_pipe2` calls it: `pipe` gives the value returned by
`pipe(fildes)`, the `errno` it leaves, and the two descriptors stored in `fildes`; the three
`fcntl` calls give their result and `errno` for a descriptor; `copy_to_user` gives the value
returned for a guest address (0 on success). -/
structure pipe_host where
  pipe : Int × Int × Int × Int
  setfd : Int → Int × Int
  setfl : Int → Int × Int
  nocache : Int → Int × Int
  copy_to_user : Nat → Nat
  darwin_to_linux_errno : Int → Int

/-- The state after the host calls `evs` were made: only the trace grows. -/
def proc.log (st : proc) (evs : List Event) : proc :=
  { st with trace := st.trace ++ evs }

/-- The label `fail_fcntl` of `sys_pipe2`: both descriptors are closed and the first negative
error is returned. -/
def pipe2_fail (st : proc) (fd0 fd1 err0 err1 : Int) : proc × Int :=
  (st.log [Event.host_close fd0, Event.host_close fd1], if err0 < 0 then err0 else err1)

/-- Source: `sys_pipe2(fildes_ptr, flags)`: the new state and the value returned. `none`
when an assertion of `vfs_expose_darwinfs_fd` fails. `flags` is a 32-bit value. -/
def sys_pipe2 (h : pipe_host) (st : proc) (fildes_ptr : Nat) (flags : Nat) :
    Option (proc × Int) :=
  if flags &&& (0xFFFFFFFF ^^^ (LINUX_O_NONBLOCK ||| LINUX_O_CLOEXEC ||| LINUX_O_DIRECT)) ≠ 0 then
    some (st, -LINUX_EINVAL)
  else
    let err := h.pipe.1
    let fd0 := h.pipe.2.2.1
    let fd1 := h.pipe.2.2.2
    let s0 := st.log [Event.host_pipe fd0 fd1]
    if err < 0 then some (s0, err)
    else
      let cloexec : Bool := flags &&& LINUX_O_CLOEXEC ≠ 0
      let c0 := syswrap h.darwin_to_linux_errno (h.setfd fd0)
      let c1 := syswrap h.darwin_to_linux_errno (h.setfd fd1)
      let s1 := s0.log (if cloexec then [Event.host_setfd fd0, Event.host_setfd fd1] else [])
      if cloexec ∧ (c0 < 0 ∨ c1 < 0) then some (pipe2_fail s1 fd0 fd1 c0 c1)
      else
        let nonblock : Bool := flags &&& LINUX_O_NONBLOCK ≠ 0
        let n0 := syswrap h.darwin_to_linux_errno (h.setfl fd0)
        let n1 := syswrap h.darwin_to_linux_errno (h.setfl fd1)
        let s2 := s1.log (if nonblock then [Event.host_setfl fd0, Event.host_setfl fd1] else [])
        if nonblock ∧ (n0 < 0 ∨ n1 < 0) then some (pipe2_fail s2 fd0 fd1 n0 n1)
        else
          let direct : Bool := flags &&& LINUX_O_DIRECT ≠ 0
          let d0 := syswrap h.darwin_to_linux_errno (h.nocache fd0)
          let d1 := syswrap h.darwin_to_linux_errno (h.nocache fd1)
          let s3 :=
            s2.log (if direct then [Event.host_nocache fd0, Event.host_nocache fd1] else [])
          if direct ∧ (d0 < 0 ∨ d1 < 0) then some (pipe2_fail s3 fd0 fd1 d0 d1)
          else
            let s4 := s3.log [Event.copy_to_user fildes_ptr [fd0, fd1]]
            if h.copy_to_user fildes_ptr ≠ 0 then some (s4, -LINUX_EFAULT)
            else
              match vfs_expose_darwinfs_fd s4 fd0 with
              | none => none
              | some s5 =>
                match vfs_expose_darwinfs_fd s5 fd1 with
                | none => none
                | some s6 => some (s6, 0)

/-! ## The supervisor loop of `main.c` -/

/-- The guest registers that `main.c` reads or writes through `vmm_read_register` and
`vmm_write_register`. -/
inductive Reg where
  | RAX | RBX | RCX | RDX | RDI | RSI | R8 | R9 | R10 | RIP | XCR0
deriving DecidableEq, Repr

/-- What the supervisor loop asks of the rest of the emulator. -/
inductive Action where
  /-- the call `send_signal(getpid(), sig)` -/
  | send_signal (sig : Nat)
  /-- the call `sc_handler_table[nr](a0, a1, a2, a3, a4, a5)` -/
  | handler (nr : Nat) (a0 a1 a2 a3 a4 a5 : Nat)
  /-- the call `do_mmap(0, len, ..)` of `handle_vsyscall` -/
  | do_mmap (len : Nat)
  /-- the call `copy_to_user(gaddr, data, sizeof data)` with the bytes `data` -/
  | copy_to_user (gaddr : Nat) (data : List Nat)
deriving DecidableEq, Repr

/-- The state that the supervisor loop works on: the guest registers (64-bit values), the
field `proc.vsyscall_page`, and the calls made so far. -/
structure vcpu where
  regs : Reg → Nat
  vsyscall_page : Nat
  actions : List Action

/-- Source: `vmm_write_register(reg, value)`. -/
def vcpu.write (m : vcpu) (r : Reg) (v : Nat) : vcpu :=
  { m with regs := fun q => if q = r then v else m.regs q }

/-- Appends one call to the record of the calls made. -/
def vcpu.act (m : vcpu) (a : Action) : vcpu :=
  { m with actions := m.actions ++ [a] }

/-- Source: `#define VSYSCALL_PAGE_ADDR 0xffffffffff600000` -/
def VSYSCALL_PAGE_ADDR : Nat := 0xffffffffff600000

/-- Source: `is_vsyscall(gladdr)`; `gladdr` is a 64-bit guest linear address. -/
def is_vsyscall (gladdr : Nat) : Bool :=
  if gladdr < VSYSCALL_PAGE_ADDR ∨ gladdr > VSYSCALL_PAGE_ADDR + 0x1000 then false
  else true

/-- Source: `handle_vsyscall(gladdr)`; `mmap_result` is what `do_mmap` returns when it is
called. The new state and the value returned. -/
def handle_vsyscall (mmap_result : Nat) (m : vcpu) (gladdr : Nat) : vcpu × Bool :=
  if ¬ is_vsyscall gladdr then (m, false)
  else
    let m1 :=
      if m.vsyscall_page = 0 then
        (({ m with vsyscall_page := mmap_result }.act (Action.do_mmap 3)).act
          (Action.copy_to_user mmap_result [0x0f, 0x05, 0xC3]))
      else m
    if gladdr = VSYSCALL_PAGE_ADDR then
      ((m1.write Reg.RAX 96).write Reg.RIP m1.vsyscall_page, true)
    else if gladdr = VSYSCALL_PAGE_ADDR + 0x400 then
      ((m1.write Reg.RAX 201).write Reg.RIP m1.vsyscall_page, true)
    else if gladdr = VSYSCALL_PAGE_ADDR + 0x800 then
      ((m1.write Reg.RAX 309).write Reg.RIP m1.vsyscall_page, true)
    else (m1, false)

/-- Modelled from the spec: Linux signal numbering, `SIGILL` is 4; `linux/signal.h` is not
among the sources. -/
def LINUX_SIGILL : Nat := 4

/-- Modelled from the spec: Linux signal numbering, `SIGSEGV` is 11. -/
def LINUX_SIGSEGV : Nat := 11

/-- Modelled from the spec: Linux signal numbering, `SIGSYS` is 31. -/
def LINUX_SIGSYS : Nat := 31

/-- Modelled from the spec: Linux x86-64 system-call numbering, `rt_sigreturn` is 15;
`syscall.h` is not among the sources. -/
def LSYS_rt_sigreturn : Nat := 15

/-- The table `sc_handler_table`: what the handler at an index does to the state when it is
called with six arguments, and the 64-bit value it returns. -/
abbrev HandlerTable := Nat → Nat → Nat → Nat → Nat → Nat → Nat → vcpu → vcpu × Nat

/-- Source: `handle_syscall()`; `nr_syscalls` is the constant `NR_SYSCALLS`, whose header
is not among the sources. The new state and the value returned; `none` for the value when
the index into `sc_handler_table` is not below `NR_SYSCALLS`, where the call has no defined
behaviour. -/
def handle_syscall (nr_syscalls : Nat) (table : HandlerTable) (m : vcpu) : vcpu × Option Int :=
  let rax := m.regs Reg.RAX
  let m1 := if rax ≥ nr_syscalls then m.act (Action.send_signal LINUX_SIGSYS) else m
  let rdi := m1.regs Reg.RDI
  let rsi := m1.regs Reg.RSI
  let rdx := m1.regs Reg.RDX
  let r10 := m1.regs Reg.R10
  let r8 := m1.regs Reg.R8
  let r9 := m1.regs Reg.R9
  if rax ≥ nr_syscalls then (m1, none)
  else
    let m2 := m1.act (Action.handler rax rdi rsi rdx r10 r8 r9)
    let res := table rax rdi rsi rdx r10 r8 r9 m2
    let m3 := res.1.write Reg.RAX res.2
    (m3, some (if rax = LSYS_rt_sigreturn then -1 else 0))

/-- Modelled from the spec: Intel SDM basic exit reasons, as named in `x86/vmx.h`, which is
not among the sources: exception or NMI is 0. -/
def VMX_REASON_EXC_NMI : Nat := 0

/-- Modelled from the spec: Intel SDM basic exit reason of an external interrupt, 1. -/
def VMX_REASON_IRQ : Nat := 1

/-- Modelled from the spec: Intel SDM basic exit reason of `CPUID`, 10. -/
def VMX_REASON_CPUID : Nat := 10

/-- Modelled from the spec: Intel SDM basic exit reason of `HLT`, 12. -/
def VMX_REASON_HLT : Nat := 12

/-- Modelled from the spec: Intel SDM basic exit reason of `VMCALL`, 18. -/
def VMX_REASON_VMCALL : Nat := 18

/-- Modelled from the spec: Intel SDM basic exit reason of a VM-entry failure due to invalid
guest state, 33. -/
def VMX_REASON_VMENTRY_GUEST : Nat := 33

/-- Modelled from the spec: Intel SDM basic exit reason of an EPT violation, 48. -/
def VMX_REASON_EPT_VIOLATION : Nat := 48

/-- Modelled from the spec: Intel SDM interruption type of an external interrupt, 0. -/
def VMCS_EXCTYPE_EXTERNAL_INTERRUPT : Nat := 0

/-- Modelled from the spec: Intel SDM interruption type of a non-maskable interrupt, 2. -/
def VMCS_EXCTYPE_NONMASKTABLE_INTERRUPT : Nat := 2

/-- Modelled from the spec: Intel SDM interruption type of a hardware exception, 3. -/
def VMCS_EXCTYPE_HARDWARE_EXCEPTION : Nat := 3

/-- Modelled from the spec: Intel SDM interruption type of a software exception, 6. -/
def VMCS_EXCTYPE_SOFTWARE_EXCEPTION : Nat := 6

/-- Modelled from the spec: x86 vector of the invalid-opcode exception, 6. -/
def X86_VEC_UD : Nat := 6

/-- Modelled from the spec: x86 vector of the page-fault exception, 14. -/
def X86_VEC_PF : Nat := 14

/-- Modelled from the spec: the AVX state bit of `XCR0`, bit 2; `x86/specialreg.h` is not
among the sources. -/
def XCR0_AVX_STATE : Nat := 4

/-- Modelled from the spec: Linux `PROT_READ`, used as `VERIFY_READ`. -/
def VERIFY_READ : Nat := 1

/-- Modelled from the spec: Linux `PROT_WRITE`, used as `VERIFY_WRITE`. -/
def VERIFY_WRITE : Nat := 2

/-- Modelled from the spec: Linux `PROT_EXEC`, used as `VERIFY_EXEC`. -/
def VERIFY_EXEC : Nat := 4

/-- What one VM exit presents to the loop: the VMCS fields it reads, guest memory as
`copy_from_user(buf, gaddr, n)` sees it (`none` when the copy fails), and the answers of
`addr_ok`, of the host `cpuid`, of `do_mmap`, of `check_vm_entry` (whether its assertions
hold) and of the system-call handlers. -/
structure vmexit where
  exit_reason : Nat
  irq_info : Nat
  qualification : Nat
  instr_len : Nat
  guest_lin_addr : Nat
  mem : Nat → Nat → Option (List Nat)
  addr_ok : Nat → Nat → Bool
  cpuid : Nat → Nat × Nat × Nat × Nat
  cpuid_count : Nat → Nat → Nat × Nat × Nat × Nat
  mmap_result : Nat
  check_vm_entry_ok : Bool
  nr_syscalls : Nat
  table : HandlerTable

/-- Source: `is_avx(instlen, rip)`. -/
def is_avx (e : vmexit) (rip : Nat) : Bool :=
  match e.mem rip 1 with
  | some [op] => op = 0xc4 ∨ op = 0xc5
  | _ => false

/-- Source: `is_syscall(instlen, rip)`; the two bytes at `rip` are read as a little-endian
`ushort` and compared with `0x050f`. -/
def is_syscall (e : vmexit) (instlen rip : Nat) : Bool :=
  if instlen ≠ 2 then false
  else
    match e.mem rip 2 with
    | some [b0, b1] => b0 + 256 * b1 = 0x050f
    | _ => false

/-- How one pass through the body of the `while` loop of `main_loop` ends. -/
inductive Flow where
  /-- the body is left by `continue` or at its end: the loop condition is evaluated again -/
  | next
  /-- the statement `return` -/
  | ret
  /-- the call `exit(code)` -/
  | exit (code : Nat)
  /-- a failed `assert` -/
  | abort
  /-- the call of a handler outside `sc_handler_table` -/
  | undefined
deriving DecidableEq, Repr

/-- The block that follows the labels `case X86_VEC_DE:` to `default:` in the switch on the
exception vector: the instruction bytes are read and printed, then `exit(1)`. -/
def exception_thrown (e : vmexit) (m : vcpu) : vcpu × Flow :=
  match e.mem (m.regs Reg.RIP) e.instr_len with
  | none => (m, Flow.abort)
  | some _ => (m, Flow.exit 1)

/-- The block of `case X86_VEC_UD:` in `main_loop`. It has no `break` at its end, so that
control goes on into the block of the following labels. -/
def invalid_opcode (e : vmexit) (return_on_sigret : Bool) (m : vcpu) : vcpu × Flow :=
  let instlen := e.instr_len
  let rip := m.regs Reg.RIP
  if is_syscall e instlen rip then
    let res := handle_syscall e.nr_syscalls e.table m
    match res.2 with
    | none => (res.1, Flow.undefined)
    | some r =>
      let rip1 := res.1.regs Reg.RIP
      let m1 := res.1.write Reg.RIP ((rip1 + 2) % 2 ^ 64)
      if return_on_sigret ∧ r < 0 then (m1, Flow.ret) else (m1, Flow.next)
  else
    let xcr0 := m.regs Reg.XCR0
    if is_avx e rip ∧ xcr0 &&& XCR0_AVX_STATE = 0 ∧
        (e.cpuid_count 0x0d 0x0).1 &&& XCR0_AVX_STATE ≠ 0 then
      (m.write Reg.XCR0 (xcr0 ||| XCR0_AVX_STATE), Flow.next)
    else
      match e.mem rip instlen with
      | none => (m, Flow.abort)
      | some _ => exception_thrown e (m.act (Action.send_signal LINUX_SIGILL))

/-- The block of `case VMX_REASON_EPT_VIOLATION:` in `main_loop`. -/
def ept_violation (e : vmexit) (m : vcpu) : vcpu × Flow :=
  let qual := e.qualification
  if qual &&& (1 <<< 7) ≠ 0 then
    let gladdr := e.guest_lin_addr
    let verify :=
      if qual &&& (1 <<< 0) ≠ 0 then VERIFY_READ
      else if qual &&& (1 <<< 1) ≠ 0 then VERIFY_WRITE
      else if qual &&& (1 <<< 2) ≠ 0 then VERIFY_EXEC
      else 0
    if ¬ e.addr_ok gladdr verify then (m.act (Action.send_signal LINUX_SIGSEGV), Flow.next)
    else (m, Flow.next)
  else (m, Flow.next)

/-- The body of the `while` loop of `main_loop(return_on_sigret)` for one VM exit. -/
def main_loop_body (e : vmexit) (return_on_sigret : Bool) (m : vcpu) : vcpu × Flow :=
  if e.exit_reason = VMX_REASON_VMCALL then (m, Flow.abort)
  else if e.exit_reason = VMX_REASON_EXC_NMI then
    let exc_info := e.irq_info
    let int_type := (exc_info &&& 0x700) >>> 8
    if int_type = VMCS_EXCTYPE_EXTERNAL_INTERRUPT ∨
        int_type = VMCS_EXCTYPE_NONMASKTABLE_INTERRUPT then (m, Flow.next)
    else if int_type = VMCS_EXCTYPE_HARDWARE_EXCEPTION ∨
        int_type = VMCS_EXCTYPE_SOFTWARE_EXCEPTION then
      let exc_vec := exc_info &&& 0xff
      if exc_vec = X86_VEC_PF then
        let gladdr := e.qualification
        let res := handle_vsyscall e.mmap_result m gladdr
        if ¬ res.2 then (res.1.act (Action.send_signal LINUX_SIGSEGV), Flow.next)
        else (res.1, Flow.next)
      else if exc_vec = X86_VEC_UD then invalid_opcode e return_on_sigret m
      else exception_thrown e m
    else (m, Flow.abort)
  else if e.exit_reason = VMX_REASON_EPT_VIOLATION then ept_violation e m
  else if e.exit_reason = VMX_REASON_CPUID then
    let rax := m.regs Reg.RAX
    let r := e.cpuid (rax % 2 ^ 32)
    let m1 := (((m.write Reg.RAX r.1).write Reg.RBX r.2.1).write Reg.RCX r.2.2.1).write
      Reg.RDX r.2.2.2
    (m1.write Reg.RIP ((m1.regs Reg.RIP + 2) % 2 ^ 64), Flow.next)
  else if e.exit_reason = VMX_REASON_IRQ then (m, Flow.next)
  else if e.exit_reason = VMX_REASON_HLT then (m, Flow.next)
  else
    let reason :=
      if e.exit_reason &&& 0xFFFFFFFF80000000 ≠ 0 then e.exit_reason ^^^ 0xFFFFFFFF80000000
      else e.exit_reason
    if reason &&& VMX_REASON_VMENTRY_GUEST ≠ 0 ∧ ¬ e.check_vm_entry_ok then (m, Flow.abort)
    else (m, Flow.next)

/-- A run of `handle_vsyscall` over faulting addresses, each with the address that `do_mmap`
would return at that call. -/
def vsyscall_run (m : vcpu) : List (Nat × Nat) → vcpu
  | [] => m
  | (gladdr, mmap_result) :: rest =>
    vsyscall_run (handle_vsyscall mmap_result m gladdr).1 rest

/-! ## Definitions used by the statements about the handlers and the loop -/

/-- The VM exit is an exception of vector `vec`: the exit reason is `VMX_REASON_EXC_NMI`,
the interruption type is a hardware or a software exception. -/
def vmexit.is_exception (e : vmexit) (vec : Nat) : Prop :=
  e.exit_reason = VMX_REASON_EXC_NMI ∧
  ((e.irq_info &&& 0x700) >>> 8 = VMCS_EXCTYPE_HARDWARE_EXCEPTION ∨
    (e.irq_info &&& 0x700) >>> 8 = VMCS_EXCTYPE_SOFTWARE_EXCEPTION) ∧
  e.irq_info &&& 0xff = vec

/-- A state with all registers 0, no vsyscall page and no call made. -/
def vcpu_init : vcpu where
  regs := fun _ => 0
  vsyscall_page := 0
  actions := []

/-- A table of handlers that all return 7 and leave the state alone. -/
def table_seven : HandlerTable := fun _ _ _ _ _ _ _ m => (m, 7)

/-- A VM exit with exit reason `reason`, interruption information `info` and exit
qualification `qual`, at which the two bytes `0F 0B` (the instruction `ud2`) are readable at
every address, `addr_ok` rejects every address, `do_mmap` would return `0x7000` and the
host `cpuid` reports nothing. -/
def exit_of (reason info qual : Nat) : vmexit where
  exit_reason := reason
  irq_info := info
  qualification := qual
  instr_len := 2
  guest_lin_addr := 0x1000
  mem := fun _ n => some (([0x0f, 0x0b] : List Nat).take n)
  addr_ok := fun _ _ => false
  cpuid := fun _ => (0, 0, 0, 0)
  cpuid_count := fun _ _ => (0, 0, 0, 0)
  mmap_result := 0x7000
  check_vm_entry_ok := true
  nr_syscalls := 512
  table := table_seven

/-- The states that a process passes while it only handles vsyscall faults: either no page
is installed and nothing was copied, or a page is installed and the one copy made wrote
`0F 05 C3` to it. -/
def vsyscall_inv (m : vcpu) : Prop :=
  (m.vsyscall_page = 0 ∧ m.actions = []) ∨
  (m.vsyscall_page ≠ 0 ∧
    m.actions = [Action.do_mmap 3, Action.copy_to_user m.vsyscall_page [0x0f, 0x05, 0xC3]])

/-- Guest memory at which `strncpy_from_user` fails for every address, returning `-EFAULT`,
and leaves the byte `x` and a NUL in the buffer. -/
def user_fault : UserStr := fun _ => (-LINUX_EFAULT, ['x'])

/-- Guest memory that holds the string `/` at every address; `strncpy_from_user` returns its
length 1. -/
def user_root : UserStr := fun _ => (1, ['/'])

/-- Source: `elevate_privilege()` of `main.c`, as far as it writes `proc.cred`: the recorded
effective and saved UID become 0; the real UID stays. -/
def elevate_privilege (c : cred) : cred :=
  { c with euid := 0, suid := 0 }

/-- The records of a buffer lie one after the other from the offset `pos` on. -/
def contiguous : Nat → List l_dirent_record → Prop
  | _, [] => True
  | pos, r :: rs => r.pos = pos ∧ contiguous (pos + r.d_reclen) rs

/-- A directory with the two entries `a` and `bc`. -/
def two_entries : List dirent :=
  [{ d_ino := 11, d_seekoff := 1, d_namlen := 1, d_type := 8, d_name := [97, 0] },
   { d_ino := 12, d_seekoff := 2, d_namlen := 2, d_type := 4, d_name := [98, 99, 0] }]

/-- A host on which `pipe` gives the descriptors 3 and 4 and every call succeeds. -/
def pipe_host_ok : pipe_host where
  pipe := (0, 0, 3, 4)
  setfd := fun _ => (0, 0)
  setfl := fun _ => (0, 0)
  nocache := fun _ => (0, 0)
  copy_to_user := fun _ => 0
  darwin_to_linux_errno := fun e => e

/-- A host whose directory stream delivers `two_entries` without error. -/
def dir_two : dir_host where
  fdopendir_errno := none
  entries := two_entries
  readdir_errno := 0
  darwin_to_linux_errno := fun e => e

/-! ## The loop of `main_loop` -/

/-- One turn of the `while` loop of `main_loop`: what `task_run()` does to the state
(pending signals are handled, then `vmm_run()` lets the guest run up to the next VM exit)
together with the value it returns, and the VM exit that the body of the loop then finds. -/
structure Turn where
  task_run : vcpu → vcpu × Int
  exit : vmexit

/-- How control leaves `main_loop`. -/
inductive Outcome where
  /-- the statement `return` -/
  | returned
  /-- the call `exit(code)` -/
  | exited (code : Nat)
  /-- a failed `assert` -/
  | aborted
  /-- the call of a handler outside `sc_handler_table` -/
  | undefined
  /-- the loop condition `task_run() == 0` was false: control left the `while` loop and
  reached `__builtin_unreachable()` -/
  | unreachable
  /-- the turns given are used up and the loop is still running -/
  | running
deriving DecidableEq, Repr

/-- Source: `main_loop(return_on_sigret)` over the turns given: the last state and how
control left the loop. -/
def main_loop (return_on_sigret : Bool) : List Turn → vcpu → vcpu × Outcome
  | [], m => (m, Outcome.running)
  | t :: rest, m =>
    -- while (task_run() == 0)
    let r := t.task_run m
    if r.2 ≠ 0 then (r.1, Outcome.unreachable)
    else
      match main_loop_body t.exit return_on_sigret r.1 with
      | (m1, Flow.next) => main_loop return_on_sigret rest m1
      | (m1, Flow.ret) => (m1, Outcome.returned)
      | (m1, Flow.exit code) => (m1, Outcome.exited code)
      | (m1, Flow.abort) => (m1, Outcome.aborted)
      | (m1, Flow.undefined) => (m1, Outcome.undefined)

/-! ## The extent of the writes of the lookup -/

/-- Source: `#define LINUX_PATH_MAX 4096 /* including null */` of `noah.h`. -/
def LINUX_PATH_MAX : Nat := 4096

/-- The character arrays that `__vfs_grab_dir` writes, each of `LINUX_PATH_MAX` bytes:
`path->subpath` and the locals `buf` and `buf2`. -/
inductive Buffer where
  | subpath
  | buf
  | buf2
deriving DecidableEq, Repr

/-- One write into an array: `upto` is the number of bytes from the start of the array up
to and including the last byte written, so that the write stays within the array exactly
when `upto ≤ LINUX_PATH_MAX`. -/
structure Write where
  into : Buffer
  upto : Nat
deriving DecidableEq, Repr

/-- The writes of the `while (*c)` loop of `__vfs_grab_dir`, in the order of `walk`: the
component copied to `path->subpath` with its NUL; the `n` bytes that `readlinkat` stores in
`buf` and `strcpy(buf + n, c)`; for a relative link `*++sp = 0`, `strcpy(buf2,
path->subpath)` and `strcat(buf2, buf)`; otherwise the separator copied with its NUL. -/
def walk_writes (readlinkat : Readlinkat) (dir : Int) (flags : Nat) :
    Nat → List Char → List Char → List Write
  | 0, _, _ => []
  | fuel + 1, sp, c =>
    if c = [] then []
    else
      -- while (*c && *c != '/') *sp++ = *c++;  *sp = 0;
      let sp1 := sp ++ c.takeWhile (fun ch => ch ≠ '/')
      let c1 := c.dropWhile (fun ch => ch ≠ '/')
      let w1 : List Write := [{ into := Buffer.subpath, upto := sp1.length + 1 }]
      let link := if flags &&& LOOKUP_NOFOLLOW = 0 then readlinkat dir sp1 else none
      -- if (*c) *sp++ = *c++;  *sp = 0;
      let go_on : List Write :=
        match c1 with
        | [] =>
          { into := Buffer.subpath, upto := sp1.length + 1 } ::
            walk_writes readlinkat dir flags fuel sp1 []
        | ch :: c2 =>
          { into := Buffer.subpath, upto := sp1.length + 2 } ::
            walk_writes readlinkat dir flags fuel (sp1 ++ [ch]) c2
      match link with
      | some l =>
        if 0 < l.length then
          -- n bytes stored by readlinkat; strcpy(buf + n, c);
          let w2 : List Write :=
            [{ into := Buffer.buf, upto := l.length },
             { into := Buffer.buf, upto := l.length + c1.length + 1 }]
          let buf := cstr (l ++ c1)
          if buf.head? = some '/' then w1 ++ w2
          else
            -- *++sp = 0; strcpy(buf2, path->subpath); strcat(buf2, buf);
            let d := remove_last_component sp1
            w1 ++ w2 ++
              [{ into := Buffer.subpath, upto := d.length + 1 },
               { into := Buffer.buf2, upto := d.length + 1 },
               { into := Buffer.buf2, upto := d.length + buf.length + 1 }]
        else w1 ++ go_on
      | none => w1 ++ go_on

/-- The writes of one call of `__vfs_grab_dir` up to its recursive call, in the order of
`visit`: `strcpy(path->subpath, ".")` for the name `/`, otherwise `*sp = 0` and the writes
of the loop. -/
def visit_writes (readlinkat : Readlinkat) (vfs_root : Int) (parent : Int) (name : List Char)
    (flags : Nat) : List Write :=
  if name.head? = some '/' ∧ name.tail = [] then [{ into := Buffer.subpath, upto := 2 }]
  else
    let rebase : Bool := name.head? = some '/' ∧ outside_mounts name
    let dir := if rebase then vfs_root else parent
    let name1 := if rebase then name.tail else name
    { into := Buffer.subpath, upto := 1 } ::
      walk_writes readlinkat dir flags (name1.length + 1) [] name1

/-- All writes of `__vfs_grab_dir(parent, name, flags, path, loop)` into the three arrays,
those of the recursive calls included; the recursion is that of `__vfs_grab_dir`. -/
def grab_writes (readlinkat : Readlinkat) (vfs_root : Int) :
    Nat → Int → List Char → Nat → Int → List Write
  | 0, _, _, _, _ => []
  | fuel + 1, parent, name, flags, loop =>
    if flags &&& (0xFFFFFFFF ^^^ (LOOKUP_NOFOLLOW ||| LOOKUP_DIRECTORY)) ≠ 0 then []
    else if loop > LOOP_MAX then []
    else
      visit_writes readlinkat vfs_root parent name flags ++
        match visit readlinkat vfs_root parent name flags with
        | Visit.again dir nm => grab_writes readlinkat vfs_root fuel dir nm flags (loop + 1)
        | _ => []

/-- Whether every write of a list stays within its array of `LINUX_PATH_MAX` bytes. -/
def within (ws : List Write) : Bool :=
  ws.all (fun w => w.upto ≤ LINUX_PATH_MAX)

/-- Source: `__vfs_grab_dir(parent, name, flags, path, loop)` with `path->subpath`, `buf`
and `buf2` as `fs.c` declares them, arrays of `LINUX_PATH_MAX` bytes. When every write of
the call, those of its recursive calls included, stays within its array, the call does what
`__vfs_grab_dir` computes. When a write overruns its array the C call has no defined
behaviour: `none`. -/
def __vfs_grab_dir_bounded (readlinkat : Readlinkat) (vfs_root : Int) (fuel : Nat)
    (parent : Int) (name : List Char) (flags : Nat) (loop : Int) : Option Grab :=
  if within (grab_writes readlinkat vfs_root fuel parent name flags loop) then
    some (__vfs_grab_dir readlinkat vfs_root fuel parent name flags loop)
  else none

/-- Source: `vfs_grab_dir(dirfd, name, flags, path)` with the arrays of `__vfs_grab_dir`
bounded; `none` when a write overruns its array. -/
def vfs_grab_dir_bounded (readlinkat : Readlinkat) (vfs_root : Int)
    (dirfd : Int) (name : List Char) (flags : Nat) : Option Grab :=
  if name = [] then some (Grab.fail (-LINUX_ENOENT))
  else
    let dir := if dirfd = LINUX_AT_FDCWD then AT_FDCWD else dirfd
    __vfs_grab_dir_bounded readlinkat vfs_root grab_fuel dir name flags 0

/-- Source: `vfs_openat(dirfd, name, flags, mode)` with the arrays of the lookup bounded:
no result either when the lookup overruns an array. -/
def vfs_openat_bounded (h : host) (st : proc) (dirfd : Int) (name : List Char)
    (flags mode : Nat) : Option (proc × Int) :=
  match vfs_grab_dir_bounded h.readlinkat st.vfs_root dirfd name (open_lkflag flags) with
  | none => none
  | some _ => vfs_openat h st dirfd name flags mode

/-! ## System-call handlers of `fs.c` that work on an open file -/

/-- Modelled from the spec: Linux 4.6.4 numbering, `ENOTTY` is 25. -/
def LINUX_ENOTTY : Int := 25

/-- Source: `struct file_operations`, the table behind `file->ops`. Each member gives the
value that the operation returns when a handler calls it on the record at the address
given, with the arguments of that handler; for `writev`, `readv` and `ioctl`, which the
handlers test against `NULL`, `none` stands for a `NULL` member. `close` is the one
operation that `vfs_release` calls. The operations are taken to leave `proc.fdtab` and the
reference counts alone. -/
structure file_operations where
  readv : Nat → Option Int
  writev : Nat → Option Int
  close : file → Int
  ioctl : Nat → Option Int
  lseek : Nat → Int
  getdents : Nat → Int
  fcntl : Nat → Int
  fsync : Nat → Int
  fstat : Nat → Int
  fstatfs : Nat → Int
  fchown : Nat → Int
  fchmod : Nat → Int

/-- Guest memory as the handlers see it: `copy_from_user(dst, gaddr, n)` and
`copy_to_user(gaddr, src, n)` give 0 or a non-zero value for a guest address and a length;
`read_iov iov_ptr iovcnt` is the array of `iovcnt` pairs `(iov_base, iov_len)` that
`copy_from_user(liov, iov_ptr, sizeof(struct l_iovec) * iovcnt)` stores, `none` when that
copy fails. -/
structure user_mem where
  copy_from_user : Nat → Nat → Nat
  copy_to_user : Nat → Nat → Nat
  read_iov : Nat → Nat → Option (List (Nat × Nat))

/-- A call of `vfs_acquire` with the pointer it returned (`none` for `NULL`), or a call of
`vfs_release`. -/
inductive VfsCall where
  | acquire (fd : Int) (file : Option Nat)
  | release (p : Nat)
deriving DecidableEq, Repr

/-- Source: `vfs_acquire(fd)` in a handler: the call is added to the record of the calls
that the handler has made. -/
def acquire (s : proc × List VfsCall) (fd : Int) :
    Option ((proc × List VfsCall) × Option Nat) :=
  match vfs_acquire s.1 fd with
  | none => none
  | some (st1, file) => some ((st1, s.2 ++ [VfsCall.acquire fd file]), file)

/-- Source: `vfs_release(file)` in a handler, which ignores the value returned: the call
is added to the record of the calls that the handler has made. -/
def release (close : file → Int) (s : proc × List VfsCall) (p : Nat) :
    Option (proc × List VfsCall) :=
  match vfs_release close s.1 p with
  | none => none
  | some (st1, _) => some (st1, s.2 ++ [VfsCall.release p])

/-- Source: `sys_write(fd, buf_ptr, size)`: the new state, the calls of `vfs_acquire` and
`vfs_release` made, and the value returned. -/
def sys_write (o : file_operations) (u : user_mem) (st : proc) (fd : Int)
    (buf_ptr size : Nat) : Option ((proc × List VfsCall) × Int) :=
  if u.copy_from_user buf_ptr size ≠ 0 then some ((st, []), -LINUX_EFAULT)
  else
    match acquire (st, []) fd with
    | none => none
    | some (s, none) => some (s, -LINUX_EBADF)
    | some (s, some p) =>
      let r :=
        match o.writev p with
        | none => -LINUX_EBADF
        | some r => r
      (release o.close s p).map (fun s1 => (s1, r))

/-- Source: `sys_read(fd, buf_ptr, size)`. -/
def sys_read (o : file_operations) (u : user_mem) (st : proc) (fd : Int)
    (buf_ptr : Nat) : Option ((proc × List VfsCall) × Int) :=
  match acquire (st, []) fd with
  | none => none
  | some (s, none) => some (s, -LINUX_EBADF)
  | some (s, some p) =>
    let r :=
      match o.readv p with
      | none => -LINUX_EBADF
      | some r =>
        if r < 0 then r
        else if u.copy_to_user buf_ptr r.toNat ≠ 0 then -LINUX_EFAULT
        else r
    (release o.close s p).map (fun s1 => (s1, r))

/-- Source: `sys_writev(fd, iov_ptr, iovcnt)`. -/
def sys_writev (o : file_operations) (u : user_mem) (st : proc) (fd : Int)
    (iov_ptr iovcnt : Nat) : Option ((proc × List VfsCall) × Int) :=
  match u.read_iov iov_ptr iovcnt with
  | none => some ((st, []), -LINUX_EFAULT)
  | some liov =>
    if liov.any (fun v => u.copy_from_user v.1 v.2 ≠ 0) then some ((st, []), -LINUX_EFAULT)
    else
      match acquire (st, []) fd with
      | none => none
      | some (s, none) => some (s, -LINUX_EBADF)
      | some (s, some p) =>
        let r :=
          match o.writev p with
          | none => -LINUX_EBADF
          | some r => r
        (release o.close s p).map (fun s1 => (s1, r))

/-- The loop of `sys_readv` that copies `size` bytes back to the guest, buffer by buffer:
whether a `copy_to_user` failed before `size` reached 0. -/
def readv_copy (u : user_mem) : List (Nat × Nat) → Nat → Bool
  | [], _ => false
  | v :: rest, size =>
    let s := min size v.2
    if u.copy_to_user v.1 s ≠ 0 then true
    else if size - s = 0 then false
    else readv_copy u rest (size - s)

/-- Source: `sys_readv(fd, iov_ptr, iovcnt)`. -/
def sys_readv (o : file_operations) (u : user_mem) (st : proc) (fd : Int)
    (iov_ptr iovcnt : Nat) : Option ((proc × List VfsCall) × Int) :=
  match u.read_iov iov_ptr iovcnt with
  | none => some ((st, []), -LINUX_EFAULT)
  | some liov =>
    match acquire (st, []) fd with
    | none => none
    | some (s, none) => some (s, -LINUX_EBADF)
    | some (s, some p) =>
      let r :=
        match o.readv p with
        | none => -LINUX_EBADF
        | some r =>
          if r < 0 then r
          else if readv_copy u liov r.toNat then -LINUX_EFAULT
          else r
      (release o.close s p).map (fun s1 => (s1, r))

/-- Source: `sys_fstat(fd, st_ptr)`; `size` is `sizeof st`, the size of `struct l_newstat`,
which is declared outside the sources. -/
def sys_fstat (o : file_operations) (u : user_mem) (st : proc) (fd : Int)
    (st_ptr size : Nat) : Option ((proc × List VfsCall) × Int) :=
  match acquire (st, []) fd with
  | none => none
  | some (s, none) => some (s, -LINUX_EBADF)
  | some (s, some p) =>
    let n := o.fstat p
    let n1 := if n < 0 then n else if u.copy_to_user st_ptr size ≠ 0 then -LINUX_EFAULT else n
    (release o.close s p).map (fun s1 => (s1, n1))

/-- Source: `sys_fchown(fd, uid, gid)`. -/
def sys_fchown (o : file_operations) (st : proc) (fd : Int) :
    Option ((proc × List VfsCall) × Int) :=
  match acquire (st, []) fd with
  | none => none
  | some (s, none) => some (s, -LINUX_EBADF)
  | some (s, some p) =>
    let n := o.fchown p
    (release o.close s p).map (fun s1 => (s1, n))

/-- Source: `sys_fchmod(fd, mode)`. -/
def sys_fchmod (o : file_operations) (st : proc) (fd : Int) :
    Option ((proc × List VfsCall) × Int) :=
  match acquire (st, []) fd with
  | none => none
  | some (s, none) => some (s, -LINUX_EBADF)
  | some (s, some p) =>
    let n := o.fchmod p
    (release o.close s p).map (fun s1 => (s1, n))

/-- Source: `sys_ioctl(fd, cmd, val0)`. -/
def sys_ioctl (o : file_operations) (st : proc) (fd : Int) :
    Option ((proc × List VfsCall) × Int) :=
  match acquire (st, []) fd with
  | none => none
  | some (s, none) => some (s, -LINUX_EBADF)
  | some (s, some p) =>
    let r :=
      match o.ioctl p with
      | none => -LINUX_ENOTTY
      | some r => r
    (release o.close s p).map (fun s1 => (s1, r))

/-- Source: `sys_lseek(fd, offset, whence)`. -/
def sys_lseek (o : file_operations) (st : proc) (fd : Int) :
    Option ((proc × List VfsCall) × Int) :=
  match acquire (st, []) fd with
  | none => none
  | some (s, none) => some (s, -LINUX_EBADF)
  | some (s, some p) =>
    let r := o.lseek p
    (release o.close s p).map (fun s1 => (s1, r))

/-- Source: `sys_getdents(fd, dirent_ptr, count)`. -/
def sys_getdents (o : file_operations) (u : user_mem) (st : proc) (fd : Int)
    (dirent_ptr count : Nat) : Option ((proc × List VfsCall) × Int) :=
  match acquire (st, []) fd with
  | none => none
  | some (s, none) => some (s, -LINUX_EBADF)
  | some (s, some p) =>
    let r := o.getdents p
    let r1 :=
      if r < 0 then r else if u.copy_to_user dirent_ptr count ≠ 0 then -LINUX_EFAULT else r
    (release o.close s p).map (fun s1 => (s1, r1))

/-- Source: `sys_fcntl(fd, cmd, arg)`. -/
def sys_fcntl (o : file_operations) (st : proc) (fd : Int) :
    Option ((proc × List VfsCall) × Int) :=
  match acquire (st, []) fd with
  | none => none
  | some (s, none) => some (s, -LINUX_EBADF)
  | some (s, some p) =>
    let r := o.fcntl p
    (release o.close s p).map (fun s1 => (s1, r))

/-- Source: `sys_fstatfs(fd, buf_ptr)`; `size` is `sizeof st`, the size of
`struct l_statfs`, which is declared outside the sources. -/
def sys_fstatfs (o : file_operations) (u : user_mem) (st : proc) (fd : Int)
    (buf_ptr size : Nat) : Option ((proc × List VfsCall) × Int) :=
  match acquire (st, []) fd with
  | none => none
  | some (s, none) => some (s, -LINUX_EBADF)
  | some (s, some p) =>
    let n := o.fstatfs p
    let n1 := if n < 0 then n else if u.copy_to_user buf_ptr size ≠ 0 then -LINUX_EFAULT else n
    (release o.close s p).map (fun s1 => (s1, n1))

/-- Source: `sys_fsync(fd)`. -/
def sys_fsync (o : file_operations) (st : proc) (fd : Int) :
    Option ((proc × List VfsCall) × Int) :=
  match acquire (st, []) fd with
  | none => none
  | some (s, none) => some (s, -LINUX_EBADF)
  | some (s, some p) =>
    let r := o.fsync p
    (release o.close s p).map (fun s1 => (s1, r))

/-! ## Definitions used by the statements about the loop, the lookup and the handlers -/

/-- A host on which `pipe` fails with the `errno` 24 (`EMFILE`, the same number on the host
and on Linux); the errno translation is the identity. -/
def pipe_host_emfile : pipe_host where
  pipe := (-1, 24, 0, 0)
  setfd := fun _ => (0, 0)
  setfl := fun _ => (0, 0)
  nocache := fun _ => (0, 0)
  copy_to_user := fun _ => 0
  darwin_to_linux_errno := fun e => e

/-- Both `fcntl` calls of one stage of `sys_pipe2` were skipped, the flag `bit` being
clear, or succeeded. -/
def fcntl_passed (h : pipe_host) (flags bit : Nat) (call : Int → Int × Int) : Prop :=
  flags &&& bit = 0 ∨ (0 ≤ (call h.pipe.2.2.1).1 ∧ 0 ≤ (call h.pipe.2.2.2).1)

/-- The stage of `sys_pipe2` for the flag `bit` is run and its first failing `fcntl` call
leaves the host `errno` `e`. -/
def fcntl_fails (h : pipe_host) (flags bit : Nat) (call : Int → Int × Int) (e : Int) : Prop :=
  flags &&& bit ≠ 0 ∧
  (((call h.pipe.2.2.1).1 < 0 ∧ (call h.pipe.2.2.1).2 = e) ∨
   (0 ≤ (call h.pipe.2.2.1).1 ∧ (call h.pipe.2.2.2).1 < 0 ∧ (call h.pipe.2.2.2).2 = e))

/-- A `#UD` exit on the instruction `syscall` (bytes `0F 05`, length 2), with a table of
512 handlers that all return 7. -/
def exit_syscall : vmexit where
  exit_reason := VMX_REASON_EXC_NMI
  irq_info := 0x306
  qualification := 0
  instr_len := 2
  guest_lin_addr := 0
  mem := fun _ n => some (([0x0f, 0x05] : List Nat).take n)
  addr_ok := fun _ _ => true
  cpuid := fun _ => (0, 0, 0, 0)
  cpuid_count := fun _ _ => (0, 0, 0, 0)
  mmap_result := 0x7000
  check_vm_entry_ok := true
  nr_syscalls := 512
  table := table_seven

/-- A turn in which `task_run()` returns -1 without changing the state: `vmm_run()` reports
an error of the hypervisor. -/
def turn_fail : Turn where
  task_run := fun m => (m, -1)
  exit := exit_syscall

/-- Neither `task_run()` nor a system-call handler of the turn changes guest XCR0. -/
def Turn.keeps_xcr0 (t : Turn) : Prop :=
  (∀ m, (t.task_run m).1.regs Reg.XCR0 = m.regs Reg.XCR0) ∧
  ∀ nr a0 a1 a2 a3 a4 a5 m,
    (t.exit.table nr a0 a1 a2 a3 a4 a5 m).1.regs Reg.XCR0 = m.regs Reg.XCR0

/-- A `#UD` exit on a VEX-encoded instruction of four bytes (`C5 F8 77 90`), on a host whose
`cpuid` leaf `0xD` reports the state components x87, SSE and AVX (`eax = 7`). -/
def exit_avx : vmexit where
  exit_reason := VMX_REASON_EXC_NMI
  irq_info := 0x306
  qualification := 0
  instr_len := 4
  guest_lin_addr := 0
  mem := fun _ n => some (([0xc5, 0xf8, 0x77, 0x90] : List Nat).take n)
  addr_ok := fun _ _ => true
  cpuid := fun _ => (0, 0, 0, 0)
  cpuid_count := fun leaf _ => if leaf = 0x0d then (7, 0, 0, 0) else (0, 0, 0, 0)
  mmap_result := 0x7000
  check_vm_entry_ok := true
  nr_syscalls := 512
  table := table_seven

/-- The directory token with which `__vfs_grab_dir` walks the name, after its block
`resolve mountpoints`: `proc.vfs_root` for an absolute name outside the four mount
prefixes, otherwise the one of the caller. -/
def walk_dir (vfs_root parent : Int) (name : List Char) : Int :=
  if name.head? = some '/' ∧ outside_mounts name = true then vfs_root else parent

/-- The name that `__vfs_grab_dir` walks after its block `resolve mountpoints`: an absolute
name outside the four mount prefixes loses its leading `/`. -/
def walk_name (name : List Char) : List Char :=
  if name.head? = some '/' ∧ outside_mounts name = true then name.tail else name

/-- A name of 4095 bytes: `/tmp/` followed by 4090 times the letter `x`. -/
def long_name : List Char :=
  ['/', 't', 'm', 'p', '/'] ++ List.replicate 4090 'x'

/-- The number of calls of `vfs_acquire` in a record that returned a file. -/
def acquired : List VfsCall → Nat
  | [] => 0
  | VfsCall.acquire _ (some _) :: rest => acquired rest + 1
  | _ :: rest => acquired rest

/-- The number of calls of `vfs_release` in a record. -/
def released : List VfsCall → Nat
  | [] => 0
  | VfsCall.release _ :: rest => released rest + 1
  | _ :: rest => released rest

/-- The part that the handlers on an open file share: `vfs_acquire(fd)`, `-EBADF` for
`NULL`, otherwise the value `body file` computed from the operations, then
`vfs_release(file)`. -/
def with_file (close : file → Int) (st : proc) (fd : Int) (body : Nat → Int) :
    Option ((proc × List VfsCall) × Int) :=
  match acquire (st, []) fd with
  | none => none
  | some (s, none) => some (s, -LINUX_EBADF)
  | some (s, some p) => (release close s p).map (fun s1 => (s1, body p))

/-- What holds of the outcome `res` of a handler called on the descriptor `fd` in the
state `st`: on every return the releases equal the successful acquires; when `fd` holds a
file whose count is in the range of an `atomic_uint` and not 0, the handler returns and
the state, with every reference count, is as on entry; when `fd` holds no file, the
handler returns with the state as on entry, without a release. -/
def balanced (st : proc) (fd : Int) (res : Option ((proc × List VfsCall) × Int)) : Prop :=
  (∀ s r, res = some (s, r) → acquired s.2 = released s.2) ∧
  (∀ p f, 0 ≤ fd → fd.toNat < st.fdtab.length → st.slot fd.toNat = some p →
    st.heap p = some f → 1 ≤ f.ref → f.ref < 2 ^ 32 →
    ∃ log r, res = some ((st, log), r)) ∧
  (¬ (0 ≤ fd ∧ fd.toNat < st.fdtab.length) ∨ st.slot fd.toNat = none →
    ∃ log r, res = some ((st, log), r) ∧ released log = 0)

/-- Guest memory in which every copy fails. -/
def user_none : user_mem where
  copy_from_user := fun _ _ => 1
  copy_to_user := fun _ _ => 1
  read_iov := fun _ _ => none

/-- Guest memory in which every copy succeeds; the `iovec` arrays are empty. -/
def user_all : user_mem where
  copy_from_user := fun _ _ => 0
  copy_to_user := fun _ _ => 0
  read_iov := fun _ _ => some []

/-- File operations that all succeed with 0. -/
def ops_zero : file_operations where
  readv := fun _ => some 0
  writev := fun _ => some 0
  close := fun _ => 0
  ioctl := fun _ => some 0
  lseek := fun _ => 0
  getdents := fun _ => 0
  fcntl := fun _ => 0
  fsync := fun _ => 0
  fstat := fun _ => 0
  fstatfs := fun _ => 0
  fchown := fun _ => 0
  fchmod := fun _ => 0

/-- An EPT violation by a read-modify-write access (qualification `0x83`: bits 0, 1 and 7)
to a page that `addr_ok` accepts for reading only. -/
def exit_rw : vmexit where
  exit_reason := VMX_REASON_EPT_VIOLATION
  irq_info := 0
  qualification := 0x83
  instr_len := 2
  guest_lin_addr := 0x2000
  mem := fun _ n => some (([0xff, 0x00] : List Nat).take n)
  addr_ok := fun _ verify => decide (verify = VERIFY_READ)
  cpuid := fun _ => (0, 0, 0, 0)
  cpuid_count := fun _ _ => (0, 0, 0, 0)
  mmap_result := 0x7000
  check_vm_entry_ok := true
  nr_syscalls := 512
  table := table_seven

/-- A path without its leading `./` components. -/
def strip_dot : List Char → List Char
  | '.' :: '/' :: rest => strip_dot rest
  | l => l

/-- A file system whose only symlink is `a -> ./a`, in the directory of the lookup: it is
named by `a`, `./a`, `././a` and so on. -/
def readlink_dot_a : Readlinkat := fun _ p =>
  if strip_dot p = ['a'] then some ['.', '/', 'a'] else none

/-- A host like `host_ab` whose `close` fails with the `errno` 5. -/
def host_close_fails : host where
  readlinkat := readlink_ab
  openat := fun _ _ _ _ => (5, 0)
  close := fun _ => (-1, 5)
  dup2 := fun _ newfd => (Int.ofNat newfd, 0)
  fcntl_cloexec := fun _ => (0, 0)
  linux_to_darwin_o_flags := fun fl => fl
  darwin_to_linux_errno := fun e => e

/-! ## Theorems -/

theorem walk_out_eq (rl : Readlinkat) (dir : Int) (flags : Nat) :
    ∀ (fuel : Nat) (sp c s : List Char),
      walk rl dir flags fuel sp c = Walk.out s → s = sp ++ c := by
  intro fuel
  induction fuel with
  | zero => intro sp c s h; simp [walk] at h
  | succ k ih =>
    intro sp c s h
    unfold walk at h
    by_cases hc : c = []
    · simp [hc] at h; simp [hc, h]
    · have hsplit := List.takeWhile_append_dropWhile (fun ch => decide (ch ≠ '/')) c
      have hrest : (match c.dropWhile (fun ch => ch ≠ '/') with
          | [] => walk rl dir flags k (sp ++ c.takeWhile (fun ch => ch ≠ '/')) []
          | ch :: c2 => walk rl dir flags k
              (sp ++ c.takeWhile (fun ch => ch ≠ '/') ++ [ch]) c2) = Walk.out s →
          s = sp ++ c := by
        intro h2
        cases hd : c.dropWhile (fun ch => ch ≠ '/') with
        | nil =>
          rw [hd] at h2 hsplit
          have h3 := ih _ _ _ h2
          simp only [List.append_nil] at hsplit h3
          rw [h3, hsplit]
        | cons ch c2 =>
          rw [hd] at h2 hsplit
          have h3 := ih _ _ _ h2
          rw [h3]
          conv_rhs => rw [← hsplit]
          simp only [List.append_assoc, List.singleton_append]
      simp only [hc, if_false] at h
      split at h
      · split at h
        · split at h <;> simp at h
        · exact hrest h
      · exact hrest h

theorem walk_nofollow (rl : Readlinkat) (dir : Int) (flags : Nat)
    (hf : flags &&& LOOKUP_NOFOLLOW ≠ 0) :
    ∀ (fuel : Nat) (sp c : List Char), c.length < fuel →
      walk rl dir flags fuel sp c = Walk.out (sp ++ c) := by
  intro fuel
  induction fuel with
  | zero => intro sp c h; omega
  | succ k ih =>
    intro sp c h
    unfold walk
    by_cases hc : c = []
    · simp [hc]
    · have hsplit := List.takeWhile_append_dropWhile (fun ch => decide (ch ≠ '/')) c
      have hlen : (c.dropWhile (fun ch => ch ≠ '/')).length ≤ c.length :=
        (List.dropWhile_sublist _).length_le
      simp only [hc, if_false, hf]
      cases hd : c.dropWhile (fun ch => ch ≠ '/') with
      | nil =>
        rw [hd] at hsplit
        have : 0 < c.length := List.length_pos.mpr hc
        simp only []
        rw [ih _ _ (by simp; omega)]
        simp only [List.append_nil] at hsplit ⊢
        rw [hsplit]
      | cons ch c2 =>
        rw [hd] at hsplit hlen
        simp only []
        rw [ih _ _ (by simp at hlen ⊢; omega)]
        conv_rhs => rw [← hsplit]
        simp only [List.append_assoc, List.singleton_append]

theorem visit_def (rl : Readlinkat) (vfs_root parent : Int) (name : List Char) (flags : Nat) :
    visit rl vfs_root parent name flags =
      if name = ['/'] then Visit.out { dir := vfs_root, subpath := ['.'] }
      else if name.head? = some '/' ∧ outside_mounts name = true then
        (walk rl vfs_root flags (name.tail.length + 1) [] name.tail).visit vfs_root
      else if name = [] then Visit.abort
      else (walk rl parent flags (name.length + 1) [] name).visit parent := by
  have h1 : (name.head? = some '/' ∧ name.tail = []) ↔ name = ['/'] := by
    cases name with
    | nil => simp
    | cons a rest => simp
  unfold visit
  by_cases hn : name = ['/']
  · rw [if_pos (h1.mpr hn), if_pos hn]
  · rw [if_neg (fun h => hn (h1.mp h)), if_neg hn]
    by_cases hr : name.head? = some '/' ∧ outside_mounts name = true
    · have ht : name.tail ≠ [] := fun h => hn (h1.mp ⟨hr.1, h⟩)
      simp only [hr, and_self, decide_True, if_true, ht, if_false]
      cases walk rl vfs_root flags (name.tail.length + 1) [] name.tail <;> rfl
    · simp only [hr, decide_False, if_false, Bool.false_eq_true]
      by_cases he : name = []
      · simp [he]
      · simp only [he, if_false]
        cases walk rl parent flags (name.length + 1) [] name <;> rfl

theorem outside_mounts_iff (name : List Char) :
    outside_mounts name = true ↔ ∀ m ∈ mount_points, ¬ m <+: name := by
  have key : ∀ l : List Char, (l.isPrefixOf name = false) ↔ ¬ l <+: name := by
    intro l
    rw [← List.isPrefixOf_iff_prefix]
    cases l.isPrefixOf name <;> simp
  simp [outside_mounts, strncmp_ne, mount_points, and_assoc, key]

/-- C3: a lookup with `LOOKUP_NOFOLLOW` of an absolute name other than `/`: if the name
begins with none of `/Users`, `/Volumes`, `/dev`, `/tmp`, the directory token is
`proc.vfs_root` and the subpath is the name without its leading `/`; otherwise the
directory token is the one of the caller and the subpath is the name itself. -/
theorem nofollow_lookup_result (rl : Readlinkat) (vfs_root dirfd : Int) (rest : List Char)
    (flags : Nat)
    (hrest : rest ≠ [])
    (hflags : flags &&& (0xFFFFFFFF ^^^ (LOOKUP_NOFOLLOW ||| LOOKUP_DIRECTORY)) = 0)
    (hno : flags &&& LOOKUP_NOFOLLOW ≠ 0) :
    ((∀ m ∈ mount_points, ¬ m <+: '/' :: rest) →
      vfs_grab_dir rl vfs_root dirfd ('/' :: rest) flags =
        Grab.ok { dir := vfs_root, subpath := rest }) ∧
    ((∃ m ∈ mount_points, m <+: '/' :: rest) →
      vfs_grab_dir rl vfs_root dirfd ('/' :: rest) flags =
        Grab.ok { dir := if dirfd = LINUX_AT_FDCWD then AT_FDCWD else dirfd,
                  subpath := '/' :: rest }) ∧
    (∀ (parent loop : Int) (fuel : Nat), loop ≤ LOOP_MAX →
      __vfs_grab_dir rl vfs_root (fuel + 1) parent ('/' :: rest) flags loop =
        if ∀ m ∈ mount_points, ¬ m <+: '/' :: rest
        then Grab.ok { dir := vfs_root, subpath := rest }
        else Grab.ok { dir := parent, subpath := '/' :: rest }) := by
  have hroot : ('/' :: rest) ≠ ['/'] := by simpa using hrest
  have hgen : ∀ (parent loop : Int) (fuel : Nat), loop ≤ LOOP_MAX →
      __vfs_grab_dir rl vfs_root (fuel + 1) parent ('/' :: rest) flags loop =
        if ∀ m ∈ mount_points, ¬ m <+: '/' :: rest
        then Grab.ok { dir := vfs_root, subpath := rest }
        else Grab.ok { dir := parent, subpath := '/' :: rest } := by
    intro parent loop fuel hloop
    have hl : ¬ loop > LOOP_MAX := by omega
    rw [__vfs_grab_dir]
    simp only [hflags, hl, ne_eq, not_true_eq_false, if_false]
    rw [visit_def, if_neg hroot]
    by_cases hout : outside_mounts ('/' :: rest) = true
    · have hm := (outside_mounts_iff _).mp hout
      rw [if_pos ⟨rfl, hout⟩, if_pos hm]
      simp only [List.tail_cons]
      rw [walk_nofollow rl vfs_root flags hno _ _ _ (Nat.lt_succ_self _)]
      rfl
    · have hm : ¬ ∀ m ∈ mount_points, ¬ m <+: '/' :: rest :=
        fun h => hout ((outside_mounts_iff _).mpr h)
      rw [if_neg (fun h => hout h.2), if_neg (List.cons_ne_nil _ _), if_neg hm]
      rw [walk_nofollow rl parent flags hno _ _ _ (Nat.lt_succ_self _)]
      rfl
  have hentry : vfs_grab_dir rl vfs_root dirfd ('/' :: rest) flags =
      __vfs_grab_dir rl vfs_root (21 + 1)
        (if dirfd = LINUX_AT_FDCWD then AT_FDCWD else dirfd) ('/' :: rest) flags 0 := by
    unfold vfs_grab_dir
    rw [if_neg (List.cons_ne_nil _ _)]
    rfl
  refine ⟨?_, ?_, hgen⟩
  · intro hm
    rw [hentry, hgen _ 0 21 (by decide), if_pos hm]
  · intro hm
    have hm2 : ¬ ∀ m ∈ mount_points, ¬ m <+: '/' :: rest := by
      obtain ⟨m, hmem, hp⟩ := hm
      exact fun h => h m hmem hp
    rw [hentry, hgen _ 0 21 (by decide), if_neg hm2]

/-- C3, at the name `/etc` (rebased on the virtual root) with the flag `LOOKUP_NOFOLLOW`. -/
theorem nofollow_lookup_result_witness :
    (['e', 't', 'c'] ≠ ([] : List Char)) ∧
    (∀ m ∈ mount_points, ¬ m <+: ['/', 'e', 't', 'c']) ∧
    vfs_grab_dir readlink_ab 3 7 ['/', 'e', 't', 'c'] LOOKUP_NOFOLLOW =
      Grab.ok { dir := 3, subpath := ['e', 't', 'c'] } :=
  ⟨by decide, (outside_mounts_iff _).mp (by decide),
    (nofollow_lookup_result readlink_ab 3 7 ['e', 't', 'c'] LOOKUP_NOFOLLOW
      (by decide) (by decide) (by decide)).1 ((outside_mounts_iff _).mp (by decide))⟩

theorem getD_set_self {α : Type} (l : List α) (i : Nat) (v d : α) (h : i < l.length) :
    (l.set i v).getD i d = v := by
  simp [List.getD_eq_getElem?_getD, h]

theorem getD_set_other {α : Type} (l : List α) (i j : Nat) (v d : α) (h : i ≠ j) :
    (l.set i v).getD j d = l.getD j d := by
  simp [List.getD_eq_getElem?_getD, List.getElem?_set_ne h]

theorem set_getD_self {α : Type} (l : List α) (i : Nat) (d : α) :
    l.set i (l.getD i d) = l := by
  induction l generalizing i with
  | nil => simp
  | cons a t ih =>
    cases i with
    | zero => simp
    | succ k => simpa [List.getD_eq_getElem?_getD] using ih k

theorem heap_set_self (heap : Nat → Option file) (p : Nat) (v : Option file) :
    heap_set heap p v p = v := by
  simp [heap_set]

theorem heap_set_other (heap : Nat → Option file) (p q : Nat) (v : Option file) (h : q ≠ p) :
    heap_set heap p v q = heap q := by
  simp [heap_set, h]

theorem grab_fail_neg (rl : Readlinkat) (vfs_root : Int) (flags : Nat) :
    ∀ (fuel : Nat) (parent : Int) (name : List Char) (loop r : Int),
      __vfs_grab_dir rl vfs_root fuel parent name flags loop = Grab.fail r → r < 0 := by
  intro fuel
  induction fuel with
  | zero => intro parent name loop r h; simp [__vfs_grab_dir] at h
  | succ k ih =>
    intro parent name loop r h
    rw [__vfs_grab_dir] at h
    split at h
    · simp only [Grab.fail.injEq] at h; rw [← h]; decide
    · split at h
      · simp only [Grab.fail.injEq] at h; rw [← h]; decide
      · split at h
        · simp at h
        · exact ih _ _ _ _ h
        · simp at h
        · simp at h

theorem vfs_grab_dir_fail_neg (rl : Readlinkat) (vfs_root dirfd : Int) (name : List Char)
    (flags : Nat) (r : Int) (h : vfs_grab_dir rl vfs_root dirfd name flags = Grab.fail r) :
    r < 0 := by
  unfold vfs_grab_dir at h
  split at h
  · simp only [Grab.fail.injEq] at h; rw [← h]; decide
  · exact grab_fail_neg rl vfs_root flags _ _ _ _ _ h

theorem vfs_close_bad (c : file → Int) (s : proc) (fd : Int)
    (h : fd < 0 ∨ (s.fdtab.length : Int) ≤ fd ∨ s.slot fd.toNat = none) :
    vfs_close c s fd = some (s, -LINUX_EBADF) := by
  unfold vfs_close
  by_cases hr : 0 ≤ fd ∧ fd.toNat < s.fdtab.length
  · have hs : s.slot fd.toNat = none := by
      rcases h with h | h | h
      · omega
      · omega
      · exact h
    simp [hr, hs]
  · simp [hr]

/-- C5: for a descriptor that is negative, not below `nr_fdtab`, or whose slot is empty,
`vfs_close` returns `-EBADF` and leaves the whole state as it was: no slot, no reference
count and no record changes and no `close` operation is invoked. In particular this is what
a second `vfs_close` does after a first one that succeeded. -/
theorem vfs_close_bad_fd (close : file → Int) (st : proc) (fd : Int) :
    ((fd < 0 ∨ (st.fdtab.length : Int) ≤ fd ∨ st.slot fd.toNat = none) →
      vfs_close close st fd = some (st, -LINUX_EBADF)) ∧
    (∀ (st1 : proc) (r : Int) (close2 : file → Int),
      vfs_close close st fd = some (st1, r) → 0 ≤ r →
      vfs_close close2 st1 fd = some (st1, -LINUX_EBADF)) := by
  refine ⟨vfs_close_bad close st fd, ?_⟩
  intro st1 r close2 h hr
  apply vfs_close_bad
  right; right
  unfold vfs_close at h
  split at h
  · simp only [Option.some.injEq, Prod.mk.injEq] at h
    rw [← h.2] at hr
    exact absurd hr (by decide)
  · rename_i hrange
    simp only [not_not] at hrange
    split at h
    · simp only [Option.some.injEq, Prod.mk.injEq] at h
      rw [← h.2] at hr
      exact absurd hr (by decide)
    · split at h
      · simp at h
      · rename_i p hslot f hheap
        simp only [] at h
        split at h
        · rename_i hneg
          simp only [Option.some.injEq, Prod.mk.injEq] at h
          rw [← h.2] at hr
          omega
        · simp only [file_decref, heap_set] at h
          rw [hheap] at h
          simp only [] at h
          split at h
          · simp only [Option.some.injEq, Prod.mk.injEq] at h
            rw [← h.1]
            simp only [proc.slot]
            exact getD_set_self _ _ _ _ hrange.2
          · simp only [Option.some.injEq, Prod.mk.injEq] at h
            rw [← h.1]
            simp only [proc.slot]
            exact getD_set_self _ _ _ _ hrange.2

/-- C5, at the empty table of 8 slots and descriptor 3. -/
theorem vfs_close_bad_fd_witness :
    ((proc_init 0 8).slot (3 : Int).toNat = none) ∧
    vfs_close (fun _ => 0) (proc_init 0 8) 3 = some (proc_init 0 8, -LINUX_EBADF) :=
  ⟨by decide,
    (vfs_close_bad_fd (fun _ => 0) (proc_init 0 8) 3).1 (Or.inr (Or.inr (by decide)))⟩

theorem heap_set_twice (heap : Nat → Option file) (p : Nat) (v w : Option file) :
    heap_set (heap_set heap p v) p w = heap_set heap p w := by
  funext q
  simp only [heap_set]
  split <;> rfl

theorem vfs_close_eq (close : file → Int) (st : proc) (fd : Int) (p : Nat) (f : file)
    (hfd : 0 ≤ fd) (hlt : fd.toNat < st.fdtab.length)
    (hslot : st.slot fd.toNat = some p) (hheap : st.heap p = some f) :
    vfs_close close st fd =
      if close f < 0 then
        some ({ st with trace := st.trace ++ [Event.ops_close p f.fd] }, close f)
      else if f.ref = 1 then
        some ({ st with
                fdtab := st.fdtab.set fd.toNat none
                heap := heap_set st.heap p none
                trace := st.trace ++ [Event.ops_close p f.fd] ++ [Event.shm_free p] }, close f)
      else
        some ({ st with
                fdtab := st.fdtab.set fd.toNat none
                heap := heap_set st.heap p (some { f with ref := (f.ref + 2 ^ 32 - 1) % 2 ^ 32 })
                trace := st.trace ++ [Event.ops_close p f.fd] }, close f) := by
  unfold vfs_close
  have hr : 0 ≤ fd ∧ fd.toNat < st.fdtab.length := ⟨hfd, hlt⟩
  simp only [hr, and_self, not_true_eq_false, if_false, hslot, hheap]
  by_cases hc : close f < 0
  · simp only [hc, if_true]
  · simp only [hc, if_false, file_decref, hheap]
    by_cases h1 : f.ref = 1
    · simp only [h1, if_true, heap_set_twice]
    · simp only [h1, if_false]

theorem vfs_release_eq (close : file → Int) (st : proc) (p : Nat) (f : file)
    (hheap : st.heap p = some f) :
    vfs_release close st p =
      if f.ref = 1 then
        some ({ st with
                heap := heap_set st.heap p none
                trace := st.trace ++ [Event.ops_close p f.fd, Event.shm_free p] },
          close { f with ref := (f.ref + 2 ^ 32 - 1) % 2 ^ 32 })
      else
        some ({ st with
                heap := heap_set st.heap p (some { f with ref := (f.ref + 2 ^ 32 - 1) % 2 ^ 32 }) },
          0) := by
  unfold vfs_release
  simp only [file_decref, hheap]
  by_cases h1 : f.ref = 1
  · simp only [h1, if_true, heap_set_self, heap_set_twice]
  · simp only [h1, if_false]

theorem vfs_acquire_eq (st : proc) (fd : Int) (p : Nat) (f : file)
    (hfd : 0 ≤ fd) (hlt : fd.toNat < st.fdtab.length)
    (hslot : st.slot fd.toNat = some p) (hheap : st.heap p = some f) :
    vfs_acquire st fd =
      some ({ st with heap := heap_set st.heap p (some { f with ref := (f.ref + 1) % 2 ^ 32 }) },
        some p) := by
  unfold vfs_acquire
  have hr : 0 ≤ fd ∧ fd.toNat < st.fdtab.length := ⟨hfd, hlt⟩
  simp only [hr, and_self, not_true_eq_false, if_false, hslot, file_incref, hheap]

/-- C6: when slot `fd` holds a file and `ops.close` succeeds on it, `vfs_close(fd)` invokes
`ops.close` on that file once, whatever its reference count, empties slot `fd` and no other
slot, lowers the count of the file by one, frees the record exactly when the count was 1,
touches no other record, and returns what `ops.close` returned. -/
theorem vfs_close_success (close : file → Int) (st : proc) (fd : Int) (p : Nat) (f : file)
    (hfd : 0 ≤ fd) (hlt : fd.toNat < st.fdtab.length)
    (hslot : st.slot fd.toNat = some p) (hheap : st.heap p = some f)
    (hclose : 0 ≤ close f) (href : 1 ≤ f.ref) (hword : f.ref < 2 ^ 32) :
    ∃ st1, vfs_close close st fd = some (st1, close f) ∧
      st1.trace = st.trace ++ [Event.ops_close p f.fd] ++
        (if f.ref = 1 then [Event.shm_free p] else []) ∧
      st1.slot fd.toNat = none ∧
      (∀ i, i ≠ fd.toNat → st1.slot i = st.slot i) ∧
      st1.fdtab.length = st.fdtab.length ∧
      st1.heap p = (if f.ref = 1 then none else some { f with ref := f.ref - 1 }) ∧
      (∀ q, q ≠ p → st1.heap q = st.heap q) := by
  have hmod : (f.ref + 2 ^ 32 - 1) % 2 ^ 32 = f.ref - 1 := by omega
  have hc : ¬ close f < 0 := by omega
  rw [vfs_close_eq close st fd p f hfd hlt hslot hheap, if_neg hc]
  by_cases h1 : f.ref = 1
  · rw [if_pos h1]
    refine ⟨_, rfl, ?_, ?_, ?_, ?_, ?_, ?_⟩
    · simp [h1]
    · exact getD_set_self _ _ _ _ hlt
    · intro i hi; exact getD_set_other _ _ _ _ _ (Ne.symm hi)
    · simp
    · simp [h1, heap_set_self]
    · intro q hq; exact heap_set_other _ _ _ _ hq
  · rw [if_neg h1]
    refine ⟨_, rfl, ?_, ?_, ?_, ?_, ?_, ?_⟩
    · simp [h1]
    · exact getD_set_self _ _ _ _ hlt
    · intro i hi; exact getD_set_other _ _ _ _ _ (Ne.symm hi)
    · simp
    · simp only [heap_set_self, h1, if_false, hmod]
    · intro q hq; exact heap_set_other _ _ _ _ hq

/-- C6, at a table whose slot 3 holds a file with count 1 and a `close` that answers 0. -/
theorem vfs_close_success_witness :
    proc_one.slot (3 : Int).toNat = some 0 ∧ proc_one.heap 0 = some { fd := 3, ref := 1 } ∧
    ∃ st1, vfs_close (fun _ => 0) proc_one 3 = some (st1, (fun _ => 0) ({ fd := 3, ref := 1 } : file)) ∧
      st1.trace = proc_one.trace ++ [Event.ops_close 0 ({ fd := 3, ref := 1 } : file).fd] ++
        (if ({ fd := 3, ref := 1 } : file).ref = 1 then [Event.shm_free 0] else []) ∧
      st1.slot (3 : Int).toNat = none ∧
      (∀ i, i ≠ (3 : Int).toNat → st1.slot i = proc_one.slot i) ∧
      st1.fdtab.length = proc_one.fdtab.length ∧
      st1.heap 0 = (if ({ fd := 3, ref := 1 } : file).ref = 1 then none
        else some { ({ fd := 3, ref := 1 } : file) with ref := ({ fd := 3, ref := 1 } : file).ref - 1 }) ∧
      (∀ q, q ≠ 0 → st1.heap q = proc_one.heap q) :=
  ⟨by decide, by decide,
    vfs_close_success (fun _ => 0) proc_one 3 0 { fd := 3, ref := 1 }
      (by decide) (by decide) (by decide) (by decide) (by decide) (by decide) (by decide)⟩

theorem count_pos_of_getD (l : List (Option Nat)) (i p : Nat)
    (h : l.getD i none = some p) : 1 ≤ l.count (some p) := by
  induction l generalizing i with
  | nil => simp at h
  | cons a t ih =>
    cases i with
    | zero =>
      simp at h
      subst h
      simp
    | succ k =>
      have := ih k (by simpa using h)
      rw [List.count_cons]
      omega

theorem count_set_none (l : List (Option Nat)) (i p q : Nat) (hi : i < l.length)
    (h : l.getD i none = some p) :
    (l.set i none).count (some q) = l.count (some q) - (if q = p then 1 else 0) := by
  induction l generalizing i with
  | nil => simp at hi
  | cons a t ih =>
    cases i with
    | zero =>
      simp at h
      subst h
      by_cases hq : q = p
      · subst hq; simp
      · have : ¬ p = q := fun h => hq h.symm
        simp [List.count_cons, hq, this]
    | succ k =>
      have h1 := ih k (by simpa using hi) (by simpa using h)
      have h2 := count_pos_of_getD t k p (by simpa using h)
      simp only [List.set_cons_succ, List.count_cons, h1]
      by_cases hq : q = p
      · subst hq
        simp only [if_true]
        omega
      · simp [hq]

theorem count_set_some (l : List (Option Nat)) (i p q : Nat) (hi : i < l.length)
    (h : l.getD i none = none) :
    (l.set i (some p)).count (some q) = l.count (some q) + (if q = p then 1 else 0) := by
  induction l generalizing i with
  | nil => simp at hi
  | cons a t ih =>
    cases i with
    | zero =>
      simp at h
      subst h
      by_cases hq : q = p
      · subst hq; simp
      · have : ¬ p = q := fun h => hq h.symm
        simp [List.count_cons, hq, this]
    | succ k =>
      have h1 := ih k (by simpa using hi) (by simpa using h)
      simp only [List.set_cons_succ, List.count_cons, h1]
      omega

theorem refs_lt (s : proc × List Nat) (p : Nat) (h : in_flight_ok s = true) :
    refs s p < 2 ^ 32 := by
  have h1 : s.1.fdtab.count (some p) ≤ s.1.fdtab.length := List.count_le_length _ _
  have h2 : s.2.count p ≤ s.2.length := List.count_le_length _ _
  simp only [in_flight_ok, decide_eq_true_eq] at h
  simp only [refs]
  omega

theorem inv_init (vfs_root : Int) (nr_fdtab : Nat) : Inv (proc_init vfs_root nr_fdtab, []) := by
  constructor
  · intro p _; rfl
  · intro p f h; simp [proc_init] at h
  · intro p _; simp [refs, proc_init, List.count_replicate]
  · intro p; simp [proc_init]

theorem inv_of_trace (s t : proc × List Nat) (evs : List Event) (hinv : Inv s)
    (hev : ∀ p, evs.count (Event.shm_free p) = 0)
    (hheap : t.1.heap = s.1.heap) (hnext : t.1.next = s.1.next)
    (htab : t.1.fdtab = s.1.fdtab) (hheld : t.2 = s.2)
    (htrace : t.1.trace = s.1.trace ++ evs) : Inv t := by
  have hrefs : ∀ p, refs t p = refs s p := by intro p; simp [refs, htab, hheld]
  constructor
  · intro p hp; rw [hheap]; exact hinv.fresh p (by omega)
  · intro p f h; rw [hrefs]; exact hinv.live p f (by rw [← hheap]; exact h)
  · intro p h; rw [hrefs]; exact hinv.dead p (by rw [← hheap]; exact h)
  · intro p
    rw [htrace, List.count_append, hev, hheap, hnext, Nat.add_zero]
    exact hinv.freed p

theorem inv_of_publish (s t : proc × List Nat) (evs : List Event) (fd : Int) (i : Nat)
    (hinv : Inv s)
    (hev : ∀ p, evs.count (Event.shm_free p) = 0)
    (hi : i < s.1.fdtab.length) (hslot : s.1.slot i = none)
    (hheap : t.1.heap = heap_set s.1.heap s.1.next (some { fd := fd, ref := 1 }))
    (hnext : t.1.next = s.1.next + 1)
    (htab : t.1.fdtab = s.1.fdtab.set i (some s.1.next)) (hheld : t.2 = s.2)
    (htrace : t.1.trace = s.1.trace ++ evs) : Inv t := by
  have hfresh := hinv.fresh s.1.next (le_refl _)
  have hzero := hinv.dead s.1.next hfresh
  have hrefs : ∀ p, refs t p = refs s p + (if p = s.1.next then 1 else 0) := by
    intro p
    simp only [refs, htab, hheld, count_set_some _ i s.1.next p hi hslot]
    omega
  constructor
  · intro p hp
    rw [hheap, heap_set_other _ _ _ _ (by omega)]
    exact hinv.fresh p (by omega)
  · intro p f h
    rw [hheap] at h
    by_cases hp : p = s.1.next
    · subst hp
      rw [heap_set_self] at h
      simp only [Option.some.injEq] at h
      subst h
      rw [hrefs, hzero]
      simp
    · rw [heap_set_other _ _ _ _ hp] at h
      rw [hrefs, if_neg hp]
      exact hinv.live p f h
  · intro p h
    rw [hheap] at h
    by_cases hp : p = s.1.next
    · subst hp
      rw [heap_set_self] at h
      simp at h
    · rw [heap_set_other _ _ _ _ hp] at h
      rw [hrefs, if_neg hp]
      exact hinv.dead p h
  · intro p
    rw [htrace, List.count_append, hev, hheap, hnext, Nat.add_zero, hinv.freed p]
    by_cases hp : p = s.1.next
    · subst hp
      simp [heap_set_self]
    · rw [heap_set_other _ _ _ _ hp]
      have : p < s.1.next + 1 ↔ p < s.1.next := by omega
      simp only [this]

theorem inv_of_acquire (s t : proc × List Nat) (p : Nat) (f : file)
    (hinv : Inv s) (hb : in_flight_ok t = true)
    (hp : s.1.heap p = some f)
    (hheap : t.1.heap = heap_set s.1.heap p (some { f with ref := (f.ref + 1) % 2 ^ 32 }))
    (hnext : t.1.next = s.1.next)
    (htab : t.1.fdtab = s.1.fdtab) (hheld : t.2 = p :: s.2)
    (htrace : t.1.trace = s.1.trace) : Inv t := by
  have hrefs : ∀ q, refs t q = refs s q + (if q = p then 1 else 0) := by
    intro q
    simp only [refs, htab, hheld, List.count_cons]
    by_cases hq : q = p
    · subst hq; simp; omega
    · have : ¬ p = q := fun h => hq h.symm
      simp [hq, this]
  have hlt := refs_lt t p hb
  rw [hrefs p, if_pos rfl] at hlt
  have hlive := hinv.live p f hp
  constructor
  · intro q hq
    have hne : q ≠ p := by
      intro h; subst h
      rw [hinv.fresh q (by omega)] at hp
      simp at hp
    rw [hheap, heap_set_other _ _ _ _ hne]
    exact hinv.fresh q (by omega)
  · intro q g h
    rw [hheap] at h
    by_cases hq : q = p
    · subst hq
      rw [heap_set_self] at h
      simp only [Option.some.injEq] at h
      subst h
      rw [hrefs, if_pos rfl]
      simp only []
      have : (f.ref + 1) % 2 ^ 32 = f.ref + 1 := by omega
      rw [this]
      omega
    · rw [heap_set_other _ _ _ _ hq] at h
      rw [hrefs, if_neg hq]
      exact hinv.live q g h
  · intro q h
    rw [hheap] at h
    by_cases hq : q = p
    · subst hq
      rw [heap_set_self] at h
      simp at h
    · rw [heap_set_other _ _ _ _ hq] at h
      rw [hrefs, if_neg hq]
      exact hinv.dead q h
  · intro q
    rw [htrace, hheap, hnext, hinv.freed q]
    by_cases hq : q = p
    · subst hq
      simp [heap_set_self, hp]
    · rw [heap_set_other _ _ _ _ hq]

theorem inv_of_drop_last (s t : proc × List Nat) (p : Nat) (f : file) (evs : List Event)
    (hinv : Inv s)
    (hp : s.1.heap p = some f) (hone : f.ref = 1)
    (hrefs : ∀ q, refs t q = refs s q - (if q = p then 1 else 0))
    (hev : ∀ q, evs.count (Event.shm_free q) = if q = p then 1 else 0)
    (hheap : t.1.heap = heap_set s.1.heap p none)
    (hnext : t.1.next = s.1.next)
    (htrace : t.1.trace = s.1.trace ++ evs) : Inv t := by
  have hlive := hinv.live p f hp
  have hpn : p < s.1.next := by
    by_contra hge
    rw [hinv.fresh p (by omega)] at hp
    simp at hp
  constructor
  · intro q hq
    rw [hheap]
    by_cases hqp : q = p
    · subst hqp; exact heap_set_self _ _ _
    · rw [heap_set_other _ _ _ _ hqp]; exact hinv.fresh q (by omega)
  · intro q g h
    rw [hheap] at h
    by_cases hq : q = p
    · subst hq
      rw [heap_set_self] at h
      simp at h
    · rw [heap_set_other _ _ _ _ hq] at h
      rw [hrefs, if_neg hq]
      exact hinv.live q g h
  · intro q h
    rw [hheap] at h
    by_cases hq : q = p
    · subst hq
      rw [hrefs, if_pos rfl]
      omega
    · rw [heap_set_other _ _ _ _ hq] at h
      rw [hrefs, if_neg hq]
      exact hinv.dead q h
  · intro q
    rw [htrace, List.count_append, hev, hheap, hnext, hinv.freed q]
    by_cases hq : q = p
    · subst hq
      simp [heap_set_self, hp, hpn]
    · rw [heap_set_other _ _ _ _ hq]
      simp [hq]

theorem inv_of_drop (s t : proc × List Nat) (p : Nat) (f : file) (evs : List Event)
    (hinv : Inv s) (hb : in_flight_ok s = true)
    (hp : s.1.heap p = some f) (hmore : f.ref ≠ 1)
    (hrefs : ∀ q, refs t q = refs s q - (if q = p then 1 else 0))
    (hev : ∀ q, evs.count (Event.shm_free q) = 0)
    (hheap : t.1.heap =
      heap_set s.1.heap p (some { f with ref := (f.ref + 2 ^ 32 - 1) % 2 ^ 32 }))
    (hnext : t.1.next = s.1.next)
    (htrace : t.1.trace = s.1.trace ++ evs) : Inv t := by
  have hlive := hinv.live p f hp
  have hlt := refs_lt s p hb
  constructor
  · intro q hq
    have hne : q ≠ p := by
      intro h; subst h
      rw [hinv.fresh q (by omega)] at hp
      simp at hp
    rw [hheap, heap_set_other _ _ _ _ hne]
    exact hinv.fresh q (by omega)
  · intro q g h
    rw [hheap] at h
    by_cases hq : q = p
    · subst hq
      rw [heap_set_self] at h
      simp only [Option.some.injEq] at h
      subst h
      rw [hrefs, if_pos rfl]
      simp only []
      have : (f.ref + 2 ^ 32 - 1) % 2 ^ 32 = f.ref - 1 := by omega
      rw [this]
      omega
    · rw [heap_set_other _ _ _ _ hq] at h
      rw [hrefs, if_neg hq]
      exact hinv.live q g h
  · intro q h
    rw [hheap] at h
    by_cases hq : q = p
    · subst hq
      rw [heap_set_self] at h
      simp at h
    · rw [heap_set_other _ _ _ _ hq] at h
      rw [hrefs, if_neg hq]
      exact hinv.dead q h
  · intro q
    rw [htrace, List.count_append, hev, hheap, hnext, Nat.add_zero, hinv.freed q]
    by_cases hq : q = p
    · subst hq
      simp [heap_set_self, hp]
    · rw [heap_set_other _ _ _ _ hq]

theorem hc_same (s t : proc × List Nat) (hheap : t.1.heap = s.1.heap)
    (hnext : t.1.next = s.1.next) : heap_step s t := by
  intro p hp hlt
  left
  rw [hheap] at hp
  exact ⟨hp, by omega⟩

theorem hc_set_some (s t : proc × List Nat) (p : Nat) (g : file)
    (hheap : t.1.heap = heap_set s.1.heap p (some g))
    (hnext : t.1.next = s.1.next ∨ (p = s.1.next ∧ t.1.next = s.1.next + 1)) :
    heap_step s t := by
  intro q hq hlt
  left
  rw [hheap] at hq
  by_cases hqp : q = p
  · subst hqp
    rw [heap_set_self] at hq
    simp at hq
  · rw [heap_set_other _ _ _ _ hqp] at hq
    refine ⟨hq, ?_⟩
    rcases hnext with h | ⟨h1, h2⟩
    · omega
    · omega

theorem hc_free (s t : proc × List Nat) (p : Nat) (f : file)
    (hp : s.1.heap p = some f) (hone : f.ref = 1)
    (hheap : t.1.heap = heap_set s.1.heap p none)
    (hnext : t.1.next = s.1.next) : heap_step s t := by
  intro q hq hlt
  rw [hheap] at hq
  by_cases hqp : q = p
  · subst hqp
    right
    exact ⟨f, hp, hone⟩
  · rw [heap_set_other _ _ _ _ hqp] at hq
    left
    exact ⟨hq, by omega⟩

theorem inv_heap_of_ref (s : proc × List Nat) (hinv : Inv s) (p : Nat)
    (h : 1 ≤ refs s p) : ∃ f, s.1.heap p = some f := by
  cases hh : s.1.heap p with
  | none =>
    have := hinv.dead p hh
    omega
  | some f => exact ⟨f, rfl⟩

theorem inv_heap_of_slot (s : proc × List Nat) (hinv : Inv s) (i p : Nat)
    (h : s.1.slot i = some p) : ∃ f, s.1.heap p = some f := by
  apply inv_heap_of_ref s hinv p
  have := count_pos_of_getD s.1.fdtab i p h
  simp only [refs]
  omega

theorem inv_expose (s : proc × List Nat) (fd : Int) (st : proc) (hinv : Inv s)
    (h : vfs_expose_darwinfs_fd s.1 fd = some st) :
    Inv (st, s.2) ∧ heap_step s (st, s.2) := by
  unfold vfs_expose_darwinfs_fd new_file at h
  simp only [] at h
  split at h
  · rename_i hc
    simp only [Option.some.injEq] at h
    subst h
    obtain ⟨_, hlt, hslot⟩ := hc
    constructor
    · exact inv_of_publish s _ [] fd fd.toNat hinv (by intro p; simp) hlt hslot rfl rfl rfl rfl
        (by simp)
    · exact hc_set_some s _ s.1.next _ rfl (Or.inr ⟨rfl, rfl⟩)
  · simp at h

theorem inv_openat (s : proc × List Nat) (h : host) (dirfd : Int) (name : List Char)
    (flags mode : Nat) (st : proc) (r : Int) (hinv : Inv s)
    (hop : vfs_openat h s.1 dirfd name flags mode = some (st, r)) :
    Inv (st, s.2) ∧ heap_step s (st, s.2) := by
  unfold vfs_openat at hop
  split at hop
  · simp at hop
  · simp at hop
  · simp only [Option.some.injEq, Prod.mk.injEq] at hop
    rw [← hop.1]
    exact ⟨hinv, hc_same s _ rfl rfl⟩
  · rename_i pth hg
    unfold darwinfs_openat at hop
    simp only [] at hop
    generalize syswrap h.darwin_to_linux_errno
      (h.openat pth.dir pth.subpath (h.linux_to_darwin_o_flags flags) mode) = r0 at hop
    split at hop
    · rename_i st0 r1 p hd
      split at hd
      · simp at hd
      · simp only [new_file, Prod.mk.injEq, Option.some.injEq] at hd
        obtain ⟨hst0, _, hp⟩ := hd
        subst hst0 hp
        simp only [heap_set_self] at hop
        split at hop
        · rename_i hassert
          simp only [Option.some.injEq, Prod.mk.injEq] at hop
          obtain ⟨hst, _⟩ := hop
          subst hst
          obtain ⟨_, hlt, hslot⟩ := hassert
          constructor
          · exact inv_of_publish s _ [] r0 r0.toNat hinv (by intro p; simp) hlt hslot
              rfl rfl rfl rfl (by simp)
          · exact hc_set_some s _ s.1.next _ rfl (Or.inr ⟨rfl, rfl⟩)
        · simp at hop
    · rename_i st0 r1 hd
      split at hd
      · simp only [Prod.mk.injEq] at hd
        simp only [Option.some.injEq, Prod.mk.injEq] at hop
        rw [← hop.1, ← hd.1]
        exact ⟨hinv, hc_same s _ rfl rfl⟩
      · simp [new_file] at hd

theorem inv_dup3 (s : proc × List Nat) (h : host) (oldfd newfd flags : Nat)
    (st : proc) (r : Int) (hinv : Inv s)
    (hop : sys_dup3 h s.1 oldfd newfd flags = some (st, r)) :
    Inv (st, s.2) ∧ heap_step s (st, s.2) := by
  unfold sys_dup3 at hop
  split at hop
  · simp only [Option.some.injEq, Prod.mk.injEq] at hop
    rw [← hop.1]
    exact ⟨hinv, hc_same s _ rfl rfl⟩
  · split at hop
    · simp only [Option.some.injEq, Prod.mk.injEq] at hop
      rw [← hop.1]
      exact ⟨hinv, hc_same s _ rfl rfl⟩
    · split at hop
      · simp at hop
      · rename_i hlt
        simp only [not_not] at hlt
        simp only [new_file] at hop
        generalize syswrap h.darwin_to_linux_errno (h.dup2 oldfd newfd) = ret at hop
        by_cases ha : (decide (s.1.slot newfd = none) = true ∧ 0 ≤ ret)
        · have hslot : s.1.slot newfd = none := by simpa using ha.1
          rw [if_pos ha] at hop
          split at hop
          · simp only [Option.some.injEq, Prod.mk.injEq] at hop
            rw [← hop.1]
            constructor
            · exact inv_of_publish s _ [Event.host_dup2 oldfd newfd, Event.host_cloexec newfd]
                (Int.ofNat newfd) newfd hinv (by intro p; simp) hlt hslot rfl rfl rfl rfl
                (by simp)
            · exact hc_set_some s _ s.1.next _ rfl (Or.inr ⟨rfl, rfl⟩)
          · simp only [Option.some.injEq, Prod.mk.injEq] at hop
            rw [← hop.1]
            constructor
            · exact inv_of_publish s _ [Event.host_dup2 oldfd newfd]
                (Int.ofNat newfd) newfd hinv (by intro p; simp) hlt hslot rfl rfl rfl rfl
                (by simp)
            · exact hc_set_some s _ s.1.next _ rfl (Or.inr ⟨rfl, rfl⟩)
        · rw [if_neg ha] at hop
          split at hop
          · simp only [Option.some.injEq, Prod.mk.injEq] at hop
            rw [← hop.1]
            constructor
            · exact inv_of_trace s _ [Event.host_dup2 oldfd newfd, Event.host_cloexec newfd]
                hinv (by intro p; simp) rfl rfl rfl rfl (by simp)
            · exact hc_same s _ rfl rfl
          · simp only [Option.some.injEq, Prod.mk.injEq] at hop
            rw [← hop.1]
            constructor
            · exact inv_of_trace s _ [Event.host_dup2 oldfd newfd]
                hinv (by intro p; simp) rfl rfl rfl rfl (by simp)
            · exact hc_same s _ rfl rfl

theorem inv_acquire (s t : proc × List Nat) (fd : Int) (st : proc) (r : Option Nat)
    (hinv : Inv s)
    (hop : vfs_acquire s.1 fd = some (st, r))
    (ht : t = (st, (r.map (fun p => p :: s.2)).getD s.2))
    (hb : in_flight_ok t = true) :
    Inv t ∧ heap_step s t := by
  subst ht
  by_cases hr : 0 ≤ fd ∧ fd.toNat < s.1.fdtab.length
  · cases hslot : s.1.slot fd.toNat with
    | none =>
      unfold vfs_acquire at hop
      simp only [hr, and_self, not_true_eq_false, if_false, hslot, Option.some.injEq,
        Prod.mk.injEq] at hop
      obtain ⟨h1, h2⟩ := hop
      subst h1 h2
      exact ⟨hinv, hc_same s _ rfl rfl⟩
    | some p =>
      obtain ⟨f, hf⟩ := inv_heap_of_slot s hinv _ _ hslot
      rw [vfs_acquire_eq s.1 fd p f hr.1 hr.2 hslot hf] at hop
      simp only [Option.some.injEq, Prod.mk.injEq] at hop
      obtain ⟨h1, h2⟩ := hop
      subst h1 h2
      constructor
      · exact inv_of_acquire s _ p f hinv hb hf rfl rfl rfl rfl rfl
      · exact hc_set_some s _ p _ rfl (Or.inl rfl)
  · unfold vfs_acquire at hop
    simp only [hr, not_false_eq_true, if_true, Option.some.injEq, Prod.mk.injEq] at hop
    obtain ⟨h1, h2⟩ := hop
    subst h1 h2
    exact ⟨hinv, hc_same s _ rfl rfl⟩

theorem refs_erase (s : proc × List Nat) (st : proc) (p : Nat)
    (hmem : 1 ≤ s.2.count p) (htab : st.fdtab = s.1.fdtab) :
    ∀ q, refs (st, s.2.erase p) q = refs s q - (if q = p then 1 else 0) := by
  intro q
  simp only [refs, htab]
  by_cases hq : q = p
  · subst hq
    rw [List.count_erase_self, if_pos rfl]
    omega
  · rw [List.count_erase_of_ne hq, if_neg hq]
    omega

theorem inv_release (s : proc × List Nat) (close : file → Int) (p : Nat) (st : proc) (r : Int)
    (hinv : Inv s) (hb : in_flight_ok s = true) (hmem : p ∈ s.2)
    (hop : vfs_release close s.1 p = some (st, r)) :
    Inv (st, s.2.erase p) ∧ heap_step s (st, s.2.erase p) := by
  have hcount : 1 ≤ s.2.count p := List.count_pos_iff.mpr hmem
  obtain ⟨f, hf⟩ := inv_heap_of_ref s hinv p (by simp only [refs]; omega)
  rw [vfs_release_eq close s.1 p f hf] at hop
  by_cases h1 : f.ref = 1
  · rw [if_pos h1] at hop
    simp only [Option.some.injEq, Prod.mk.injEq] at hop
    obtain ⟨hst, _⟩ := hop
    subst hst
    constructor
    · refine inv_of_drop_last s _ p f [Event.ops_close p f.fd, Event.shm_free p] hinv hf h1
        ?_ ?_ rfl rfl rfl
      · exact refs_erase s _ p hcount rfl
      intro q
      by_cases hq : q = p
      · subst hq; simp
      · have : ¬ p = q := fun h => hq h.symm
        simp [hq, this]
    · exact hc_free s _ p f hf h1 rfl rfl
  · rw [if_neg h1] at hop
    simp only [Option.some.injEq, Prod.mk.injEq] at hop
    obtain ⟨hst, _⟩ := hop
    subst hst
    constructor
    · refine inv_of_drop s _ p f [] hinv hb hf h1 ?_ (by intro q; simp)
        rfl rfl (by simp)
      exact refs_erase s _ p hcount rfl
    · exact hc_set_some s _ p _ rfl (Or.inl rfl)

theorem refs_unset (s : proc × List Nat) (st : proc) (i p : Nat)
    (hi : i < s.1.fdtab.length) (hslot : s.1.slot i = some p)
    (htab : st.fdtab = s.1.fdtab.set i none) :
    ∀ q, refs (st, s.2) q = refs s q - (if q = p then 1 else 0) := by
  intro q
  have hpos := count_pos_of_getD s.1.fdtab i p hslot
  simp only [refs, htab, count_set_none _ i p q hi hslot]
  by_cases hq : q = p
  · subst hq; simp; omega
  · simp [hq]

theorem inv_close (s : proc × List Nat) (close : file → Int) (fd : Int) (st : proc) (r : Int)
    (hinv : Inv s) (hb : in_flight_ok s = true)
    (hop : vfs_close close s.1 fd = some (st, r)) :
    Inv (st, s.2) ∧ heap_step s (st, s.2) := by
  by_cases hr : 0 ≤ fd ∧ fd.toNat < s.1.fdtab.length
  · cases hslot : s.1.slot fd.toNat with
    | none =>
      rw [vfs_close_bad close s.1 fd (Or.inr (Or.inr hslot))] at hop
      simp only [Option.some.injEq, Prod.mk.injEq] at hop
      rw [← hop.1]
      exact ⟨hinv, hc_same s _ rfl rfl⟩
    | some p =>
      obtain ⟨f, hf⟩ := inv_heap_of_slot s hinv _ _ hslot
      rw [vfs_close_eq close s.1 fd p f hr.1 hr.2 hslot hf] at hop
      by_cases hc : close f < 0
      · rw [if_pos hc] at hop
        simp only [Option.some.injEq, Prod.mk.injEq] at hop
        rw [← hop.1]
        constructor
        · exact inv_of_trace s _ [Event.ops_close p f.fd] hinv (by intro q; simp)
            rfl rfl rfl rfl rfl
        · exact hc_same s _ rfl rfl
      · rw [if_neg hc] at hop
        by_cases h1 : f.ref = 1
        · rw [if_pos h1] at hop
          simp only [Option.some.injEq, Prod.mk.injEq] at hop
          rw [← hop.1]
          constructor
          · refine inv_of_drop_last s _ p f [Event.ops_close p f.fd, Event.shm_free p] hinv hf h1
              ?_ ?_ rfl rfl (by simp)
            · exact refs_unset s _ fd.toNat p hr.2 hslot rfl
            intro q
            by_cases hq : q = p
            · subst hq; simp
            · have : ¬ p = q := fun h => hq h.symm
              simp [hq, this]
          · exact hc_free s _ p f hf h1 rfl rfl
        · rw [if_neg h1] at hop
          simp only [Option.some.injEq, Prod.mk.injEq] at hop
          rw [← hop.1]
          constructor
          · refine inv_of_drop s _ p f [Event.ops_close p f.fd] hinv hb hf h1
              ?_ (by intro q; simp) rfl rfl rfl
            exact refs_unset s _ fd.toNat p hr.2 hslot rfl
          · exact hc_set_some s _ p _ rfl (Or.inl rfl)
  · have hbad : fd < 0 ∨ (s.1.fdtab.length : Int) ≤ fd ∨ s.1.slot fd.toNat = none := by
      by_cases h0 : fd < 0
      · exact Or.inl h0
      · right; left
        have : ¬ fd.toNat < s.1.fdtab.length := fun h => hr ⟨by omega, h⟩
        omega
    rw [vfs_close_bad close s.1 fd hbad] at hop
    simp only [Option.some.injEq, Prod.mk.injEq] at hop
    rw [← hop.1]
    exact ⟨hinv, hc_same s _ rfl rfl⟩

theorem inv_step (s t : proc × List Nat) (op : Op) (hinv : Inv s)
    (hbs : in_flight_ok s = true) (hbt : in_flight_ok t = true)
    (hstep : step s op = some t) : Inv t ∧ heap_step s t := by
  cases op with
  | openat h dirfd name flags mode =>
    simp only [step, Option.map_eq_some'] at hstep
    obtain ⟨⟨st, r⟩, hop, rfl⟩ := hstep
    exact inv_openat s h dirfd name flags mode st r hinv hop
  | expose fd =>
    simp only [step, Option.map_eq_some'] at hstep
    obtain ⟨st, hop, rfl⟩ := hstep
    exact inv_expose s fd st hinv hop
  | dup3 h oldfd newfd flags =>
    simp only [step, Option.map_eq_some'] at hstep
    obtain ⟨⟨st, r⟩, hop, rfl⟩ := hstep
    exact inv_dup3 s h oldfd newfd flags st r hinv hop
  | acquire fd =>
    simp only [step, Option.map_eq_some'] at hstep
    obtain ⟨⟨st, r⟩, hop, rfl⟩ := hstep
    exact inv_acquire s _ fd st r hinv hop (by cases r <;> rfl) hbt
  | release close p =>
    simp only [step] at hstep
    split at hstep
    · rename_i hmem
      simp only [Option.map_eq_some'] at hstep
      obtain ⟨⟨st, r⟩, hop, rfl⟩ := hstep
      exact inv_release s close p st r hinv hbs hmem hop
    · simp at hstep
  | close close fd =>
    simp only [step, Option.map_eq_some'] at hstep
    obtain ⟨⟨st, r⟩, hop, rfl⟩ := hstep
    exact inv_close s close fd st r hinv hbs hop

theorem inv_run (ops : List Op) : ∀ (s t : proc × List Nat), Inv s →
    bounded s ops = true → run s ops = some t → Inv t ∧ in_flight_ok t = true := by
  induction ops with
  | nil =>
    intro s t hinv hb hrun
    simp only [run, Option.some.injEq] at hrun
    subst hrun
    exact ⟨hinv, by simpa [bounded] using hb⟩
  | cons op ops ih =>
    intro s t hinv hb hrun
    simp only [run] at hrun
    simp only [bounded, Bool.and_eq_true] at hb
    cases hs : step s op with
    | none => simp [hs] at hrun
    | some s1 =>
      simp only [hs] at hrun hb
      have hb1 : in_flight_ok s1 = true := by
        cases ops with
        | nil => simpa [bounded] using hb.2
        | cons op2 ops2 =>
          have := hb.2
          simp only [bounded, Bool.and_eq_true] at this
          exact this.1
      exact ih s1 t (inv_step s s1 op hinv hb.1 hb1 hs).1 hb.2 hrun

/-- C8: in every state reached from the empty descriptor table by `vfs_openat`,
`vfs_expose_darwinfs_fd`, `sys_dup3`, `vfs_acquire`, `vfs_release` of a pointer obtained
from an earlier `vfs_acquire`, and `vfs_close`, every file stored in a slot of `fdtab` has
a record with reference count at least 1. The `atomic_uint` is taken not to wrap: the
slots and the pointers in flight number fewer than `2 ^ 32` throughout. -/
theorem fdtab_ref_positive (vfs_root : Int) (nr_fdtab : Nat) (ops : List Op)
    (st : proc) (held : List Nat)
    (hb : bounded (proc_init vfs_root nr_fdtab, []) ops = true)
    (hrun : run (proc_init vfs_root nr_fdtab, []) ops = some (st, held)) :
    ∀ fd p, st.slot fd = some p → ∃ f, st.heap p = some f ∧ 1 ≤ f.ref := by
  intro fd p hslot
  have hinv := (inv_run ops _ _ (inv_init vfs_root nr_fdtab) hb hrun).1
  obtain ⟨f, hf⟩ := inv_heap_of_slot (st, held) hinv fd p hslot
  exact ⟨f, hf, (hinv.live p f hf).2⟩

/-- C8, after opening descriptor 3 and taking a reference to its file. -/
theorem fdtab_ref_positive_witness :
    bounded (proc_init 0 8, []) ops_acquire = true ∧
    ∃ st held, run (proc_init 0 8, []) ops_acquire = some (st, held) ∧
      ∀ fd p, st.slot fd = some p → ∃ f, st.heap p = some f ∧ 1 ≤ f.ref := by
  have h : (run (proc_init 0 8, []) ops_acquire).isSome = true := by decide
  obtain ⟨⟨st, held⟩, hs⟩ := Option.isSome_iff_exists.mp h
  exact ⟨by decide, st, held, hs, fdtab_ref_positive 0 8 ops_acquire st held (by decide) hs⟩

/-- C9: in every state reached from the empty descriptor table, with every `vfs_release`
matching an earlier `vfs_acquire`, the record at an address `p` has been freed at most once;
it has been freed once exactly when it was allocated and neither a slot nor a pointer in
flight refers to it; the count of a record equals the number of these references and it has
not been freed while there is one; and an operation frees it only when its count was 1 and
no reference is left afterwards. -/
theorem file_freed_once (vfs_root : Int) (nr_fdtab : Nat) (ops : List Op)
    (st : proc) (held : List Nat)
    (hb : bounded (proc_init vfs_root nr_fdtab, []) ops = true)
    (hrun : run (proc_init vfs_root nr_fdtab, []) ops = some (st, held)) (p : Nat) :
    st.trace.count (Event.shm_free p) ≤ 1 ∧
    (st.trace.count (Event.shm_free p) = 1 ↔ p < st.next ∧ refs (st, held) p = 0) ∧
    (∀ f, st.heap p = some f →
      f.ref = refs (st, held) p ∧ 1 ≤ f.ref ∧ st.trace.count (Event.shm_free p) = 0) ∧
    (∀ op t, in_flight_ok t = true → step (st, held) op = some t →
      t.1.trace.count (Event.shm_free p) = st.trace.count (Event.shm_free p) + 1 →
      (∃ f, st.heap p = some f ∧ f.ref = 1) ∧ refs t p = 0 ∧ t.1.heap p = none) := by
  obtain ⟨hinv, hbt⟩ := inv_run ops _ _ (inv_init vfs_root nr_fdtab) hb hrun
  have hfreed := hinv.freed p
  simp only [] at hfreed
  refine ⟨?_, ?_, ?_, ?_⟩
  · rw [hfreed]; split <;> omega
  · rw [hfreed]
    constructor
    · intro h
      split at h
      · rename_i hc
        exact ⟨hc.1, hinv.dead p hc.2⟩
      · omega
    · intro ⟨h1, h2⟩
      have hnone : st.heap p = none := by
        cases hh : st.heap p with
        | none => rfl
        | some f =>
          have := (hinv.live p f hh)
          simp only [] at this
          omega
      rw [if_pos ⟨h1, hnone⟩]
  · intro f hf
    obtain ⟨h1, h2⟩ := hinv.live p f hf
    refine ⟨h1, h2, ?_⟩
    rw [hfreed, if_neg]
    rintro ⟨_, hnone⟩
    rw [hnone] at hf
    simp at hf
  · intro op t hbt2 hstep hcount
    obtain ⟨hinv2, hhs⟩ := inv_step (st, held) t op hinv hbt hbt2 hstep
    have hfreed2 := hinv2.freed p
    rw [hfreed2, hfreed] at hcount
    have hafter : p < t.1.next ∧ t.1.heap p = none := by
      by_contra hcon
      rw [if_neg hcon] at hcount
      omega
    have hbefore : ¬ (p < st.next ∧ st.heap p = none) := by
      intro hcon
      rw [if_pos hcon, if_pos hafter] at hcount
      omega
    refine ⟨?_, hinv2.dead p hafter.2, hafter.2⟩
    rcases hhs p hafter.2 hafter.1 with ⟨h1, h2⟩ | h
    · exact absurd ⟨h2, h1⟩ hbefore
    · exact h

/-- C9, after opening descriptor 3, taking a reference, closing the descriptor and releasing
the reference: the record at address 0 has been freed once. -/
theorem file_freed_once_witness :
    bounded (proc_init 0 8, []) ops_acquire_close_release = true ∧
    ∃ st held, run (proc_init 0 8, []) ops_acquire_close_release = some (st, held) ∧
      st.trace.count (Event.shm_free 0) ≤ 1 ∧
      (st.trace.count (Event.shm_free 0) = 1 ↔ 0 < st.next ∧ refs (st, held) 0 = 0) := by
  have h : (run (proc_init 0 8, []) ops_acquire_close_release).isSome = true := by decide
  obtain ⟨⟨st, held⟩, hs⟩ := Option.isSome_iff_exists.mp h
  have hthm := file_freed_once 0 8 ops_acquire_close_release st held (by decide) hs 0
  exact ⟨by decide, st, held, hs, hthm.1, hthm.2.1⟩

/-- C10, the code at the sequence open, `vfs_acquire`, `vfs_close`, `vfs_release`: the
operation `ops->close` is invoked twice on the one record, by `vfs_close` and again by
`vfs_release`, before the record is freed once. -/
theorem close_invoked_twice :
    (run (proc_init 0 8, []) ops_acquire_close_release).map (fun s => s.1.trace) =
      some [Event.ops_close 0 3, Event.ops_close 0 3, Event.shm_free 0] ∧
    ((run (proc_init 0 8, []) ops_acquire_close_release).map
      (fun s => s.1.trace.count (Event.ops_close 0 3))) = some 2 := by
  constructor <;> decide

theorem is_vsyscall_iff (a : Nat) :
    is_vsyscall a = true ↔ VSYSCALL_PAGE_ADDR ≤ a ∧ a ≤ VSYSCALL_PAGE_ADDR + 0x1000 := by
  unfold is_vsyscall
  split
  · rename_i h
    simp only [Bool.false_eq_true, false_iff]
    omega
  · rename_i h
    simp only [true_iff]
    omega

/-- C13, the code at the address `0xFFFFFFFFFF601000`, the first byte after the vsyscall
page: `is_vsyscall` accepts it, and a page fault there installs `proc.vsyscall_page` before
`SIGSEGV` is posted. -/
theorem is_vsyscall_past_the_page :
    ¬ (0xFFFFFFFFFF601000 < 0xFFFFFFFFFF600000 + 0x1000) ∧
    is_vsyscall 0xFFFFFFFFFF601000 = true ∧
    (main_loop_body (exit_of VMX_REASON_EXC_NMI 0x30e 0xFFFFFFFFFF601000) false
      vcpu_init).1.vsyscall_page = 0x7000 ∧
    (main_loop_body (exit_of VMX_REASON_EXC_NMI 0x30e 0xFFFFFFFFFF601000) false
      vcpu_init).1.actions =
      [Action.do_mmap 3, Action.copy_to_user 0x7000 [0x0f, 0x05, 0xC3],
       Action.send_signal LINUX_SIGSEGV] ∧
    (∀ a, is_vsyscall a = true ↔
      0xFFFFFFFFFF600000 ≤ a ∧ a < 0xFFFFFFFFFF600000 + 0x1000 ∨ a = 0xFFFFFFFFFF601000) := by
  refine ⟨by decide, by decide, by decide, by decide, ?_⟩
  intro a
  rw [is_vsyscall_iff]
  simp only [VSYSCALL_PAGE_ADDR]
  omega

theorem handle_vsyscall_true (r : Nat) (m : vcpu) (a : Nat)
    (h : a = VSYSCALL_PAGE_ADDR ∨ a = VSYSCALL_PAGE_ADDR + 0x400 ∨
      a = VSYSCALL_PAGE_ADDR + 0x800) :
    handle_vsyscall r m a =
      let m1 : vcpu :=
        if m.vsyscall_page = 0 then
          (({ m with vsyscall_page := r }.act (Action.do_mmap 3)).act
            (Action.copy_to_user r [0x0f, 0x05, 0xC3]))
        else m
      ((m1.write Reg.RAX (if a = VSYSCALL_PAGE_ADDR then 96
          else if a = VSYSCALL_PAGE_ADDR + 0x400 then 201 else 309)).write
        Reg.RIP m1.vsyscall_page, true) := by
  have hv : is_vsyscall a = true := by
    rw [is_vsyscall_iff]
    rcases h with h | h | h <;> omega
  unfold handle_vsyscall
  simp only [hv, not_true_eq_false, if_false]
  rcases h with h | h | h
  · subst h; simp
  · subst h; simp [VSYSCALL_PAGE_ADDR]
  · subst h; simp [VSYSCALL_PAGE_ADDR]

theorem handle_vsyscall_false (r : Nat) (m : vcpu) (a : Nat)
    (h : ¬ (a = VSYSCALL_PAGE_ADDR ∨ a = VSYSCALL_PAGE_ADDR + 0x400 ∨
      a = VSYSCALL_PAGE_ADDR + 0x800)) :
    (handle_vsyscall r m a).2 = false ∧ (handle_vsyscall r m a).1.regs = m.regs := by
  simp only [not_or] at h
  unfold handle_vsyscall
  split
  · simp
  · simp only [h.1, h.2.1, h.2.2, if_false, true_and]
    split <;> rfl

theorem page_fault_body (e : vmexit) (ros : Bool) (m : vcpu)
    (he : e.is_exception X86_VEC_PF) :
    main_loop_body e ros m =
      if (handle_vsyscall e.mmap_result m e.qualification).2 = true then
        ((handle_vsyscall e.mmap_result m e.qualification).1, Flow.next)
      else
        ((handle_vsyscall e.mmap_result m e.qualification).1.act
          (Action.send_signal LINUX_SIGSEGV), Flow.next) := by
  obtain ⟨h1, h2, h3⟩ := he
  unfold main_loop_body
  have hv : ¬ (VMX_REASON_EXC_NMI = VMX_REASON_VMCALL) := by decide
  have ht : ¬ ((e.irq_info &&& 0x700) >>> 8 = VMCS_EXCTYPE_EXTERNAL_INTERRUPT ∨
      (e.irq_info &&& 0x700) >>> 8 = VMCS_EXCTYPE_NONMASKTABLE_INTERRUPT) := by
    rcases h2 with h2 | h2 <;> rw [h2] <;> decide
  simp only [h1, hv, if_false, if_true, ht, h2, h3]
  cases (handle_vsyscall e.mmap_result m e.qualification).2 <;> simp

/-- C14: `handle_vsyscall(a)` returns true exactly when `a` is the vsyscall page
address plus 0, `0x400` or `0x800`; it then writes 96, 201 or 309 to guest RAX and
`proc.vsyscall_page` to guest RIP. At every other address it returns false and leaves all
guest registers as they were, and the page-fault case of `main_loop` then posts `SIGSEGV`
(and posts nothing when true was returned). -/
theorem handle_vsyscall_dispatch (r : Nat) (m : vcpu) (a : Nat) :
    ((handle_vsyscall r m a).2 = true ↔
      a = VSYSCALL_PAGE_ADDR ∨ a = VSYSCALL_PAGE_ADDR + 0x400 ∨
        a = VSYSCALL_PAGE_ADDR + 0x800) ∧
    (a = VSYSCALL_PAGE_ADDR → (handle_vsyscall r m a).1.regs Reg.RAX = 96) ∧
    (a = VSYSCALL_PAGE_ADDR + 0x400 → (handle_vsyscall r m a).1.regs Reg.RAX = 201) ∧
    (a = VSYSCALL_PAGE_ADDR + 0x800 → (handle_vsyscall r m a).1.regs Reg.RAX = 309) ∧
    ((handle_vsyscall r m a).2 = true →
      (handle_vsyscall r m a).1.regs Reg.RIP = (handle_vsyscall r m a).1.vsyscall_page ∧
      ∀ q, q ≠ Reg.RAX → q ≠ Reg.RIP → (handle_vsyscall r m a).1.regs q = m.regs q) ∧
    ((handle_vsyscall r m a).2 = false → (handle_vsyscall r m a).1.regs = m.regs) ∧
    (∀ (e : vmexit) (ros : Bool), e.is_exception X86_VEC_PF → e.qualification = a →
      e.mmap_result = r →
      (main_loop_body e ros m).2 = Flow.next ∧
      (main_loop_body e ros m).1.regs = (handle_vsyscall r m a).1.regs ∧
      (main_loop_body e ros m).1.actions = (handle_vsyscall r m a).1.actions ++
        (if (handle_vsyscall r m a).2 = true then []
          else [Action.send_signal LINUX_SIGSEGV])) := by
  by_cases h : a = VSYSCALL_PAGE_ADDR ∨ a = VSYSCALL_PAGE_ADDR + 0x400 ∨
      a = VSYSCALL_PAGE_ADDR + 0x800
  · have ht := handle_vsyscall_true r m a h
    simp only [] at ht
    refine ⟨?_, ?_, ?_, ?_, ?_, ?_, ?_⟩
    · rw [ht]; simp [h]
    · intro ha; rw [ht]; simp [ha, vcpu.write]
    · intro ha; rw [ht]; simp [ha, vcpu.write, VSYSCALL_PAGE_ADDR]
    · intro ha; rw [ht]; simp [ha, vcpu.write, VSYSCALL_PAGE_ADDR]
    · intro _
      rw [ht]
      refine ⟨by simp [vcpu.write], ?_⟩
      intro q h1 h2
      simp only [vcpu.write, h1, h2, if_false]
      split <;> rfl
    · intro hf; rw [ht] at hf; simp at hf
    · intro e ros he hq hr
      rw [page_fault_body e ros m he, hq, hr, ht]
      simp [vcpu.act]
  · have hf := handle_vsyscall_false r m a h
    refine ⟨?_, ?_, ?_, ?_, ?_, ?_, ?_⟩
    · rw [hf.1]; simp [h]
    · intro ha; exact absurd (Or.inl ha) h
    · intro ha; exact absurd (Or.inr (Or.inl ha)) h
    · intro ha; exact absurd (Or.inr (Or.inr ha)) h
    · intro ht; rw [hf.1] at ht; simp at ht
    · intro _; exact hf.2
    · intro e ros he hq hr
      rw [page_fault_body e ros m he, hq, hr]
      simp [hf.1, vcpu.act]

/-- C14, at the address of the `time` entry: RAX becomes 201 and RIP the new page. -/
theorem handle_vsyscall_dispatch_witness :
    (handle_vsyscall 0x7000 vcpu_init (VSYSCALL_PAGE_ADDR + 0x400)).2 = true ∧
    (handle_vsyscall 0x7000 vcpu_init (VSYSCALL_PAGE_ADDR + 0x400)).1.regs Reg.RAX = 201 ∧
    (handle_vsyscall 0x7000 vcpu_init (VSYSCALL_PAGE_ADDR + 0x400)).1.regs Reg.RIP = 0x7000 :=
  ⟨(handle_vsyscall_dispatch 0x7000 vcpu_init (VSYSCALL_PAGE_ADDR + 0x400)).1.mpr
      (Or.inr (Or.inl rfl)),
    (handle_vsyscall_dispatch 0x7000 vcpu_init (VSYSCALL_PAGE_ADDR + 0x400)).2.2.1 rfl,
    by decide⟩

theorem handle_vsyscall_page (r : Nat) (m : vcpu) (a : Nat) :
    (handle_vsyscall r m a).1.vsyscall_page =
      (if is_vsyscall a = true ∧ m.vsyscall_page = 0 then r else m.vsyscall_page) ∧
    (handle_vsyscall r m a).1.actions =
      m.actions ++ (if is_vsyscall a = true ∧ m.vsyscall_page = 0 then
        [Action.do_mmap 3, Action.copy_to_user r [0x0f, 0x05, 0xC3]] else []) := by
  unfold handle_vsyscall
  by_cases hv : is_vsyscall a = true
  · by_cases hp : m.vsyscall_page = 0
    · simp only [hv, hp, not_true_eq_false, if_false, if_true, and_self]
      split
      · simp [vcpu.write, vcpu.act]
      · split
        · simp [vcpu.write, vcpu.act]
        · split
          · simp [vcpu.write, vcpu.act]
          · simp [vcpu.act]
    · simp only [hv, hp, not_true_eq_false, if_false, and_false]
      split
      · simp [vcpu.write]
      · split
        · simp [vcpu.write]
        · split
          · simp [vcpu.write]
          · simp
  · simp [hv]

theorem vsyscall_run_append (m : vcpu) (pre post : List (Nat × Nat)) :
    vsyscall_run m (pre ++ post) = vsyscall_run (vsyscall_run m pre) post := by
  induction pre generalizing m with
  | nil => rfl
  | cons c rest ih =>
    obtain ⟨a, r⟩ := c
    simp only [List.cons_append, vsyscall_run]
    exact ih _

theorem vsyscall_run_set (calls : List (Nat × Nat)) : ∀ (m : vcpu),
    m.vsyscall_page ≠ 0 →
    (vsyscall_run m calls).vsyscall_page = m.vsyscall_page ∧
    (vsyscall_run m calls).actions = m.actions := by
  induction calls with
  | nil => intro m _; exact ⟨rfl, rfl⟩
  | cons c rest ih =>
    intro m hm
    obtain ⟨a, r⟩ := c
    simp only [vsyscall_run]
    have hp := handle_vsyscall_page r m a
    have h1 : (handle_vsyscall r m a).1.vsyscall_page = m.vsyscall_page := by
      rw [hp.1, if_neg (fun h => hm h.2)]
    have h2 : (handle_vsyscall r m a).1.actions = m.actions := by
      rw [hp.2, if_neg (fun h => hm h.2)]; simp
    have := ih (handle_vsyscall r m a).1 (by rw [h1]; exact hm)
    rw [this.1, this.2, h1, h2]
    exact ⟨rfl, rfl⟩

theorem vsyscall_run_inv (calls : List (Nat × Nat)) : ∀ (m : vcpu),
    (∀ c ∈ calls, c.2 ≠ 0) → vsyscall_inv m → vsyscall_inv (vsyscall_run m calls) := by
  induction calls with
  | nil => intro m _ h; exact h
  | cons c rest ih =>
    intro m hc hm
    obtain ⟨a, r⟩ := c
    simp only [vsyscall_run]
    apply ih _ (fun c hcm => hc c (List.mem_cons_of_mem _ hcm))
    have hr : r ≠ 0 := hc (a, r) (List.mem_cons_self _ _)
    have hp := handle_vsyscall_page r m a
    rcases hm with ⟨h0, hact⟩ | ⟨h1, hact⟩
    · by_cases hv : is_vsyscall a = true
      · right
        rw [hp.1, hp.2, if_pos ⟨hv, h0⟩, if_pos ⟨hv, h0⟩, hact]
        exact ⟨hr, rfl⟩
      · left
        rw [hp.1, hp.2, if_neg (fun h => hv h.1), if_neg (fun h => hv h.1), hact]
        exact ⟨h0, rfl⟩
    · right
      rw [hp.1, hp.2, if_neg (fun h => h1 h.2), if_neg (fun h => h1 h.2), hact]
      exact ⟨h1, by simp⟩

/-- C15: over every sequence of `handle_vsyscall` calls of a process that starts
without a vsyscall page, with `do_mmap` returning non-zero addresses: a single call changes
`proc.vsyscall_page` only from 0 and only to the address that `do_mmap` returned; once the
field is non-zero no later call changes it; and at every point either no page is installed
and nothing was copied, or exactly one copy was made, of the bytes `0F 05 C3` to the
installed address. -/
theorem vsyscall_page_installed_once (m : vcpu) (calls : List (Nat × Nat))
    (hm : m.vsyscall_page = 0 ∧ m.actions = [])
    (hmap : ∀ c ∈ calls, c.2 ≠ 0) :
    (∀ (r : Nat) (s : vcpu) (a : Nat),
      (handle_vsyscall r s a).1.vsyscall_page ≠ s.vsyscall_page →
      s.vsyscall_page = 0 ∧ (handle_vsyscall r s a).1.vsyscall_page = r ∧
      (handle_vsyscall r s a).1.actions =
        s.actions ++ [Action.do_mmap 3, Action.copy_to_user r [0x0f, 0x05, 0xC3]]) ∧
    (∀ pre post, calls = pre ++ post → (vsyscall_run m pre).vsyscall_page ≠ 0 →
      (vsyscall_run m calls).vsyscall_page = (vsyscall_run m pre).vsyscall_page) ∧
    vsyscall_inv (vsyscall_run m calls) := by
  refine ⟨?_, ?_, ?_⟩
  · intro r s a hne
    have hp := handle_vsyscall_page r s a
    by_cases hc : is_vsyscall a = true ∧ s.vsyscall_page = 0
    · rw [hp.1, hp.2, if_pos hc, if_pos hc]
      exact ⟨hc.2, rfl, rfl⟩
    · rw [hp.1, if_neg hc] at hne
      exact absurd rfl hne
  · intro pre post hsplit hpre
    rw [hsplit, vsyscall_run_append]
    exact (vsyscall_run_set post _ hpre).1
  · exact vsyscall_run_inv calls m hmap (Or.inl hm)

/-- C15, for a fault at the `time` entry followed by one at the `getcpu` entry: the page
installed by the first call stays. -/
theorem vsyscall_page_installed_once_witness :
    (vcpu_init.vsyscall_page = 0 ∧ vcpu_init.actions = []) ∧
    (vsyscall_run vcpu_init
      [(VSYSCALL_PAGE_ADDR + 0x400, 0x7000), (VSYSCALL_PAGE_ADDR + 0x800, 0x9000)]).vsyscall_page
      = 0x7000 ∧
    vsyscall_inv (vsyscall_run vcpu_init
      [(VSYSCALL_PAGE_ADDR + 0x400, 0x7000), (VSYSCALL_PAGE_ADDR + 0x800, 0x9000)]) :=
  ⟨⟨rfl, rfl⟩, by decide,
    (vsyscall_page_installed_once vcpu_init
      [(VSYSCALL_PAGE_ADDR + 0x400, 0x7000), (VSYSCALL_PAGE_ADDR + 0x800, 0x9000)]
      ⟨rfl, rfl⟩ (by decide)).2.2⟩

/-- C16: when guest RAX is below `NR_SYSCALLS`, `handle_syscall` calls the handler at
table index RAX with the arguments RDI, RSI, RDX, R10, R8, R9 in that order, posts no
signal itself, writes the value that the handler returned to guest RAX, and writes no other
guest register: every other register holds what the handler left. -/
theorem handle_syscall_dispatch (nr_syscalls : Nat) (table : HandlerTable) (m : vcpu)
    (h : m.regs Reg.RAX < nr_syscalls) :
    (handle_syscall nr_syscalls table m).1 =
      (table (m.regs Reg.RAX) (m.regs Reg.RDI) (m.regs Reg.RSI) (m.regs Reg.RDX)
        (m.regs Reg.R10) (m.regs Reg.R8) (m.regs Reg.R9)
        (m.act (Action.handler (m.regs Reg.RAX) (m.regs Reg.RDI) (m.regs Reg.RSI)
          (m.regs Reg.RDX) (m.regs Reg.R10) (m.regs Reg.R8) (m.regs Reg.R9)))).1.write Reg.RAX
      (table (m.regs Reg.RAX) (m.regs Reg.RDI) (m.regs Reg.RSI) (m.regs Reg.RDX)
        (m.regs Reg.R10) (m.regs Reg.R8) (m.regs Reg.R9)
        (m.act (Action.handler (m.regs Reg.RAX) (m.regs Reg.RDI) (m.regs Reg.RSI)
          (m.regs Reg.RDX) (m.regs Reg.R10) (m.regs Reg.R8) (m.regs Reg.R9)))).2 ∧
    (handle_syscall nr_syscalls table m).1.regs Reg.RAX =
      (table (m.regs Reg.RAX) (m.regs Reg.RDI) (m.regs Reg.RSI) (m.regs Reg.RDX)
        (m.regs Reg.R10) (m.regs Reg.R8) (m.regs Reg.R9)
        (m.act (Action.handler (m.regs Reg.RAX) (m.regs Reg.RDI) (m.regs Reg.RSI)
          (m.regs Reg.RDX) (m.regs Reg.R10) (m.regs Reg.R8) (m.regs Reg.R9)))).2 ∧
    (∀ q, q ≠ Reg.RAX → (handle_syscall nr_syscalls table m).1.regs q =
      (table (m.regs Reg.RAX) (m.regs Reg.RDI) (m.regs Reg.RSI) (m.regs Reg.RDX)
        (m.regs Reg.R10) (m.regs Reg.R8) (m.regs Reg.R9)
        (m.act (Action.handler (m.regs Reg.RAX) (m.regs Reg.RDI) (m.regs Reg.RSI)
          (m.regs Reg.RDX) (m.regs Reg.R10) (m.regs Reg.R8) (m.regs Reg.R9)))).1.regs q) ∧
    (handle_syscall nr_syscalls table m).1.actions =
      (table (m.regs Reg.RAX) (m.regs Reg.RDI) (m.regs Reg.RSI) (m.regs Reg.RDX)
        (m.regs Reg.R10) (m.regs Reg.R8) (m.regs Reg.R9)
        (m.act (Action.handler (m.regs Reg.RAX) (m.regs Reg.RDI) (m.regs Reg.RSI)
          (m.regs Reg.RDX) (m.regs Reg.R10) (m.regs Reg.R8) (m.regs Reg.R9)))).1.actions ∧
    (handle_syscall nr_syscalls table m).2 =
      some (if m.regs Reg.RAX = LSYS_rt_sigreturn then -1 else 0) := by
  have hge : ¬ m.regs Reg.RAX ≥ nr_syscalls := by omega
  unfold handle_syscall
  simp only [hge, if_false]
  refine ⟨?_, ?_, ?_, ?_, ?_⟩
  · trivial
  · simp [vcpu.write]
  · intro q hq
    simp [vcpu.write, hq]
  · trivial
  · trivial

/-- C16, for the table whose handlers return 7, at RAX = 0: RAX becomes 7. -/
theorem handle_syscall_dispatch_witness :
    vcpu_init.regs Reg.RAX < 512 ∧
    (handle_syscall 512 table_seven vcpu_init).1.regs Reg.RAX = 7 ∧
    (handle_syscall 512 table_seven vcpu_init).1.actions = [Action.handler 0 0 0 0 0 0 0] :=
  ⟨by decide, (handle_syscall_dispatch 512 table_seven vcpu_init (by decide)).2.1,
    by decide⟩

theorem exception_body (e : vmexit) (ros : Bool) (m : vcpu) (vec : Nat)
    (he : e.is_exception vec) (hpf : vec ≠ X86_VEC_PF) :
    main_loop_body e ros m =
      if vec = X86_VEC_UD then invalid_opcode e ros m else exception_thrown e m := by
  obtain ⟨h1, h2, h3⟩ := he
  unfold main_loop_body
  have hv : ¬ (VMX_REASON_EXC_NMI = VMX_REASON_VMCALL) := by decide
  have ht : ¬ ((e.irq_info &&& 0x700) >>> 8 = VMCS_EXCTYPE_EXTERNAL_INTERRUPT ∨
      (e.irq_info &&& 0x700) >>> 8 = VMCS_EXCTYPE_NONMASKTABLE_INTERRUPT) := by
    rcases h2 with h2 | h2 <;> rw [h2] <;> decide
  simp only [h1, hv, if_false, if_true, ht, h2, h3, hpf]

theorem invalid_opcode_other (e : vmexit) (ros : Bool) (m : vcpu)
    (hsys : is_syscall e e.instr_len (m.regs Reg.RIP) = false)
    (havx : ¬ (is_avx e (m.regs Reg.RIP) = true ∧ m.regs Reg.XCR0 &&& XCR0_AVX_STATE = 0 ∧
      (e.cpuid_count 0x0d 0x0).1 &&& XCR0_AVX_STATE ≠ 0)) :
    invalid_opcode e ros m =
      match e.mem (m.regs Reg.RIP) e.instr_len with
      | none => (m, Flow.abort)
      | some _ => (m.act (Action.send_signal LINUX_SIGILL), Flow.exit 1) := by
  unfold invalid_opcode
  simp only [hsys, Bool.false_eq_true, if_false, havx]
  cases hm : e.mem (m.regs Reg.RIP) e.instr_len with
  | none => rfl
  | some bytes =>
    simp only [exception_thrown, vcpu.act, hm]

/-- C17, the code at a `#UD` exit on the instruction `ud2` (bytes `0F 0B`), which is
neither `syscall` nor an AVX instruction: `main_loop` posts `SIGILL` and then, the case
having no `break`, runs into the block of the other exceptions and calls `exit(1)`. And so
at every `#UD` exit that is neither a syscall nor an AVX instruction to enable: the pass
ends in `exit(1)` or in a failed assertion, never in the next iteration. -/
theorem invalid_opcode_exits :
    (exit_of VMX_REASON_EXC_NMI 0x306 0).is_exception X86_VEC_UD ∧
    is_syscall (exit_of VMX_REASON_EXC_NMI 0x306 0) 2 (vcpu_init.regs Reg.RIP) = false ∧
    is_avx (exit_of VMX_REASON_EXC_NMI 0x306 0) (vcpu_init.regs Reg.RIP) = false ∧
    (main_loop_body (exit_of VMX_REASON_EXC_NMI 0x306 0) false vcpu_init).1.actions =
      [Action.send_signal LINUX_SIGILL] ∧
    (main_loop_body (exit_of VMX_REASON_EXC_NMI 0x306 0) false vcpu_init).2 = Flow.exit 1 ∧
    (∀ (e : vmexit) (ros : Bool) (m : vcpu), e.is_exception X86_VEC_UD →
      is_syscall e e.instr_len (m.regs Reg.RIP) = false →
      ¬ (is_avx e (m.regs Reg.RIP) = true ∧ m.regs Reg.XCR0 &&& XCR0_AVX_STATE = 0 ∧
        (e.cpuid_count 0x0d 0x0).1 &&& XCR0_AVX_STATE ≠ 0) →
      (main_loop_body e ros m).2 ≠ Flow.next) := by
  refine ⟨?_, by decide, by decide, by decide, by decide, ?_⟩
  · exact ⟨by decide, Or.inl (by decide), by decide⟩
  · intro e ros m he hsys havx
    rw [exception_body e ros m X86_VEC_UD he (by decide), if_pos rfl,
      invalid_opcode_other e ros m hsys havx]
    cases e.mem (m.regs Reg.RIP) e.instr_len <;> simp

theorem ept_violation_checked (e : vmexit) (ros : Bool) (m : vcpu)
    (he : e.exit_reason = VMX_REASON_EPT_VIOLATION) :
    (e.qualification &&& (1 <<< 7) ≠ 0 →
      main_loop_body e ros m =
        if e.addr_ok e.guest_lin_addr
            (if e.qualification &&& (1 <<< 0) ≠ 0 then VERIFY_READ
             else if e.qualification &&& (1 <<< 1) ≠ 0 then VERIFY_WRITE
             else if e.qualification &&& (1 <<< 2) ≠ 0 then VERIFY_EXEC
             else 0) = false
        then (m.act (Action.send_signal LINUX_SIGSEGV), Flow.next)
        else (m, Flow.next)) ∧
    (e.qualification &&& (1 <<< 7) = 0 → main_loop_body e ros m = (m, Flow.next)) := by
  have h1 : ¬ (VMX_REASON_EPT_VIOLATION = VMX_REASON_VMCALL) := by decide
  have h2 : ¬ (VMX_REASON_EPT_VIOLATION = VMX_REASON_EXC_NMI) := by decide
  constructor
  · intro hq
    unfold main_loop_body ept_violation
    simp only [he, h1, h2, if_false, if_true, hq, ne_eq, not_false_eq_true,
      Bool.not_eq_true]
  · intro hq
    unfold main_loop_body ept_violation
    simp only [he, h1, h2, if_false, if_true, hq, ne_eq, not_true_eq_false]

/-- C11, the code at a path pointer on which `strncpy_from_user` fails: `sys_openat`
does not look at the value returned; it looks up whatever the buffer holds (here `x`),
calls the host `openat`, publishes the new descriptor and returns it (5) and not `-EFAULT`;
when the buffer holds the empty string it returns `-ENOENT`.
Of the handlers listed only `sys_faccessat` and `sys_chroot` test the value: they return
`-EFAULT` whatever the lookup and the host would answer. -/
theorem path_copy_unchecked :
    (user_fault 0).1 < 0 ∧
    (sys_openat host_ab user_fault (proc_init 3 8) LINUX_AT_FDCWD 0 0 0).map (fun r => r.2)
      = some 5 ∧
    (sys_openat host_ab user_fault (proc_init 3 8) LINUX_AT_FDCWD 0 0 0).map
      (fun r => r.1.slot 5) = some (some 0) ∧
    (∀ (h : host) (user : UserStr) (st : proc) (dirfd : Int) (path_ptr flags mode : Nat),
      (user path_ptr).2 = [] →
      sys_openat h user st dirfd path_ptr flags mode = some (st, -LINUX_ENOENT)) ∧
    (∀ (rl : Readlinkat) (faccessat : Int → List Char → Nat → Int) (vfs_root : Int)
      (user : UserStr) (dirfd : Int) (path_ptr mode : Nat), (user path_ptr).1 < 0 →
      sys_faccessat rl faccessat vfs_root user dirfd path_ptr mode = some (-LINUX_EFAULT)) ∧
    (∀ (getuid : Int) (user : UserStr) (path_ptr : Nat), (user path_ptr).1 < 0 →
      sys_chroot getuid user path_ptr = -LINUX_EFAULT) := by
  refine ⟨by decide, by decide, by decide, ?_, ?_, ?_⟩
  · intro h user st dirfd ptr flags mode he
    simp [sys_openat, vfs_openat, vfs_grab_dir, he]
  · intro rl fa root user dirfd ptr mode h
    simp [sys_faccessat, h]
  · intro uid user ptr h
    have h1 : ¬ (user ptr).1 = PATH_MAX := by simp only [PATH_MAX]; omega
    simp [sys_chroot, h, h1]

/-- C12, refuted: for a process whose recorded effective UID is 0 after one
`elevate_privilege` while the real UID, which `getuid()` reports, is 1000, `chroot` of the
path `/` returns `-EPERM`. -/
theorem chroot_effective_uid_counterexample :
    (elevate_privilege { uid := 1000, euid := 1000, suid := 1000 }).euid = 0 ∧
    (elevate_privilege { uid := 1000, euid := 1000, suid := 1000 }).uid = 1000 ∧
    user_root 0 = (1, ['/']) ∧
    sys_chroot (elevate_privilege { uid := 1000, euid := 1000, suid := 1000 }).uid
      user_root 0 = -LINUX_EPERM ∧
    ¬ (sys_chroot (elevate_privilege { uid := 1000, euid := 1000, suid := 1000 }).uid
        user_root 0 = 0 ↔
      (elevate_privilege { uid := 1000, euid := 1000, suid := 1000 }).euid = 0 ∧
        (user_root 0).2 = ['/']) := by
  decide

/-- C12, amended: for a readable path shorter than `PATH_MAX`, `sys_chroot` returns 0
if and only if the real UID that the host `getuid()` reports is 0 and the path is exactly
`/`; when that UID is not 0 it returns `-EPERM` for every path; when it is 0 and the path
is not `/` it returns `-EACCES`. -/
theorem chroot_real_uid (getuid : Int) (user : UserStr) (path_ptr : Nat)
    (hread : 0 ≤ (user path_ptr).1) (hshort : (user path_ptr).1 < PATH_MAX) :
    (sys_chroot getuid user path_ptr = 0 ↔ getuid = 0 ∧ (user path_ptr).2 = ['/']) ∧
    (getuid ≠ 0 → sys_chroot getuid user path_ptr = -LINUX_EPERM) ∧
    (getuid = 0 → (user path_ptr).2 ≠ ['/'] → sys_chroot getuid user path_ptr = -LINUX_EACCES) := by
  have h1 : ¬ (user path_ptr).1 = PATH_MAX := by omega
  have h2 : ¬ (user path_ptr).1 < 0 := by omega
  have hpath : ((user path_ptr).2.head? = some '/' ∧ (user path_ptr).2.tail = []) ↔
      (user path_ptr).2 = ['/'] := by
    cases (user path_ptr).2 with
    | nil => simp
    | cons a rest => simp
  unfold sys_chroot
  simp only [h1, h2, if_false, hpath]
  refine ⟨?_, ?_, ?_⟩
  · by_cases hu : getuid = 0
    · by_cases hp : (user path_ptr).2 = ['/']
      · simp [hu, hp]
      · simp [hu, hp, LINUX_EACCES]
    · simp [hu, LINUX_EPERM]
  · intro hu
    simp [hu]
  · intro hu hp
    simp [hu, hp]

/-- C12 amended, for the real UID 0 and the path `/`: `sys_chroot` returns 0. -/
theorem chroot_real_uid_witness :
    (0 ≤ (user_root 0).1 ∧ (user_root 0).1 < PATH_MAX) ∧ sys_chroot 0 user_root 0 = 0 :=
  ⟨by decide, (chroot_real_uid 0 user_root 0 (by decide) (by decide)).1.mpr ⟨rfl, rfl⟩⟩

theorem roundup_eight (x : Nat) : 8 ∣ roundup x 8 ∧ x ≤ roundup x 8 ∧ roundup x 8 < x + 8 := by
  unfold roundup
  refine ⟨Dvd.intro_left _ rfl, ?_, ?_⟩ <;> omega

theorem getdents_loop_spec (name_off count : Nat) :
    ∀ (entries : List dirent) (pos : Nat), pos ≤ count →
      (getdents_loop name_off count entries pos).1.length ≤ entries.length ∧
      (∀ p ∈ (getdents_loop name_off count entries pos).1.zip entries,
        p.1.d_reclen = dirent_reclen name_off p.2 ∧
        8 ∣ p.1.d_reclen ∧
        name_off + p.2.d_namlen + 2 ≤ p.1.d_reclen ∧
        p.1.name_at = p.1.pos + name_off ∧
        p.1.name = p.2.d_name.take (p.2.d_namlen + 1) ∧
        p.1.name_at + (p.2.d_namlen + 1) ≤ p.1.pos + p.1.d_reclen ∧
        p.1.type_at = p.1.pos + p.1.d_reclen - 1 ∧
        p.1.name_at + (p.2.d_namlen + 1) ≤ p.1.type_at ∧
        p.1.type_at < p.1.pos + p.1.d_reclen ∧
        p.1.d_type = p.2.d_type ∧ p.1.d_ino = p.2.d_ino ∧ p.1.d_off = p.2.d_seekoff) ∧
      contiguous pos (getdents_loop name_off count entries pos).1 ∧
      (getdents_loop name_off count entries pos).2 =
        pos + ((getdents_loop name_off count entries pos).1.map (fun r => r.d_reclen)).sum ∧
      (getdents_loop name_off count entries pos).2 ≤ count ∧
      (∀ dent, entries.get? (getdents_loop name_off count entries pos).1.length = some dent →
        (getdents_loop name_off count entries pos).2 + dirent_reclen name_off dent > count) := by
  intro entries
  induction entries with
  | nil =>
    intro pos hpos
    simp [getdents_loop, contiguous, hpos]
  | cons dent rest ih =>
    intro pos hpos
    have hr := roundup_eight (name_off + dent.d_namlen + 2)
    by_cases hfit : pos + dirent_reclen name_off dent > count
    · simp only [getdents_loop, hfit, if_true]
      simp [contiguous, hpos, hfit]
    · have ih2 := ih (pos + dirent_reclen name_off dent) (by omega)
      obtain ⟨i1, i2, i3, i4, i5, i6⟩ := ih2
      simp only [getdents_loop, hfit, if_false]
      refine ⟨?_, ?_, ?_, ?_, ?_, ?_⟩
      · simp only [List.length_cons]; omega
      · intro p hp
        simp only [List.zip_cons_cons, List.mem_cons] at hp
        rcases hp with hp | hp
        · subst hp
          simp only [dirent_reclen] at hr ⊢
          refine ⟨?_, ?_, ?_, ?_, ?_, ?_, ?_, ?_, ?_, ?_, ?_, ?_⟩ <;>
            first | trivial | rfl | exact hr.1 | omega
        · exact i2 p hp
      · exact ⟨rfl, i3⟩
      · rw [i4]
        simp only [List.map_cons, List.sum_cons]
        omega
      · exact i5
      · intro d hd
        simp only [List.length_cons, List.get?_cons_succ] at hd
        exact i6 d hd

theorem int_of_size_small (n : Nat) (h : n < 2 ^ 31) : int_of_size n = (n : Int) := by
  unfold int_of_size
  have h1 : n % 2 ^ 32 = n := Nat.mod_eq_of_lt (by omega)
  rw [h1, if_pos h]

/-- C19: for every list of host directory entries and every buffer size `count`,
`darwinfs_getdents` writes whole records one after the other from offset 0, for the entries
in order up to the first one that does not fit. Each record length is a multiple of 8 and at
least `offsetof(l_dirent, d_name) + namlen + 2`; the name with its NUL lies inside the
record; the type is stored in the last byte of the record, behind the name and its NUL. The
sum of the record lengths is at most `count`, and it is the value returned when the
directory stream gave no error and `count` fits an `int`. -/
theorem getdents_records (h : dir_host) (name_off count : Nat) :
    (darwinfs_getdents h name_off count).1.length ≤ h.entries.length ∧
    (∀ p ∈ (darwinfs_getdents h name_off count).1.zip h.entries,
      8 ∣ p.1.d_reclen ∧
      name_off + p.2.d_namlen + 2 ≤ p.1.d_reclen ∧
      p.1.name_at = p.1.pos + name_off ∧
      p.1.name = p.2.d_name.take (p.2.d_namlen + 1) ∧
      p.1.name_at + (p.2.d_namlen + 1) ≤ p.1.pos + p.1.d_reclen ∧
      p.1.type_at = p.1.pos + p.1.d_reclen - 1 ∧
      p.1.name_at + (p.2.d_namlen + 1) ≤ p.1.type_at ∧
      p.1.type_at < p.1.pos + p.1.d_reclen ∧
      p.1.d_type = p.2.d_type) ∧
    contiguous 0 (darwinfs_getdents h name_off count).1 ∧
    ((darwinfs_getdents h name_off count).1.map (fun r => r.d_reclen)).sum ≤ count ∧
    (h.fdopendir_errno = none →
      ∀ dent, h.entries.get? (darwinfs_getdents h name_off count).1.length = some dent →
        ((darwinfs_getdents h name_off count).1.map (fun r => r.d_reclen)).sum +
          roundup (name_off + dent.d_namlen + 2) 8 > count) ∧
    (h.fdopendir_errno = none → h.readdir_errno = 0 → count < 2 ^ 31 →
      (darwinfs_getdents h name_off count).2 =
        (((darwinfs_getdents h name_off count).1.map (fun r => r.d_reclen)).sum : Nat)) := by
  have hs := getdents_loop_spec name_off count h.entries 0 (Nat.zero_le _)
  obtain ⟨s1, s2, s3, s4, s5, s6⟩ := hs
  rw [Nat.zero_add] at s4
  cases hf : h.fdopendir_errno with
  | some e =>
    simp [darwinfs_getdents, hf, contiguous]
  | none =>
    have hrec : (darwinfs_getdents h name_off count).1 =
        (getdents_loop name_off count h.entries 0).1 := by
      simp only [darwinfs_getdents, hf]
      split
      · rfl
      · split <;> rfl
    rw [hrec]
    refine ⟨s1, ?_, s3, ?_, ?_, ?_⟩
    · intro p hp
      obtain ⟨_, a2, a3, a4, a5, a6, a7, a8, a9, a10, _, _⟩ := s2 p hp
      exact ⟨a2, a3, a4, a5, a6, a7, a8, a9, a10⟩
    · rw [← s4]; exact s5
    · intro _ dent hd
      have := s6 dent hd
      rw [s4] at this
      exact this
    · intro _ herr hcount
      simp only [darwinfs_getdents, hf, herr, ne_eq, not_true_eq_false, if_false, ite_self]
      rw [int_of_size_small _ (by omega), s4]

/-- C19, for the directory with the two entries `a` and `bc`, the name offset 18 and a
buffer of 30 bytes: only the first record, of 24 bytes, is written and 24 is returned. -/
theorem getdents_records_witness :
    (darwinfs_getdents dir_two 18 30).1.map (fun r => r.d_reclen) = [24] ∧
    (darwinfs_getdents dir_two 18 30).2 = 24 ∧
    ((darwinfs_getdents dir_two 18 30).1.map (fun r => r.d_reclen)).sum ≤ 30 :=
  ⟨by decide, by decide,
    (getdents_records dir_two 18 30).2.2.2.1⟩

theorem vfs_expose_eq (s s1 : proc) (fd : Int) (h : vfs_expose_darwinfs_fd s fd = some s1) :
    0 ≤ fd ∧ fd.toNat < s.fdtab.length ∧ s.slot fd.toNat = none ∧
    s1.fdtab = s.fdtab.set fd.toNat (some s.next) ∧
    s1.heap = heap_set s.heap s.next (some { fd := fd, ref := 1 }) ∧
    s1.next = s.next + 1 ∧ s1.trace = s.trace := by
  unfold vfs_expose_darwinfs_fd new_file at h
  simp only [] at h
  split at h
  · rename_i hc
    simp only [Option.some.injEq] at h
    subst h
    exact ⟨hc.1, hc.2.1, hc.2.2, rfl, rfl, rfl, rfl⟩
  · simp at h

theorem pipe2_fail_neg (st : proc) (fd0 fd1 err0 err1 : Int) (h : err0 < 0 ∨ err1 < 0) :
    (pipe2_fail st fd0 fd1 err0 err1).2 < 0 := by
  unfold pipe2_fail
  simp only []
  split
  · assumption
  · rcases h with h | h
    · contradiction
    · exact h

theorem pipe2_fail_nonzero (st st1 : proc) (fd0 fd1 err0 err1 : Int) (h : err0 < 0 ∨ err1 < 0) :
    pipe2_fail st fd0 fd1 err0 err1 ≠ (st1, 0) := by
  intro he
  have := pipe2_fail_neg st fd0 fd1 err0 err1 h
  rw [he] at this
  simp at this

/-- C20: if `flags` has a bit outside `O_NONBLOCK | O_CLOEXEC | O_DIRECT`, `sys_pipe2`
returns `-EINVAL` and calls nothing. Otherwise, when it returns 0: the host `pipe` succeeded;
if `flags` has `O_CLOEXEC`, `fcntl(F_SETFD, FD_CLOEXEC)` was called on both descriptors and
succeeded; if it has `O_NONBLOCK`, `fcntl(F_SETFL, O_NONBLOCK)` was called on both and
succeeded; both descriptor numbers were copied to the guest; and both descriptors were
empty slots of the descriptor table that now hold new records with reference count 1. -/
theorem pipe2_flags (h : pipe_host) (st : proc) (fildes_ptr flags : Nat) :
    (flags &&& (0xFFFFFFFF ^^^ (LINUX_O_NONBLOCK ||| LINUX_O_CLOEXEC ||| LINUX_O_DIRECT)) ≠ 0 →
      sys_pipe2 h st fildes_ptr flags = some (st, -LINUX_EINVAL)) ∧
    (∀ st1, flags &&& (0xFFFFFFFF ^^^ (LINUX_O_NONBLOCK ||| LINUX_O_CLOEXEC ||| LINUX_O_DIRECT)) = 0 →
      sys_pipe2 h st fildes_ptr flags = some (st1, 0) →
      0 ≤ h.pipe.1 ∧
      Event.host_pipe h.pipe.2.2.1 h.pipe.2.2.2 ∈ st1.trace ∧
      (flags &&& LINUX_O_CLOEXEC ≠ 0 →
        0 ≤ syswrap h.darwin_to_linux_errno (h.setfd h.pipe.2.2.1) ∧
        0 ≤ syswrap h.darwin_to_linux_errno (h.setfd h.pipe.2.2.2) ∧
        Event.host_setfd h.pipe.2.2.1 ∈ st1.trace ∧ Event.host_setfd h.pipe.2.2.2 ∈ st1.trace) ∧
      (flags &&& LINUX_O_NONBLOCK ≠ 0 →
        0 ≤ syswrap h.darwin_to_linux_errno (h.setfl h.pipe.2.2.1) ∧
        0 ≤ syswrap h.darwin_to_linux_errno (h.setfl h.pipe.2.2.2) ∧
        Event.host_setfl h.pipe.2.2.1 ∈ st1.trace ∧ Event.host_setfl h.pipe.2.2.2 ∈ st1.trace) ∧
      h.copy_to_user fildes_ptr = 0 ∧
      Event.copy_to_user fildes_ptr [h.pipe.2.2.1, h.pipe.2.2.2] ∈ st1.trace ∧
      st.slot h.pipe.2.2.1.toNat = none ∧
      st1.slot h.pipe.2.2.1.toNat = some st.next ∧
      st1.heap st.next = some { fd := h.pipe.2.2.1, ref := 1 } ∧
      st.slot h.pipe.2.2.2.toNat = none ∧
      st1.slot h.pipe.2.2.2.toNat = some (st.next + 1) ∧
      st1.heap (st.next + 1) = some { fd := h.pipe.2.2.2, ref := 1 }) := by
  constructor
  · intro hbad
    simp [sys_pipe2, hbad]
  · intro st1 hok hrun
    unfold sys_pipe2 at hrun
    rw [if_neg (by simpa using hok)] at hrun
    simp only [] at hrun
    by_cases hp : h.pipe.1 < 0
    · rw [if_pos hp] at hrun
      simp only [Option.some.injEq, Prod.mk.injEq] at hrun
      omega
    rw [if_neg hp] at hrun
    split at hrun
    · rename_i hc
      simp only [Option.some.injEq] at hrun
      exact absurd hrun (pipe2_fail_nonzero _ _ _ _ _ _ hc.2)
    rename_i hc
    split at hrun
    · rename_i hn
      simp only [Option.some.injEq] at hrun
      exact absurd hrun (pipe2_fail_nonzero _ _ _ _ _ _ hn.2)
    rename_i hn
    split at hrun
    · rename_i hd
      simp only [Option.some.injEq] at hrun
      exact absurd hrun (pipe2_fail_nonzero _ _ _ _ _ _ hd.2)
    rename_i hd
    split at hrun
    · simp only [Option.some.injEq, Prod.mk.injEq] at hrun
      exact absurd hrun.2 (by decide)
    rename_i hcopy
    simp only [ne_eq, not_not] at hcopy
    split at hrun
    · simp at hrun
    rename_i s5 he5
    split at hrun
    · simp at hrun
    rename_i s6 he6
    simp only [Option.some.injEq, Prod.mk.injEq, and_true] at hrun
    subst hrun
    obtain ⟨a1, a2, a3, a4, a5, a6, a7⟩ := vfs_expose_eq _ _ _ he5
    obtain ⟨b1, b2, b3, b4, b5, b6, b7⟩ := vfs_expose_eq _ _ _ he6
    simp only [proc.log, proc.slot] at a2 a3 a4 a5 a6 a7
    have htr : ∀ ev, ev ∈ s5.trace → ev ∈ s6.trace := by intro ev hev; rw [b7]; exact hev
    have hne : h.pipe.2.2.1.toNat ≠ h.pipe.2.2.2.toNat := by
      intro heq
      simp only [proc.slot] at b3
      rw [a4, ← heq, getD_set_self _ _ _ _ a2] at b3
      simp at b3
    have htab5 : ∀ i, i ≠ h.pipe.2.2.1.toNat → s5.slot i = st.slot i := by
      intro i hi
      simp only [proc.slot]
      rw [a4, getD_set_other _ _ _ _ _ (Ne.symm hi)]
    refine ⟨by omega, ?_, ?_, ?_, hcopy, ?_, a3, ?_, ?_, ?_, ?_, ?_⟩
    · apply htr; rw [a7]; simp
    · intro hfl
      have hcf : ¬ (syswrap h.darwin_to_linux_errno (h.setfd h.pipe.2.2.1) < 0 ∨
          syswrap h.darwin_to_linux_errno (h.setfd h.pipe.2.2.2) < 0) := by
        intro hx; exact hc ⟨by simpa using hfl, hx⟩
      refine ⟨by omega, by omega, ?_, ?_⟩
      · apply htr; rw [a7]; simp [hfl]
      · apply htr; rw [a7]; simp [hfl]
    · intro hfl
      have hnf : ¬ (syswrap h.darwin_to_linux_errno (h.setfl h.pipe.2.2.1) < 0 ∨
          syswrap h.darwin_to_linux_errno (h.setfl h.pipe.2.2.2) < 0) := by
        intro hx; exact hn ⟨by simpa using hfl, hx⟩
      refine ⟨by omega, by omega, ?_, ?_⟩
      · apply htr; rw [a7]; simp [hfl]
      · apply htr; rw [a7]; simp [hfl]
    · apply htr; rw [a7]; simp
    · simp only [proc.slot]
      rw [b4, getD_set_other _ _ _ _ _ (Ne.symm hne), a4, getD_set_self _ _ _ _ a2]
    · rw [b5, heap_set_other _ _ _ _ (by omega), a5, heap_set_self]
    · rw [← htab5 _ (Ne.symm hne)]; exact b3
    · simp only [proc.slot]
      rw [b4, getD_set_self _ _ _ _ b2, a6]
    · rw [b5, a6, heap_set_self]

/-- Witness for C20: with `O_CLOEXEC | O_NONBLOCK` on a host where every call succeeds and
`pipe` gives descriptors 3 and 4, `sys_pipe2` returns 0 and both descriptors are published. -/
theorem pipe2_flags_witness :
    ∃ st1, sys_pipe2 pipe_host_ok (proc_init 0 8) 0x1000 (LINUX_O_CLOEXEC ||| LINUX_O_NONBLOCK)
        = some (st1, 0) ∧
      Event.host_setfd 3 ∈ st1.trace ∧ Event.host_setfl 4 ∈ st1.trace ∧
      st1.slot 3 = some 0 ∧ st1.slot 4 = some 1 ∧
      st1.heap 0 = some { fd := 3, ref := 1 } ∧ st1.heap 1 = some { fd := 4, ref := 1 } := by
  have hrun : ∃ s, sys_pipe2 pipe_host_ok (proc_init 0 8) 0x1000
      (LINUX_O_CLOEXEC ||| LINUX_O_NONBLOCK) = some (s, 0) := ⟨_, rfl⟩
  obtain ⟨s, hs⟩ := hrun
  have h := (pipe2_flags pipe_host_ok (proc_init 0 8) 0x1000
    (LINUX_O_CLOEXEC ||| LINUX_O_NONBLOCK)).2 s (by decide) hs
  exact ⟨s, hs, (h.2.2.1 (by decide)).2.2.1, (h.2.2.2.1 (by decide)).2.2.2,
    h.2.2.2.2.2.2.2.1, h.2.2.2.2.2.2.2.2.2.2.1, h.2.2.2.2.2.2.2.2.1, h.2.2.2.2.2.2.2.2.2.2.2⟩

theorem syswrap_of_neg (d2l : Int → Int) (res : Int × Int) (h : res.1 < 0) :
    syswrap d2l res = -(d2l res.2) := by
  simp [syswrap, h]

theorem syswrap_of_nonneg (d2l : Int → Int) (res : Int × Int) (h : 0 ≤ res.1) :
    syswrap d2l res = res.1 := by
  have : ¬ res.1 < 0 := by omega
  simp [syswrap, this]

theorem fcntl_passed_ok (h : pipe_host) (flags bit : Nat) (call : Int → Int × Int)
    (hp : fcntl_passed h flags bit call) :
    ¬ ((decide (flags &&& bit ≠ 0) = true) ∧
      (syswrap h.darwin_to_linux_errno (call h.pipe.2.2.1) < 0 ∨
        syswrap h.darwin_to_linux_errno (call h.pipe.2.2.2) < 0)) := by
  rcases hp with hp | ⟨h0, h1⟩
  · simp [hp]
  · rw [syswrap_of_nonneg _ _ h0, syswrap_of_nonneg _ _ h1]
    intro hx
    rcases hx.2 with hx | hx <;> omega

theorem fcntl_fails_ret (h : pipe_host) (st : proc) (flags bit : Nat)
    (call : Int → Int × Int) (e : Int) (hf : fcntl_fails h flags bit call e)
    (he : 0 < h.darwin_to_linux_errno e) :
    ((decide (flags &&& bit ≠ 0) = true) ∧
      (syswrap h.darwin_to_linux_errno (call h.pipe.2.2.1) < 0 ∨
        syswrap h.darwin_to_linux_errno (call h.pipe.2.2.2) < 0)) ∧
    (pipe2_fail st h.pipe.2.2.1 h.pipe.2.2.2
      (syswrap h.darwin_to_linux_errno (call h.pipe.2.2.1))
      (syswrap h.darwin_to_linux_errno (call h.pipe.2.2.2))).2 = -(h.darwin_to_linux_errno e) := by
  obtain ⟨hb, hc⟩ := hf
  rcases hc with ⟨h0, e0⟩ | ⟨h0, h1, e1⟩
  · have hs := syswrap_of_neg h.darwin_to_linux_errno _ h0
    rw [e0] at hs
    refine ⟨⟨by simpa using hb, Or.inl (by rw [hs]; omega)⟩, ?_⟩
    have hn : syswrap h.darwin_to_linux_errno (call h.pipe.2.2.1) < 0 := by rw [hs]; omega
    simp only [pipe2_fail]
    rw [if_pos hn, hs]
  · have hs0 := syswrap_of_nonneg h.darwin_to_linux_errno _ h0
    have hs := syswrap_of_neg h.darwin_to_linux_errno _ h1
    rw [e1] at hs
    refine ⟨⟨by simpa using hb, Or.inr (by rw [hs]; omega)⟩, ?_⟩
    have hn : ¬ syswrap h.darwin_to_linux_errno (call h.pipe.2.2.1) < 0 := by rw [hs0]; omega
    simp only [pipe2_fail]
    rw [if_neg hn, hs]

/-- C21, the code when the host `pipe` fails: `sys_pipe2` returns the value of `pipe`
itself, which is -1, whatever the `errno`; with `errno = EMFILE` (24) the guest gets -1 and
not -24. And so for every host: a negative value of `pipe` is returned as it is. The
`fcntl` calls are wrapped: when the first failing `fcntl` call of a stage leaves the errno
`e`, whose translation is positive, `sys_pipe2` returns `-darwin_to_linux_errno(e)`. -/
theorem pipe2_pipe_errno :
    (sys_pipe2 pipe_host_emfile (proc_init 0 8) 0x1000 0).map (fun r => r.2) = some (-1) ∧
    -(pipe_host_emfile.darwin_to_linux_errno pipe_host_emfile.pipe.2.1) = -24 ∧
    (∀ (h : pipe_host) (st : proc) (fildes_ptr flags : Nat),
      flags &&& (0xFFFFFFFF ^^^ (LINUX_O_NONBLOCK ||| LINUX_O_CLOEXEC ||| LINUX_O_DIRECT)) = 0 →
      h.pipe.1 < 0 →
      (sys_pipe2 h st fildes_ptr flags).map (fun r => r.2) = some h.pipe.1) ∧
    (∀ (h : pipe_host) (st : proc) (fildes_ptr flags : Nat) (e : Int),
      flags &&& (0xFFFFFFFF ^^^ (LINUX_O_NONBLOCK ||| LINUX_O_CLOEXEC ||| LINUX_O_DIRECT)) = 0 →
      0 ≤ h.pipe.1 → 0 < h.darwin_to_linux_errno e →
      (fcntl_fails h flags LINUX_O_CLOEXEC h.setfd e ∨
       (fcntl_passed h flags LINUX_O_CLOEXEC h.setfd ∧
          fcntl_fails h flags LINUX_O_NONBLOCK h.setfl e) ∨
       (fcntl_passed h flags LINUX_O_CLOEXEC h.setfd ∧
          fcntl_passed h flags LINUX_O_NONBLOCK h.setfl ∧
          fcntl_fails h flags LINUX_O_DIRECT h.nocache e)) →
      (sys_pipe2 h st fildes_ptr flags).map (fun r => r.2)
        = some (-(h.darwin_to_linux_errno e))) := by
  refine ⟨by decide, by decide, ?_, ?_⟩
  · intro h st ptr flags hok hneg
    unfold sys_pipe2
    rw [if_neg (by simpa using hok)]
    simp only []
    rw [if_pos hneg]
    rfl
  · intro h st ptr flags e hok hpipe he hcase
    have hp : ¬ h.pipe.1 < 0 := by omega
    unfold sys_pipe2
    rw [if_neg (by simpa using hok)]
    simp only []
    rw [if_neg hp]
    rcases hcase with hc | ⟨pc, hn⟩ | ⟨pc, pn, hd⟩
    · obtain ⟨h1, h2⟩ := fcntl_fails_ret h
        ((st.log [Event.host_pipe h.pipe.2.2.1 h.pipe.2.2.2]).log
          (if (decide (flags &&& LINUX_O_CLOEXEC ≠ 0)) = true then
            [Event.host_setfd h.pipe.2.2.1, Event.host_setfd h.pipe.2.2.2] else []))
        flags LINUX_O_CLOEXEC h.setfd e hc he
      rw [if_pos h1]
      simp only [Option.map_some', h2]
    · rw [if_neg (fcntl_passed_ok h flags _ _ pc)]
      obtain ⟨h1, h2⟩ := fcntl_fails_ret h
        (((st.log [Event.host_pipe h.pipe.2.2.1 h.pipe.2.2.2]).log
          (if (decide (flags &&& LINUX_O_CLOEXEC ≠ 0)) = true then
            [Event.host_setfd h.pipe.2.2.1, Event.host_setfd h.pipe.2.2.2] else [])).log
          (if (decide (flags &&& LINUX_O_NONBLOCK ≠ 0)) = true then
            [Event.host_setfl h.pipe.2.2.1, Event.host_setfl h.pipe.2.2.2] else []))
        flags LINUX_O_NONBLOCK h.setfl e hn he
      rw [if_pos h1]
      simp only [Option.map_some', h2]
    · rw [if_neg (fcntl_passed_ok h flags _ _ pc), if_neg (fcntl_passed_ok h flags _ _ pn)]
      obtain ⟨h1, h2⟩ := fcntl_fails_ret h
        ((((st.log [Event.host_pipe h.pipe.2.2.1 h.pipe.2.2.2]).log
          (if (decide (flags &&& LINUX_O_CLOEXEC ≠ 0)) = true then
            [Event.host_setfd h.pipe.2.2.1, Event.host_setfd h.pipe.2.2.2] else [])).log
          (if (decide (flags &&& LINUX_O_NONBLOCK ≠ 0)) = true then
            [Event.host_setfl h.pipe.2.2.1, Event.host_setfl h.pipe.2.2.2] else [])).log
          (if (decide (flags &&& LINUX_O_DIRECT ≠ 0)) = true then
            [Event.host_nocache h.pipe.2.2.1, Event.host_nocache h.pipe.2.2.2] else []))
        flags LINUX_O_DIRECT h.nocache e hd he
      rw [if_pos h1]
      simp only [Option.map_some', h2]

/-- C29: when slot `fd` holds a file and `ops.close` returns a negative value on it,
`vfs_close(fd)` returns that value and leaves the descriptor table, every record of the
heap (so every reference count) and the allocator as they were; the only call it has made
is the one of `ops.close`: nothing is freed. -/
theorem vfs_close_error (close : file → Int) (st : proc) (fd : Int) (p : Nat) (f : file)
    (hfd : 0 ≤ fd) (hlt : fd.toNat < st.fdtab.length)
    (hslot : st.slot fd.toNat = some p) (hheap : st.heap p = some f)
    (herr : close f < 0) :
    ∃ st1, vfs_close close st fd = some (st1, close f) ∧
      st1.fdtab = st.fdtab ∧ st1.heap = st.heap ∧ st1.next = st.next ∧
      st1.slot fd.toNat = some p ∧ st1.heap p = some f ∧
      st1.trace = st.trace ++ [Event.ops_close p f.fd] := by
  refine ⟨{ st with trace := st.trace ++ [Event.ops_close p f.fd] }, ?_, rfl, rfl, rfl,
    hslot, hheap, rfl⟩
  rw [vfs_close_eq close st fd p f hfd hlt hslot hheap, if_pos herr]

/-- C29, for the process `proc_one` and an `ops.close` that fails with `-EIO` (-5):
`vfs_close(3)` returns -5 and slot 3 still holds the record with count 1. -/
theorem vfs_close_error_witness :
    ∃ st1, vfs_close (fun _ => -5) proc_one 3 = some (st1, -5) ∧
      st1.slot 3 = some 0 ∧ st1.heap 0 = some { fd := 3, ref := 1 } :=
  (vfs_close_error (fun _ => -5) proc_one 3 0 { fd := 3, ref := 1 } (by decide) (by decide)
    (by decide) (by decide) (by decide)).elim
    (fun st1 h => ⟨st1, h.1, h.2.2.2.2.1, h.2.2.2.2.2.1⟩)

theorem handle_syscall_out (nr_syscalls : Nat) (table : HandlerTable) (m : vcpu)
    (h : nr_syscalls ≤ m.regs Reg.RAX) :
    handle_syscall nr_syscalls table m = (m.act (Action.send_signal LINUX_SIGSYS), none) := by
  unfold handle_syscall
  simp [h]

/-- C30, the code at a system call whose number in RAX is 1000, with 512 handlers in the
table: `handle_syscall` posts `SIGSYS` and, there being no `return` after `send_signal`,
goes on to the call through `sc_handler_table[rax]`, outside the table; `main_loop` ends
in this undefined call. And so for every RAX that is not below `NR_SYSCALLS`. -/
theorem handle_syscall_out_of_table :
    ¬ ((vcpu_init.write Reg.RAX 1000).regs Reg.RAX < exit_syscall.nr_syscalls) ∧
    is_syscall exit_syscall exit_syscall.instr_len
      ((vcpu_init.write Reg.RAX 1000).regs Reg.RIP) = true ∧
    (handle_syscall 512 table_seven (vcpu_init.write Reg.RAX 1000)).1.actions =
      [Action.send_signal LINUX_SIGSYS] ∧
    (handle_syscall 512 table_seven (vcpu_init.write Reg.RAX 1000)).2 = none ∧
    (main_loop_body exit_syscall false (vcpu_init.write Reg.RAX 1000)).2 = Flow.undefined ∧
    (∀ (nr_syscalls : Nat) (table : HandlerTable) (m : vcpu), nr_syscalls ≤ m.regs Reg.RAX →
      handle_syscall nr_syscalls table m =
        (m.act (Action.send_signal LINUX_SIGSYS), none)) ∧
    (∀ (e : vmexit) (ros : Bool) (m : vcpu), e.is_exception X86_VEC_UD →
      is_syscall e e.instr_len (m.regs Reg.RIP) = true → e.nr_syscalls ≤ m.regs Reg.RAX →
      main_loop_body e ros m =
        (m.act (Action.send_signal LINUX_SIGSYS), Flow.undefined)) := by
  refine ⟨by decide, by decide, by decide, by decide, by decide, ?_, ?_⟩
  · intro nr table m h
    exact handle_syscall_out nr table m h
  · intro e ros m hud hsys hnr
    rw [exception_body e ros m X86_VEC_UD hud (by decide), if_pos rfl]
    unfold invalid_opcode
    simp only [hsys, if_true, handle_syscall_out _ _ _ hnr]

theorem is_syscall_iff (e : vmexit) (instlen rip : Nat) :
    is_syscall e instlen rip = true ↔
      instlen = 2 ∧ ∃ b0 b1, e.mem rip 2 = some [b0, b1] ∧ b0 + 256 * b1 = 0x050f := by
  unfold is_syscall
  by_cases hl : instlen = 2
  · simp only [hl, ne_eq, not_true_eq_false, if_false, true_and]
    rcases hm : e.mem rip 2 with _ | l
    · simp
    · rcases l with _ | ⟨b0, _ | ⟨b1, _ | ⟨b2, l⟩⟩⟩ <;> simp
      constructor
      · intro h; exact ⟨b0, b1, ⟨rfl, rfl⟩, h⟩
      · rintro ⟨c0, c1, ⟨h0, h1⟩, h⟩
        rw [h0, h1]; exact h
  · simp [hl]

/-- C27: at a `#UD` exit recognised as a system call (instruction length 2 and the two
bytes at RIP read as `0x050f`) with RAX below `NR_SYSCALLS`, `main_loop` runs
`handle_syscall` once, that is, the state is the one that a single call of the table entry
leaves, with its return value in RAX, and then writes to guest RIP the value of RIP read
back after the handler plus 2 (a 64-bit register). When the handler left RIP alone the new
RIP is the old one plus 2. The loop returns if `return_on_sigret` is set and the call was
`rt_sigreturn`, and goes on otherwise. -/
theorem syscall_advances_rip (e : vmexit) (ros : Bool) (m : vcpu)
    (hud : e.is_exception X86_VEC_UD)
    (hsys : is_syscall e e.instr_len (m.regs Reg.RIP) = true)
    (hnr : m.regs Reg.RAX < e.nr_syscalls) :
    (e.instr_len = 2 ∧ ∃ b0 b1, e.mem (m.regs Reg.RIP) 2 = some [b0, b1] ∧
      b0 + 256 * b1 = 0x050f) ∧
    (main_loop_body e ros m).1 =
      ((e.table (m.regs Reg.RAX) (m.regs Reg.RDI) (m.regs Reg.RSI) (m.regs Reg.RDX)
        (m.regs Reg.R10) (m.regs Reg.R8) (m.regs Reg.R9)
        (m.act (Action.handler (m.regs Reg.RAX) (m.regs Reg.RDI) (m.regs Reg.RSI)
          (m.regs Reg.RDX) (m.regs Reg.R10) (m.regs Reg.R8) (m.regs Reg.R9)))).1.write Reg.RAX
        (e.table (m.regs Reg.RAX) (m.regs Reg.RDI) (m.regs Reg.RSI) (m.regs Reg.RDX)
        (m.regs Reg.R10) (m.regs Reg.R8) (m.regs Reg.R9)
        (m.act (Action.handler (m.regs Reg.RAX) (m.regs Reg.RDI) (m.regs Reg.RSI)
          (m.regs Reg.RDX) (m.regs Reg.R10) (m.regs Reg.R8) (m.regs Reg.R9)))).2).write Reg.RIP
        (((e.table (m.regs Reg.RAX) (m.regs Reg.RDI) (m.regs Reg.RSI) (m.regs Reg.RDX)
        (m.regs Reg.R10) (m.regs Reg.R8) (m.regs Reg.R9)
        (m.act (Action.handler (m.regs Reg.RAX) (m.regs Reg.RDI) (m.regs Reg.RSI)
          (m.regs Reg.RDX) (m.regs Reg.R10) (m.regs Reg.R8) (m.regs Reg.R9)))).1.regs Reg.RIP
          + 2) % 2 ^ 64) ∧
    ((e.table (m.regs Reg.RAX) (m.regs Reg.RDI) (m.regs Reg.RSI) (m.regs Reg.RDX)
        (m.regs Reg.R10) (m.regs Reg.R8) (m.regs Reg.R9)
        (m.act (Action.handler (m.regs Reg.RAX) (m.regs Reg.RDI) (m.regs Reg.RSI)
          (m.regs Reg.RDX) (m.regs Reg.R10) (m.regs Reg.R8) (m.regs Reg.R9)))).1.regs Reg.RIP
        = m.regs Reg.RIP →
      (main_loop_body e ros m).1.regs Reg.RIP = (m.regs Reg.RIP + 2) % 2 ^ 64) ∧
    (main_loop_body e ros m).2 =
      (if ros = true ∧ m.regs Reg.RAX = LSYS_rt_sigreturn then Flow.ret else Flow.next) := by
  have hnr1 : ¬ (m.regs Reg.RAX ≥ e.nr_syscalls) := by omega
  have hbody : main_loop_body e ros m =
      (((e.table (m.regs Reg.RAX) (m.regs Reg.RDI) (m.regs Reg.RSI) (m.regs Reg.RDX)
        (m.regs Reg.R10) (m.regs Reg.R8) (m.regs Reg.R9)
        (m.act (Action.handler (m.regs Reg.RAX) (m.regs Reg.RDI) (m.regs Reg.RSI)
          (m.regs Reg.RDX) (m.regs Reg.R10) (m.regs Reg.R8) (m.regs Reg.R9)))).1.write Reg.RAX
        (e.table (m.regs Reg.RAX) (m.regs Reg.RDI) (m.regs Reg.RSI) (m.regs Reg.RDX)
        (m.regs Reg.R10) (m.regs Reg.R8) (m.regs Reg.R9)
        (m.act (Action.handler (m.regs Reg.RAX) (m.regs Reg.RDI) (m.regs Reg.RSI)
          (m.regs Reg.RDX) (m.regs Reg.R10) (m.regs Reg.R8) (m.regs Reg.R9)))).2).write Reg.RIP
        (((e.table (m.regs Reg.RAX) (m.regs Reg.RDI) (m.regs Reg.RSI) (m.regs Reg.RDX)
        (m.regs Reg.R10) (m.regs Reg.R8) (m.regs Reg.R9)
        (m.act (Action.handler (m.regs Reg.RAX) (m.regs Reg.RDI) (m.regs Reg.RSI)
          (m.regs Reg.RDX) (m.regs Reg.R10) (m.regs Reg.R8) (m.regs Reg.R9)))).1.regs Reg.RIP
          + 2) % 2 ^ 64),
       if ros = true ∧ m.regs Reg.RAX = LSYS_rt_sigreturn then Flow.ret else Flow.next) := by
    rw [exception_body e ros m X86_VEC_UD hud (by decide), if_pos rfl]
    unfold invalid_opcode handle_syscall
    simp only [hsys, if_true, hnr1, if_false, vcpu.act, vcpu.write]
    by_cases hs : m.regs Reg.RAX = LSYS_rt_sigreturn
    · by_cases hr : ros = true
      · simp [hs, hr]
      · simp [hs, hr]
    · simp [hs]
  refine ⟨(is_syscall_iff e _ _).mp hsys, ?_, ?_, ?_⟩
  · rw [hbody]
  · intro hrip
    rw [hbody]
    simp only [vcpu.write, if_true, hrip]
  · rw [hbody]

/-- C27, at the exit `exit_syscall` with all registers 0: the handler 0 is called once,
RAX receives its value 7 and RIP becomes 2. -/
theorem syscall_advances_rip_witness :
    (main_loop_body exit_syscall false vcpu_init).1.regs Reg.RIP = 2 ∧
    (main_loop_body exit_syscall false vcpu_init).1.regs Reg.RAX = 7 ∧
    (main_loop_body exit_syscall false vcpu_init).1.actions = [Action.handler 0 0 0 0 0 0 0] ∧
    (main_loop_body exit_syscall false vcpu_init).2 = Flow.next := by
  have h := syscall_advances_rip exit_syscall false vcpu_init
    ⟨by decide, Or.inl (by decide), by decide⟩ (by decide) (by decide)
  refine ⟨?_, ?_, ?_, ?_⟩
  · exact h.2.2.1 rfl
  · rw [h.2.1]; rfl
  · rw [h.2.1]; rfl
  · rw [h.2.2.2]; rfl

theorem main_loop_cons (ros : Bool) (t : Turn) (rest : List Turn) (m : vcpu) :
    main_loop ros (t :: rest) m =
      if (t.task_run m).2 ≠ 0 then ((t.task_run m).1, Outcome.unreachable)
      else
        match (main_loop_body t.exit ros (t.task_run m).1).2 with
        | Flow.next => main_loop ros rest (main_loop_body t.exit ros (t.task_run m).1).1
        | Flow.ret => ((main_loop_body t.exit ros (t.task_run m).1).1, Outcome.returned)
        | Flow.exit code =>
          ((main_loop_body t.exit ros (t.task_run m).1).1, Outcome.exited code)
        | Flow.abort => ((main_loop_body t.exit ros (t.task_run m).1).1, Outcome.aborted)
        | Flow.undefined =>
          ((main_loop_body t.exit ros (t.task_run m).1).1, Outcome.undefined) := by
  rw [main_loop]
  split
  · rfl
  · rcases hb : main_loop_body t.exit ros (t.task_run m).1 with ⟨m1, fl⟩
    cases fl <;> rfl

theorem main_loop_append (ros : Bool) :
    ∀ (pre post : List Turn) (m : vcpu), (main_loop ros pre m).2 = Outcome.running →
      main_loop ros (pre ++ post) m = main_loop ros post (main_loop ros pre m).1 := by
  intro pre
  induction pre with
  | nil => intro post m _; rfl
  | cons t rest ih =>
    intro post m h
    rw [main_loop_cons] at h
    rw [List.cons_append, main_loop_cons, main_loop_cons]
    split
    · rename_i hr
      rw [if_pos hr] at h
      simp at h
    · rename_i hr
      rw [if_neg hr] at h
      rcases hf : (main_loop_body t.exit ros (t.task_run m).1).2 with _ | _ | c | _ | _
      · rw [hf] at h
        simp only [] at h ⊢
        exact ih post _ h
      all_goals
        rw [hf] at h
        simp at h

theorem exception_thrown_flow (e : vmexit) (m : vcpu) :
    (exception_thrown e m).2 = Flow.abort ∨ (exception_thrown e m).2 = Flow.exit 1 := by
  unfold exception_thrown
  cases e.mem (m.regs Reg.RIP) e.instr_len <;> simp

theorem exception_thrown_state (e : vmexit) (m : vcpu) : (exception_thrown e m).1 = m := by
  unfold exception_thrown
  cases e.mem (m.regs Reg.RIP) e.instr_len <;> rfl

theorem ept_violation_flow (e : vmexit) (m : vcpu) :
    (ept_violation e m).2 = Flow.next ∧ (ept_violation e m).1.regs = m.regs := by
  unfold ept_violation
  simp only []
  split_ifs <;> exact ⟨rfl, rfl⟩

theorem invalid_opcode_ret (e : vmexit) (ros : Bool) (m : vcpu)
    (h : (invalid_opcode e ros m).2 = Flow.ret) :
    ros = true ∧ is_syscall e e.instr_len (m.regs Reg.RIP) = true ∧
      m.regs Reg.RAX < e.nr_syscalls ∧ m.regs Reg.RAX = LSYS_rt_sigreturn := by
  unfold invalid_opcode at h
  simp only [] at h
  by_cases hs : is_syscall e e.instr_len (m.regs Reg.RIP) = true
  · rw [if_pos hs] at h
    by_cases hnr : e.nr_syscalls ≤ m.regs Reg.RAX
    · rw [handle_syscall_out _ _ _ hnr] at h
      simp at h
    · have hnr1 : ¬ (m.regs Reg.RAX ≥ e.nr_syscalls) := hnr
      unfold handle_syscall at h
      simp only [hnr1, if_false] at h
      split_ifs at h with h1 h2 h3
      · exact ⟨h2.1, hs, by omega, h1⟩
      · exact absurd h3.2 (by decide)
  · rw [if_neg hs] at h
    split_ifs at h
    cases hm : e.mem (m.regs Reg.RIP) e.instr_len with
    | none => rw [hm] at h; simp at h
    | some l =>
      rw [hm] at h
      simp only [] at h
      rcases exception_thrown_flow e (m.act (Action.send_signal LINUX_SIGILL)) with hx | hx
      · rw [hx] at h; simp at h
      · rw [hx] at h; simp at h

theorem body_ret (e : vmexit) (ros : Bool) (m : vcpu)
    (h : (main_loop_body e ros m).2 = Flow.ret) :
    ros = true ∧ e.is_exception X86_VEC_UD ∧
      is_syscall e e.instr_len (m.regs Reg.RIP) = true ∧
      m.regs Reg.RAX < e.nr_syscalls ∧ m.regs Reg.RAX = LSYS_rt_sigreturn := by
  unfold main_loop_body at h
  simp only [] at h
  split_ifs at h with h1 h2 h3 h4 h5 h6 h7 h8 h9 h10 h11 h12
  all_goals first
    | (exfalso; rw [(ept_violation_flow e m).1] at h; simp at h)
    | (exfalso; rcases exception_thrown_flow e m with hx | hx <;> rw [hx] at h <;> simp at h)
    | skip
  obtain ⟨a, b, c, d⟩ := invalid_opcode_ret e ros m h
  exact ⟨a, ⟨by assumption, by assumption, by assumption⟩, b, c, d⟩

theorem main_loop_returned (ros : Bool) :
    ∀ (turns : List Turn) (m : vcpu), (main_loop ros turns m).2 = Outcome.returned →
      ros = true ∧ ∃ pre t post, turns = pre ++ t :: post ∧
        (main_loop ros pre m).2 = Outcome.running ∧
        (t.task_run (main_loop ros pre m).1).2 = 0 ∧
        t.exit.is_exception X86_VEC_UD ∧
        is_syscall t.exit t.exit.instr_len
          ((t.task_run (main_loop ros pre m).1).1.regs Reg.RIP) = true ∧
        (t.task_run (main_loop ros pre m).1).1.regs Reg.RAX = LSYS_rt_sigreturn := by
  intro turns
  induction turns with
  | nil => intro m h; simp [main_loop] at h
  | cons t rest ih =>
    intro m h
    rw [main_loop_cons] at h
    by_cases hr : (t.task_run m).2 ≠ 0
    · rw [if_pos hr] at h; simp at h
    · rw [if_neg hr] at h
      rcases hf : (main_loop_body t.exit ros (t.task_run m).1).2 with _ | _ | c | _ | _
      · rw [hf] at h
        simp only [] at h
        obtain ⟨h1, pre, t1, post, he, hrun, h2⟩ := ih _ h
        have hpre : main_loop ros (t :: pre) m =
            main_loop ros pre (main_loop_body t.exit ros (t.task_run m).1).1 := by
          rw [main_loop_cons, if_neg hr, hf]
        refine ⟨h1, t :: pre, t1, post, by rw [he]; rfl, ?_, ?_⟩
        · rw [hpre]; exact hrun
        · rw [hpre]; exact h2
      · obtain ⟨a, b, c, -, d⟩ := body_ret _ _ _ hf
        exact ⟨a, [], t, rest, rfl, rfl, by simpa using hr, b, c, d⟩
      all_goals
        rw [hf] at h
        simp at h

theorem main_loop_unreachable (ros : Bool) (pre post : List Turn) (t : Turn) (m : vcpu)
    (hrun : (main_loop ros pre m).2 = Outcome.running)
    (hr : (t.task_run (main_loop ros pre m).1).2 ≠ 0) :
    (main_loop ros (pre ++ t :: post) m).2 = Outcome.unreachable := by
  rw [main_loop_append ros pre (t :: post) m hrun, main_loop_cons, if_pos hr]

/-- C23, the code when `task_run()` returns a value that is not 0: the condition of the
`while` loop is false, control leaves the loop and reaches `__builtin_unreachable()`; here
in the first turn, and so at every turn that the loop reaches. The other half of the sentence
holds: when `main_loop` returns, `return_on_sigret` is set and the exit just handled was a
system call with RAX equal to `rt_sigreturn`. -/
theorem main_loop_leaves :
    (turn_fail.task_run vcpu_init).2 ≠ 0 ∧
    (main_loop false [turn_fail] vcpu_init).2 = Outcome.unreachable ∧
    (main_loop true [turn_fail] vcpu_init).2 = Outcome.unreachable ∧
    (∀ (ros : Bool) (pre post : List Turn) (t : Turn) (m : vcpu),
      (main_loop ros pre m).2 = Outcome.running →
      (t.task_run (main_loop ros pre m).1).2 ≠ 0 →
      (main_loop ros (pre ++ t :: post) m).2 = Outcome.unreachable) ∧
    (∀ (ros : Bool) (turns : List Turn) (m : vcpu),
      (main_loop ros turns m).2 = Outcome.returned →
      ros = true ∧ ∃ pre t post, turns = pre ++ t :: post ∧
        (main_loop ros pre m).2 = Outcome.running ∧
        (t.task_run (main_loop ros pre m).1).2 = 0 ∧
        t.exit.is_exception X86_VEC_UD ∧
        is_syscall t.exit t.exit.instr_len
          ((t.task_run (main_loop ros pre m).1).1.regs Reg.RIP) = true ∧
        (t.task_run (main_loop ros pre m).1).1.regs Reg.RAX = LSYS_rt_sigreturn) := by
  refine ⟨by decide, by decide, by decide, ?_, ?_⟩
  · intro ros pre post t m hrun hr
    exact main_loop_unreachable ros pre post t m hrun hr
  · intro ros turns m h
    exact main_loop_returned ros turns m h

theorem avx_bit_set (x : Nat) : (x ||| XCR0_AVX_STATE) &&& XCR0_AVX_STATE ≠ 0 := by
  intro h
  have h4 : Nat.testBit 4 2 = true := by decide
  have h2 : ((x ||| 4) &&& 4).testBit 2 = true := by
    simp [Nat.testBit_and, Nat.testBit_or, h4]
  simp only [XCR0_AVX_STATE] at h
  rw [h] at h2
  simp at h2

theorem handle_vsyscall_xcr0 (r : Nat) (m : vcpu) (a : Nat) :
    (handle_vsyscall r m a).1.regs Reg.XCR0 = m.regs Reg.XCR0 := by
  unfold handle_vsyscall
  split_ifs <;> simp [vcpu.write, vcpu.act]

theorem invalid_opcode_avx (e : vmexit) (ros : Bool) (m : vcpu)
    (hsys : is_syscall e e.instr_len (m.regs Reg.RIP) = false) :
    invalid_opcode e ros m =
      if is_avx e (m.regs Reg.RIP) = true ∧ m.regs Reg.XCR0 &&& XCR0_AVX_STATE = 0 ∧
          (e.cpuid_count 0x0d 0x0).1 &&& XCR0_AVX_STATE ≠ 0 then
        (m.write Reg.XCR0 (m.regs Reg.XCR0 ||| XCR0_AVX_STATE), Flow.next)
      else
        match e.mem (m.regs Reg.RIP) e.instr_len with
        | none => (m, Flow.abort)
        | some _ => exception_thrown e (m.act (Action.send_signal LINUX_SIGILL)) := by
  unfold invalid_opcode
  simp only [hsys, Bool.false_eq_true, if_false]

theorem invalid_opcode_xcr0 (e : vmexit) (ros : Bool) (m : vcpu)
    (htab : ∀ nr a0 a1 a2 a3 a4 a5 s,
      (e.table nr a0 a1 a2 a3 a4 a5 s).1.regs Reg.XCR0 = s.regs Reg.XCR0) :
    (invalid_opcode e ros m).1.regs Reg.XCR0 = m.regs Reg.XCR0 ∨
    (m.regs Reg.XCR0 &&& XCR0_AVX_STATE = 0 ∧
      (invalid_opcode e ros m).1.regs Reg.XCR0 = m.regs Reg.XCR0 ||| XCR0_AVX_STATE) := by
  by_cases hs : is_syscall e e.instr_len (m.regs Reg.RIP) = true
  · left
    unfold invalid_opcode
    simp only [hs, if_true]
    by_cases hnr : e.nr_syscalls ≤ m.regs Reg.RAX
    · rw [handle_syscall_out _ _ _ hnr]
      rfl
    · have hnr1 : ¬ (m.regs Reg.RAX ≥ e.nr_syscalls) := hnr
      unfold handle_syscall
      simp only [hnr1, if_false]
      split_ifs <;> simp [vcpu.write, htab, vcpu.act]
  · have hs1 : is_syscall e e.instr_len (m.regs Reg.RIP) = false := by
      simpa using hs
    rw [invalid_opcode_avx e ros m hs1]
    split_ifs with h
    · right
      exact ⟨h.2.1, by simp [vcpu.write]⟩
    · left
      cases e.mem (m.regs Reg.RIP) e.instr_len with
      | none => rfl
      | some l => simp only []; rw [exception_thrown_state]; rfl

theorem body_xcr0 (e : vmexit) (ros : Bool) (m : vcpu)
    (htab : ∀ nr a0 a1 a2 a3 a4 a5 s,
      (e.table nr a0 a1 a2 a3 a4 a5 s).1.regs Reg.XCR0 = s.regs Reg.XCR0) :
    (main_loop_body e ros m).1.regs Reg.XCR0 = m.regs Reg.XCR0 ∨
    (m.regs Reg.XCR0 &&& XCR0_AVX_STATE = 0 ∧
      (main_loop_body e ros m).1.regs Reg.XCR0 = m.regs Reg.XCR0 ||| XCR0_AVX_STATE) := by
  unfold main_loop_body
  simp only []
  split_ifs
  all_goals first
    | exact invalid_opcode_xcr0 e ros m htab
    | (left; rfl)
    | (left; rw [exception_thrown_state])
    | (left; rw [(ept_violation_flow e m).2])
    | (left; simp [vcpu.write, vcpu.act, handle_vsyscall_xcr0])

theorem main_loop_xcr0 (ros : Bool) :
    ∀ (turns : List Turn) (m : vcpu), (∀ t ∈ turns, t.keeps_xcr0) →
      (main_loop ros turns m).1.regs Reg.XCR0 = m.regs Reg.XCR0 ∨
      (m.regs Reg.XCR0 &&& XCR0_AVX_STATE = 0 ∧
        (main_loop ros turns m).1.regs Reg.XCR0 = m.regs Reg.XCR0 ||| XCR0_AVX_STATE) := by
  intro turns
  induction turns with
  | nil => intro m _; left; rfl
  | cons t rest ih =>
    intro m hk
    have ht := hk t (List.mem_cons_self _ _)
    have hrest : ∀ t1 ∈ rest, t1.keeps_xcr0 := fun t1 h1 => hk t1 (List.mem_cons_of_mem _ h1)
    rw [main_loop_cons]
    by_cases hr : (t.task_run m).2 ≠ 0
    · rw [if_pos hr]; left; exact ht.1 m
    · rw [if_neg hr]
      have hb := body_xcr0 t.exit ros (t.task_run m).1 ht.2
      rw [ht.1 m] at hb
      rcases hf : (main_loop_body t.exit ros (t.task_run m).1).2 with _ | _ | c | _ | _
      · simp only []
        have hi := ih (main_loop_body t.exit ros (t.task_run m).1).1 hrest
        rcases hb with hb | ⟨hb0, hb⟩
        · rw [hb] at hi; exact hi
        · rw [hb] at hi
          rcases hi with hi | ⟨hi0, -⟩
          · right; exact ⟨hb0, hi⟩
          · exact absurd hi0 (avx_bit_set _)
      all_goals exact hb

theorem main_loop_stopped (ros : Bool) :
    ∀ (pre post : List Turn) (m : vcpu), (main_loop ros pre m).2 ≠ Outcome.running →
      main_loop ros (pre ++ post) m = main_loop ros pre m := by
  intro pre
  induction pre with
  | nil => intro post m h; simp [main_loop] at h
  | cons t rest ih =>
    intro post m h
    rw [main_loop_cons] at h
    rw [List.cons_append, main_loop_cons, main_loop_cons]
    by_cases hr : (t.task_run m).2 ≠ 0
    · rw [if_pos hr, if_pos hr]
    · rw [if_neg hr] at h
      rw [if_neg hr, if_neg hr]
      rcases hf : (main_loop_body t.exit ros (t.task_run m).1).2 with _ | _ | c | _ | _
      · rw [hf] at h
        simp only [] at h ⊢
        exact ih post _ h
      all_goals rfl

/-- C25: at a `#UD` exit that is not a system call and whose first instruction byte is
`C4` or `C5`: if the AVX bit of guest XCR0 is clear and the host `cpuid` leaf `0xD` reports
AVX state, `main_loop` writes XCR0 with the AVX bit added, changes nothing else (RIP and
the other bits of XCR0 stay) and goes on to run the guest again; if the bit is already set
or the host lacks AVX, it takes the invalid-opcode path (`SIGILL` is posted when the
instruction can be read) and does not go on to the next iteration. Over every run of
`main_loop` in which neither `task_run` nor a system-call handler writes XCR0, XCR0 is
either the initial value or that value with the AVX bit added, and once it has changed it
does not change again. -/
theorem avx_enabled_once (e : vmexit) (ros : Bool) (m : vcpu)
    (hud : e.is_exception X86_VEC_UD)
    (hsys : is_syscall e e.instr_len (m.regs Reg.RIP) = false)
    (havx : is_avx e (m.regs Reg.RIP) = true) :
    (∃ op, e.mem (m.regs Reg.RIP) 1 = some [op] ∧ (op = 0xc4 ∨ op = 0xc5)) ∧
    (m.regs Reg.XCR0 &&& XCR0_AVX_STATE = 0 →
      (e.cpuid_count 0x0d 0x0).1 &&& XCR0_AVX_STATE ≠ 0 →
      main_loop_body e ros m =
        (m.write Reg.XCR0 (m.regs Reg.XCR0 ||| XCR0_AVX_STATE), Flow.next)) ∧
    (m.regs Reg.XCR0 &&& XCR0_AVX_STATE ≠ 0 ∨
        (e.cpuid_count 0x0d 0x0).1 &&& XCR0_AVX_STATE = 0 →
      main_loop_body e ros m =
        (match e.mem (m.regs Reg.RIP) e.instr_len with
          | none => (m, Flow.abort)
          | some _ => exception_thrown e (m.act (Action.send_signal LINUX_SIGILL))) ∧
      (main_loop_body e ros m).2 ≠ Flow.next ∧
      (main_loop_body e ros m).1.regs = m.regs) ∧
    (∀ (r : Bool) (pre post : List Turn) (m0 : vcpu), (∀ t ∈ pre ++ post, t.keeps_xcr0) →
      ((main_loop r pre m0).1.regs Reg.XCR0 = m0.regs Reg.XCR0 ∨
        (m0.regs Reg.XCR0 &&& XCR0_AVX_STATE = 0 ∧
          (main_loop r pre m0).1.regs Reg.XCR0 = m0.regs Reg.XCR0 ||| XCR0_AVX_STATE)) ∧
      ((main_loop r pre m0).1.regs Reg.XCR0 ≠ m0.regs Reg.XCR0 →
        (main_loop r (pre ++ post) m0).1.regs Reg.XCR0 =
          (main_loop r pre m0).1.regs Reg.XCR0)) := by
  have hbody : main_loop_body e ros m = invalid_opcode e ros m := by
    rw [exception_body e ros m X86_VEC_UD hud (by decide), if_pos rfl]
  refine ⟨?_, ?_, ?_, ?_⟩
  · unfold is_avx at havx
    rcases hm : e.mem (m.regs Reg.RIP) 1 with _ | l
    · rw [hm] at havx; simp at havx
    · rw [hm] at havx
      rcases l with _ | ⟨op, _ | ⟨b, l⟩⟩
      · simp at havx
      · exact ⟨op, rfl, by simpa using havx⟩
      · simp at havx
  · intro h0 hc
    rw [hbody, invalid_opcode_avx e ros m hsys, if_pos ⟨havx, h0, hc⟩]
  · intro hno
    have hcond : ¬ (is_avx e (m.regs Reg.RIP) = true ∧
        m.regs Reg.XCR0 &&& XCR0_AVX_STATE = 0 ∧
        (e.cpuid_count 0x0d 0x0).1 &&& XCR0_AVX_STATE ≠ 0) := by
      rintro ⟨-, h0, hc⟩
      rcases hno with hno | hno
      · exact hno h0
      · exact hc hno
    rw [hbody, invalid_opcode_avx e ros m hsys, if_neg hcond]
    refine ⟨rfl, ?_, ?_⟩
    · cases e.mem (m.regs Reg.RIP) e.instr_len with
      | none => simp
      | some l =>
        simp only []
        rcases exception_thrown_flow e (m.act (Action.send_signal LINUX_SIGILL)) with hx | hx
        · rw [hx]; simp
        · rw [hx]; simp
    · cases e.mem (m.regs Reg.RIP) e.instr_len with
      | none => rfl
      | some l => simp only []; rw [exception_thrown_state]; rfl
  · intro r pre post m0 hk
    have hpre : ∀ t ∈ pre, t.keeps_xcr0 := fun t ht => hk t (List.mem_append_left _ ht)
    have hpost : ∀ t ∈ post, t.keeps_xcr0 := fun t ht => hk t (List.mem_append_right _ ht)
    have h1 := main_loop_xcr0 r pre m0 hpre
    refine ⟨h1, ?_⟩
    intro hne
    by_cases hrun : (main_loop r pre m0).2 = Outcome.running
    · rw [main_loop_append r pre post m0 hrun]
      rcases main_loop_xcr0 r post (main_loop r pre m0).1 hpost with h2 | ⟨h2, -⟩
      · exact h2
      · rcases h1 with h1 | ⟨-, h1⟩
        · exact absurd h1 hne
        · rw [h1] at h2
          exact absurd h2 (avx_bit_set _)
    · rw [main_loop_stopped r pre post m0 hrun]

/-- C25, at the exit `exit_avx` with XCR0 = 3 (x87 and SSE): XCR0 becomes 7, RIP stays,
and the loop goes on. -/
theorem avx_enabled_once_witness :
    (main_loop_body exit_avx false (vcpu_init.write Reg.XCR0 3)).1.regs Reg.XCR0 = 7 ∧
    (main_loop_body exit_avx false (vcpu_init.write Reg.XCR0 3)).1.regs Reg.RIP = 0 ∧
    (main_loop_body exit_avx false (vcpu_init.write Reg.XCR0 3)).2 = Flow.next := by
  have h := (avx_enabled_once exit_avx false (vcpu_init.write Reg.XCR0 3)
    ⟨by decide, Or.inl (by decide), by decide⟩ (by decide) (by decide)).2.1
    (by decide) (by decide)
  rw [h]
  exact ⟨by decide, by decide, rfl⟩

theorem dup3_state_trace (st1 : proc) (c : Prop) [Decidable c] (newfd : Nat) :
    (if c then
        { (new_file st1 (Int.ofNat newfd)).1 with
          fdtab := (new_file st1 (Int.ofNat newfd)).1.fdtab.set newfd
            (some (new_file st1 (Int.ofNat newfd)).2) }
      else st1).trace = st1.trace := by
  split <;> rfl

theorem dup3_eq (h : host) (st : proc) (oldfd newfd flags : Nat)
    (hfl : flags &&& (0xFFFFFFFF ^^^ LINUX_O_CLOEXEC) = 0)
    (hne : oldfd ≠ newfd) (hlt : newfd < st.fdtab.length) :
    ∃ st2 : proc, st2.trace = st.trace ++ [Event.host_dup2 oldfd newfd] ∧
      sys_dup3 h st oldfd newfd flags =
        if syswrap h.darwin_to_linux_errno (h.dup2 oldfd newfd) = 0 ∧
            flags &&& LINUX_O_CLOEXEC ≠ 0 then
          some ({ st2 with trace := st2.trace ++ [Event.host_cloexec newfd] },
            syswrap h.darwin_to_linux_errno (h.fcntl_cloexec newfd))
        else some (st2, syswrap h.darwin_to_linux_errno (h.dup2 oldfd newfd)) := by
  refine ⟨if (decide (st.slot newfd = none) = true) ∧
        0 ≤ syswrap h.darwin_to_linux_errno (h.dup2 oldfd newfd) then
      { (new_file { st with trace := st.trace ++ [Event.host_dup2 oldfd newfd] }
          (Int.ofNat newfd)).1 with
        fdtab := (new_file { st with trace := st.trace ++ [Event.host_dup2 oldfd newfd] }
          (Int.ofNat newfd)).1.fdtab.set newfd
            (some (new_file { st with trace := st.trace ++ [Event.host_dup2 oldfd newfd] }
              (Int.ofNat newfd)).2) }
    else { st with trace := st.trace ++ [Event.host_dup2 oldfd newfd] }, ?_, ?_⟩
  · rw [dup3_state_trace]
  · unfold sys_dup3
    rw [if_neg (by simpa using hfl), if_neg hne, if_neg (by simpa using hlt)]

/-- C26: for `oldfd != newfd` (with `newfd` an index of the descriptor table) and
`flags = O_CLOEXEC`, `sys_dup3` calls the host `dup2` and then applies `FD_CLOEXEC` to
`newfd` if and only if `dup2` returned 0, in which case it returns what that `fcntl`
gives; when `dup2` returned a positive number, `FD_CLOEXEC` is not applied and the number
is returned. When `flags` has a bit other than `O_CLOEXEC`, or `oldfd == newfd`, it returns
`-EINVAL` and makes no host call. A failed `dup2` is taken to leave an `errno` whose Linux
translation is not 0. -/
theorem dup3_cloexec (h : host) (st : proc) (oldfd newfd : Nat)
    (hne : oldfd ≠ newfd) (hlt : newfd < st.fdtab.length)
    (herr : (h.dup2 oldfd newfd).1 < 0 →
      h.darwin_to_linux_errno (h.dup2 oldfd newfd).2 ≠ 0) :
    (∃ st1 r, sys_dup3 h st oldfd newfd LINUX_O_CLOEXEC = some (st1, r) ∧
      st1.trace = st.trace ++ [Event.host_dup2 oldfd newfd] ++
        (if (h.dup2 oldfd newfd).1 = 0 then [Event.host_cloexec newfd] else []) ∧
      ((h.dup2 oldfd newfd).1 = 0 →
        r = syswrap h.darwin_to_linux_errno (h.fcntl_cloexec newfd)) ∧
      (0 < (h.dup2 oldfd newfd).1 → r = (h.dup2 oldfd newfd).1)) ∧
    (∀ flags, flags &&& (0xFFFFFFFF ^^^ LINUX_O_CLOEXEC) ≠ 0 →
      sys_dup3 h st oldfd newfd flags = some (st, -LINUX_EINVAL)) ∧
    (∀ flags fd, sys_dup3 h st fd fd flags = some (st, -LINUX_EINVAL)) := by
  refine ⟨?_, ?_, ?_⟩
  · obtain ⟨st2, htr, heq⟩ := dup3_eq h st oldfd newfd LINUX_O_CLOEXEC (by decide) hne hlt
    have hcl : LINUX_O_CLOEXEC &&& LINUX_O_CLOEXEC ≠ 0 := by decide
    have hzero : syswrap h.darwin_to_linux_errno (h.dup2 oldfd newfd) = 0 ↔
        (h.dup2 oldfd newfd).1 = 0 := by
      by_cases hn : (h.dup2 oldfd newfd).1 < 0
      · rw [syswrap_of_neg _ _ hn]
        have := herr hn
        constructor
        · intro h0; omega
        · intro h0; omega
      · rw [syswrap_of_nonneg _ _ (by omega)]
    by_cases h0 : (h.dup2 oldfd newfd).1 = 0
    · rw [if_pos ⟨hzero.mpr h0, hcl⟩] at heq
      refine ⟨_, _, heq, ?_, fun _ => rfl, fun hp => by omega⟩
      simp only [htr, h0, if_true]
    · have hz : ¬ (syswrap h.darwin_to_linux_errno (h.dup2 oldfd newfd) = 0 ∧
          LINUX_O_CLOEXEC &&& LINUX_O_CLOEXEC ≠ 0) := fun hx => h0 (hzero.mp hx.1)
      rw [if_neg hz] at heq
      refine ⟨_, _, heq, ?_, fun hx => absurd hx h0, fun hp => ?_⟩
      · simp only [htr, h0, if_false, List.append_nil]
      · exact syswrap_of_nonneg _ _ (by omega)
  · intro flags hfl
    unfold sys_dup3
    rw [if_pos hfl]
  · intro flags fd
    unfold sys_dup3
    by_cases hfl : flags &&& (0xFFFFFFFF ^^^ LINUX_O_CLOEXEC) ≠ 0
    · rw [if_pos hfl]
    · rw [if_neg hfl, if_pos rfl]

/-- C26, on the host `host_ab`, whose `dup2` returns `newfd`: `dup3(3, 2, O_CLOEXEC)`
returns 2 and `FD_CLOEXEC` is not applied. -/
theorem dup3_cloexec_witness :
    ∃ st1, sys_dup3 host_ab proc_one 3 2 LINUX_O_CLOEXEC = some (st1, 2) ∧
      st1.trace = [Event.host_dup2 3 2] :=
  (dup3_cloexec host_ab proc_one 3 2 (by decide) (by decide) (by decide)).1.elim
    (fun st1 hx => hx.elim (fun r hr =>
      ⟨st1, by rw [hr.1, hr.2.2.2 (by decide)]; rfl, by rw [hr.2.1]; rfl⟩))

theorem walk_found (rl : Readlinkat) (dir : Int) (flags : Nat)
    (hnf : flags &&& LOOKUP_NOFOLLOW = 0) (f : Nat) (sp c L : List Char) (hc : c ≠ [])
    (hl : rl dir (sp ++ c.takeWhile (fun ch => ch ≠ '/')) = some L) (hL : 0 < L.length) :
    walk rl dir flags (f + 1) sp c =
      Walk.follow
        (if (cstr (L ++ c.dropWhile (fun ch => ch ≠ '/'))).head? = some '/' then
          cstr (L ++ c.dropWhile (fun ch => ch ≠ '/'))
        else remove_last_component (sp ++ c.takeWhile (fun ch => ch ≠ '/')) ++
          cstr (L ++ c.dropWhile (fun ch => ch ≠ '/'))) := by
  unfold walk
  simp only [hc, if_false, hnf, if_true, hl, hL]
  split <;> rfl

theorem walk_skip (rl : Readlinkat) (dir : Int) (flags : Nat) (f : Nat) (sp c : List Char)
    (hc : c ≠ [])
    (hl : ∀ l, rl dir (sp ++ c.takeWhile (fun ch => ch ≠ '/')) = some l → l = []) :
    walk rl dir flags (f + 1) sp c =
      match c.dropWhile (fun ch => ch ≠ '/') with
      | [] => walk rl dir flags f (sp ++ c.takeWhile (fun ch => ch ≠ '/')) []
      | ch :: c2 => walk rl dir flags f (sp ++ c.takeWhile (fun ch => ch ≠ '/') ++ [ch]) c2 := by
  conv_lhs => rw [walk]
  simp only [hc, if_false]
  by_cases hnf : flags &&& LOOKUP_NOFOLLOW = 0
  · simp only [hnf, if_true]
    cases hr : rl dir (sp ++ c.takeWhile (fun ch => ch ≠ '/')) with
    | none => rfl
    | some l =>
      have := hl l hr
      subst this
      simp
  · simp only [hnf, if_false]

theorem takeWhile_slash_all (c : List Char) :
    ∀ a ∈ c.takeWhile (fun ch => ch ≠ '/'), a ≠ '/' := by
  intro a ha
  have := List.mem_takeWhile_imp ha
  simpa using this

theorem dropWhile_slash_head (c : List Char) :
    c.dropWhile (fun ch => ch ≠ '/') = [] ∨
      (c.dropWhile (fun ch => ch ≠ '/')).head? = some '/' := by
  induction c with
  | nil => left; rfl
  | cons a rest ih =>
    by_cases ha : a = '/'
    · right; subst ha; simp [List.dropWhile]
    · have : List.dropWhile (fun ch => decide (ch ≠ '/')) (a :: rest) =
          List.dropWhile (fun ch => decide (ch ≠ '/')) rest := by
        simp [List.dropWhile, ha]
      rw [this]; exact ih

theorem walk_follow_at (rl : Readlinkat) (dir : Int) (flags : Nat)
    (hnf : flags &&& LOOKUP_NOFOLLOW = 0) (L : List Char) (hL : 0 < L.length) :
    ∀ (fuel : Nat) (sp x R : List Char), (x ++ R).length < fuel →
      (R = [] ∨ R.head? = some '/') →
      (R ≠ [] ∨ (x ≠ [] ∧ ∀ y, x ≠ y ++ ['/'])) →
      rl dir (sp ++ x) = some L →
      (∀ x1 R1, x ++ R = x1 ++ R1 → x1.length < x.length →
        (R1 = [] ∨ R1.head? = some '/') → ∀ l, rl dir (sp ++ x1) = some l → l = []) →
      walk rl dir flags fuel sp (x ++ R) =
        Walk.follow
          (if (cstr (L ++ R)).head? = some '/' then cstr (L ++ R)
           else remove_last_component (sp ++ x) ++ cstr (L ++ R)) := by
  intro fuel
  induction fuel with
  | zero => intro sp x R h; omega
  | succ k ih =>
    intro sp x R hlen hR htest hlink hfirst
    have hc : x ++ R ≠ [] := by
      rcases htest with h | h
      · simp [h]
      · simp [h.1]
    have hsplit := List.takeWhile_append_dropWhile (fun ch => decide (ch ≠ '/')) (x ++ R)
    have hall := takeWhile_slash_all (x ++ R)
    have hdrop := dropWhile_slash_head (x ++ R)
    generalize ht : (x ++ R).takeWhile (fun ch => decide (ch ≠ '/')) = t at hsplit hall
    generalize hd : (x ++ R).dropWhile (fun ch => decide (ch ≠ '/')) = d at hsplit hdrop
    rcases List.append_eq_append_iff.mp hsplit with ⟨a, hx, hda⟩ | ⟨b, htb, hRb⟩
    · -- x = t ++ a, d = a ++ R
      cases a with
      | nil =>
        have hxt : x = t := by simpa using hx
        have hdR : d = R := by simpa using hda
        have := walk_found rl dir flags hnf k sp (x ++ R) L hc
          (by rw [ht, ← hxt]; exact hlink) hL
        rw [this, ht, hd, ← hxt, hdR]
      | cons s x2 =>
        have hs : s = '/' := by
          rcases hdrop with h | h
          · rw [hda] at h; simp at h
          · rw [hda] at h; simpa using h
        subst hs
        have hfail : ∀ l, rl dir (sp ++ (x ++ R).takeWhile (fun ch => ch ≠ '/')) = some l →
            l = [] := by
          rw [ht]
          exact hfirst t d hsplit.symm (by rw [hx]; simp) hdrop
        rw [walk_skip rl dir flags k sp (x ++ R) hc hfail, hd, hda, ht]
        simp only [List.cons_append]
        have hlen2 : (x2 ++ R).length < k := by
          rw [hx] at hlen
          simp only [List.length_append, List.length_cons] at hlen ⊢
          omega
        have htest2 : R ≠ [] ∨ (x2 ≠ [] ∧ ∀ y, x2 ≠ y ++ ['/']) := by
          rcases htest with h | ⟨-, h⟩
          · left; exact h
          · right
            constructor
            · intro he
              apply h t
              rw [hx, he]
            · intro y he
              apply h (t ++ '/' :: y)
              rw [hx, he]
              simp
        have hlink2 : rl dir (sp ++ t ++ ['/'] ++ x2) = some L := by
          rw [← hlink, hx]
          simp
        have hfirst2 : ∀ x1 R1, x2 ++ R = x1 ++ R1 → x1.length < x2.length →
            (R1 = [] ∨ R1.head? = some '/') →
            ∀ l, rl dir (sp ++ t ++ ['/'] ++ x1) = some l → l = [] := by
          intro x1 R1 he hl1 hb l hl
          apply hfirst (t ++ '/' :: x1) R1 _ _ hb l
          · rw [← hl]; simp
          · rw [hx]; simp [he]
          · rw [hx]; simp; omega
        have := ih (sp ++ t ++ ['/']) x2 R hlen2 hR htest2 hlink2 hfirst2
        rw [this]
        have hp : sp ++ t ++ ['/'] ++ x2 = sp ++ x := by rw [hx]; simp
        rw [hp]
    · -- t = x ++ b, R = b ++ d
      cases b with
      | nil =>
        have hxt : t = x := by simpa using htb
        have hdR : R = d := by simpa using hRb
        have := walk_found rl dir flags hnf k sp (x ++ R) L hc
          (by rw [ht, hxt]; exact hlink) hL
        rw [this, ht, hd, hxt, ← hdR]
      | cons s b2 =>
        exfalso
        have hs : s = '/' := by
          rcases hR with h | h
          · rw [hRb] at h; simp at h
          · rw [hRb] at h; simpa using h
        have := hall s (by rw [htb]; simp)
        exact this hs

theorem cstr_of_no_nul (l : List Char) (h : Char.ofNat 0 ∉ l) : cstr l = l := by
  unfold cstr
  rw [List.takeWhile_eq_self_iff]
  intro a ha
  have : a ≠ Char.ofNat 0 := fun he => h (he ▸ ha)
  simpa using this

theorem visit_walk (rl : Readlinkat) (vfs_root parent : Int) (name : List Char) (flags : Nat)
    (hname : name ≠ ['/']) (hne : walk_name name ≠ []) :
    visit rl vfs_root parent name flags =
      (walk rl (walk_dir vfs_root parent name) flags ((walk_name name).length + 1) []
        (walk_name name)).visit (walk_dir vfs_root parent name) := by
  rw [visit_def, if_neg hname]
  unfold walk_dir walk_name at *
  by_cases hr : name.head? = some '/' ∧ outside_mounts name = true
  · rw [if_pos hr, if_pos hr, if_pos hr]
  · rw [if_neg hr] at hne
    rw [if_neg hr, if_neg hr, if_neg hr, if_neg hne]

theorem grab_follow (rl : Readlinkat) (vfs_root parent : Int) (name : List Char)
    (flags : Nat) (loop : Int) (fuel : Nat) (P L R : List Char)
    (hflags : flags &&& (0xFFFFFFFF ^^^ (LOOKUP_NOFOLLOW ||| LOOKUP_DIRECTORY)) = 0)
    (hnf : flags &&& LOOKUP_NOFOLLOW = 0)
    (hloop : loop ≤ LOOP_MAX)
    (hname : name ≠ ['/'])
    (hsplit : walk_name name = P ++ R)
    (hR : R = [] ∨ R.head? = some '/')
    (htest : R ≠ [] ∨ (P ≠ [] ∧ ∀ y, P ≠ y ++ ['/']))
    (hlink : rl (walk_dir vfs_root parent name) P = some L) (hL : 0 < L.length)
    (hfirst : ∀ P1 R1, walk_name name = P1 ++ R1 → P1.length < P.length →
      (R1 = [] ∨ R1.head? = some '/') →
      ∀ l, rl (walk_dir vfs_root parent name) P1 = some l → l = [])
    (hnul : Char.ofNat 0 ∉ L ++ R) :
    __vfs_grab_dir rl vfs_root (fuel + 1) parent name flags loop =
      __vfs_grab_dir rl vfs_root fuel (walk_dir vfs_root parent name)
        (if L.head? = some '/' then L ++ R else remove_last_component P ++ (L ++ R)) flags
        (loop + 1) := by
  have hne : walk_name name ≠ [] := by
    rw [hsplit]
    rcases htest with h | h
    · simp [h]
    · simp [h.1]
  have hhead : (L ++ R).head? = L.head? := by
    cases L with
    | nil => simp at hL
    | cons a l => rfl
  have hwalk := walk_follow_at rl (walk_dir vfs_root parent name) flags hnf L hL
    ((walk_name name).length + 1) [] P R (by rw [hsplit]; omega) hR htest
    (by simpa using hlink)
    (by
      intro x1 R1 he hl hb l hl1
      exact hfirst x1 R1 (by rw [hsplit]; exact he) hl hb l (by simpa using hl1))
  rw [cstr_of_no_nul _ hnul, hhead, List.nil_append, ← hsplit] at hwalk
  have hl : ¬ loop > LOOP_MAX := by omega
  rw [__vfs_grab_dir]
  rw [if_neg (by simpa using hflags), if_neg hl, visit_walk rl vfs_root parent name flags
    hname hne, hwalk]
  rfl

theorem walk_writes_tmp (dir : Int) (rest : List Char) (k : Nat) :
    ({ into := Buffer.buf, upto := 11 + (rest.length + 1) + 1 } : Write) ∈
      walk_writes readlink_tmp dir 0 (k + 2) [] (['/', 't', 'm', 'p', '/'] ++ rest) := by
  rw [walk_writes]
  have h1 : List.takeWhile (fun ch => decide (ch ≠ '/')) (['/', 't', 'm', 'p', '/'] ++ rest)
      = [] := by
    simp [List.takeWhile]
  have h2 : List.dropWhile (fun ch => decide (ch ≠ '/')) (['/', 't', 'm', 'p', '/'] ++ rest)
      = ['/', 't', 'm', 'p', '/'] ++ rest := by
    simp [List.dropWhile]
  have h3 : List.takeWhile (fun ch => decide (ch ≠ '/')) ('t' :: 'm' :: 'p' :: '/' :: rest)
      = ['t', 'm', 'p'] := by
    simp [List.takeWhile]
  have h4 : List.dropWhile (fun ch => decide (ch ≠ '/')) ('t' :: 'm' :: 'p' :: '/' :: rest)
      = '/' :: rest := by
    simp [List.dropWhile]
  have h5 : readlink_tmp dir [] = none := by simp [readlink_tmp]
  have h6 : readlink_tmp dir ['/', 't', 'm', 'p'] =
      some ['p', 'r', 'i', 'v', 'a', 't', 'e', '/', 't', 'm', 'p'] := by simp [readlink_tmp]
  simp only [h1, h2, List.append_nil, List.nil_append, h5]
  simp only [List.cons_append, List.nil_append]
  rw [walk_writes]
  simp only [h3, h4, List.cons_append, List.nil_append, h6]
  simp
  split <;> simp

theorem walk_no_link (rl : Readlinkat) (dir : Int) (flags : Nat) :
    ∀ (fuel : Nat) (sp c : List Char), c.length < fuel →
      (∀ t, t <+: c → rl dir (sp ++ t) = none) →
      walk rl dir flags fuel sp c = Walk.out (sp ++ c) := by
  intro fuel
  induction fuel with
  | zero => intro sp c h; omega
  | succ k ih =>
    intro sp c hlen hno
    by_cases hc : c = []
    · subst hc
      rw [walk]
      simp
    · have hsplit := List.takeWhile_append_dropWhile (fun ch => decide (ch ≠ '/')) c
      have hpre : c.takeWhile (fun ch => decide (ch ≠ '/')) <+: c :=
        List.takeWhile_prefix _
      have hfail : ∀ l, rl dir (sp ++ c.takeWhile (fun ch => ch ≠ '/')) = some l → l = [] := by
        intro l hl
        rw [hno _ hpre] at hl
        simp at hl
      have hpos : 0 < c.length := List.length_pos.mpr hc
      rw [walk_skip rl dir flags k sp c hc hfail]
      cases hd : c.dropWhile (fun ch => ch ≠ '/') with
      | nil =>
        rw [hd] at hsplit
        simp only [List.append_nil] at hsplit
        simp only []
        rw [ih _ [] (by simp; omega) (by
          intro t ht
          have : t = [] := List.prefix_nil.mp ht
          subst this
          simpa using hno _ hpre)]
        rw [List.append_nil, hsplit]
      | cons ch c2 =>
        rw [hd] at hsplit
        have hl2 : c2.length < k := by
          have := congrArg List.length hsplit
          simp only [List.length_append, List.length_cons] at this
          omega
        simp only []
        rw [ih _ c2 hl2 (by
          intro t ht
          have hp : c.takeWhile (fun ch => decide (ch ≠ '/')) ++ ch :: t <+: c := by
            obtain ⟨r, hr⟩ := ht
            refine ⟨r, ?_⟩
            rw [List.append_assoc, List.cons_append, hr, hsplit]
          have := hno _ hp
          simpa using this)]
        conv_rhs => rw [← hsplit]
        simp

theorem grab_tmp_ok (vfs_root : Int) (rest : List Char) (hnul : Char.ofNat 0 ∉ rest) :
    vfs_grab_dir readlink_tmp vfs_root AT_FDCWD (['/', 't', 'm', 'p', '/'] ++ rest) 0 =
      Grab.ok { dir := vfs_root,
                subpath := ['p', 'r', 'i', 'v', 'a', 't', 'e', '/', 't', 'm', 'p', '/'] ++ rest } := by
  have hm : outside_mounts (['/', 't', 'm', 'p', '/'] ++ rest) = false := by
    simp [outside_mounts, strncmp_ne, List.isPrefixOf]
  have hm1 := hm
  simp only [List.cons_append, List.nil_append] at hm1
  have hwn : walk_name (['/', 't', 'm', 'p', '/'] ++ rest) =
      ['/', 't', 'm', 'p'] ++ ('/' :: rest) := by
    simp [walk_name, hm1]
  have hwd : walk_dir vfs_root AT_FDCWD (['/', 't', 'm', 'p', '/'] ++ rest) = AT_FDCWD := by
    simp [walk_dir, hm1]
  have h1 := grab_follow readlink_tmp vfs_root AT_FDCWD (['/', 't', 'm', 'p', '/'] ++ rest) 0 0
    21 ['/', 't', 'm', 'p'] ['p', 'r', 'i', 'v', 'a', 't', 'e', '/', 't', 'm', 'p'] ('/' :: rest)
    (by decide) (by decide) (by decide) (by simp) hwn (Or.inr rfl) (Or.inl (by simp))
    (by rw [hwd]; simp [readlink_tmp]) (by decide)
    (by
      intro P1 R1 _ hlen _ l hl
      unfold readlink_tmp at hl
      split at hl
      · rename_i hp
        rw [hp] at hlen
        simp at hlen
      · simp at hl)
    (by
      intro hmem
      rcases List.mem_append.mp hmem with h | h
      · revert h; decide
      · rcases List.mem_cons.mp h with h | h
        · revert h; decide
        · exact hnul h)
  have hhead : ¬ ((['p', 'r', 'i', 'v', 'a', 't', 'e', '/', 't', 'm', 'p'] : List Char).head?
      = some '/') := by decide
  have hrl : remove_last_component ['/', 't', 'm', 'p'] = ['/'] := by decide
  rw [if_neg hhead, hrl, hwd] at h1
  have hm2 : outside_mounts
      (['/'] ++ (['p', 'r', 'i', 'v', 'a', 't', 'e', '/', 't', 'm', 'p'] ++ '/' :: rest))
      = true := by
    simp [outside_mounts, strncmp_ne, List.isPrefixOf]
  have hm3 := hm2
  simp only [List.cons_append, List.nil_append] at hm3
  have hwn2 : walk_name
      (['/'] ++ (['p', 'r', 'i', 'v', 'a', 't', 'e', '/', 't', 'm', 'p'] ++ '/' :: rest)) =
      ['p', 'r', 'i', 'v', 'a', 't', 'e', '/', 't', 'm', 'p', '/'] ++ rest := by
    simp [walk_name, hm3]
  have hwd2 : walk_dir vfs_root AT_FDCWD
      (['/'] ++ (['p', 'r', 'i', 'v', 'a', 't', 'e', '/', 't', 'm', 'p'] ++ '/' :: rest)) =
      vfs_root := by
    simp [walk_dir, hm3]
  have hwalk := walk_no_link readlink_tmp vfs_root 0
    ((['p', 'r', 'i', 'v', 'a', 't', 'e', '/', 't', 'm', 'p', '/'] ++ rest).length + 1) []
    (['p', 'r', 'i', 'v', 'a', 't', 'e', '/', 't', 'm', 'p', '/'] ++ rest) (by omega)
    (by
      intro t ht
      unfold readlink_tmp
      split
      · rename_i hp
        simp only [List.nil_append] at hp
        rw [hp] at ht
        simp at ht
      · rfl)
  have h2 : __vfs_grab_dir readlink_tmp vfs_root (20 + 1) AT_FDCWD
      (['/'] ++ (['p', 'r', 'i', 'v', 'a', 't', 'e', '/', 't', 'm', 'p'] ++ '/' :: rest)) 0
      (0 + 1) =
      Grab.ok { dir := vfs_root,
                subpath := ['p', 'r', 'i', 'v', 'a', 't', 'e', '/', 't', 'm', 'p', '/'] ++ rest } := by
    rw [__vfs_grab_dir, if_neg (by decide), if_neg (by decide),
      visit_walk readlink_tmp vfs_root AT_FDCWD _ 0 (by simp) (by rw [hwn2]; simp),
      hwn2, hwd2, hwalk]
    rfl
  unfold vfs_grab_dir
  rw [if_neg (by simp)]
  simp only [ite_self]
  have hf : grab_fuel = 21 + 1 := rfl
  rw [hf, h1]
  exact h2

theorem grab_writes_tmp (vfs_root : Int) (rest : List Char) :
    ({ into := Buffer.buf, upto := rest.length + 13 } : Write) ∈
      grab_writes readlink_tmp vfs_root grab_fuel AT_FDCWD
        (['/', 't', 'm', 'p', '/'] ++ rest) 0 0 := by
  have hf : grab_fuel = 21 + 1 := rfl
  have hflags : ¬ (0 &&& (0xFFFFFFFF ^^^ (LOOKUP_NOFOLLOW ||| LOOKUP_DIRECTORY)) ≠ 0) := by
    decide
  have hloop : ¬ ((0 : Int) > LOOP_MAX) := by decide
  rw [hf, grab_writes, if_neg hflags, if_neg hloop]
  apply List.mem_append_left
  unfold visit_writes
  have h1 : ¬ ((['/', 't', 'm', 'p', '/'] ++ rest).head? = some '/' ∧
      (['/', 't', 'm', 'p', '/'] ++ rest).tail = []) := by simp
  have h2 : outside_mounts (['/', 't', 'm', 'p', '/'] ++ rest) = false := by
    simp [outside_mounts, strncmp_ne, List.isPrefixOf]
  rw [if_neg h1]
  simp only [h2, Bool.false_eq_true, and_false, decide_False, if_false]
  apply List.mem_cons_of_mem
  have hlen : (['/', 't', 'm', 'p', '/'] ++ rest).length + 1 = (rest.length + 4) + 2 := by
    simp
  rw [hlen]
  have := walk_writes_tmp AT_FDCWD rest (rest.length + 4)
  have he : 11 + (rest.length + 1) + 1 = rest.length + 13 := by omega
  rw [he] at this
  exact this

/-- C22, the code for the name `/tmp/xx..x` of 4095 bytes on a host where `/tmp` is a
symlink to `private/tmp`: `readlinkat` stores 11 bytes in `buf` and `strcpy(buf + n, c)`
then writes the 4091 bytes of the rest of the name and a NUL behind them, 4103 bytes in
all, into the array of 4096. With arrays that hold it all, the lookup then succeeds with a
subpath that takes 4103 bytes. The array `buf` is overrun for every name `/tmp/` followed
by more than 4083 bytes. -/
theorem lookup_buffer_overflow :
    long_name.length = 4095 ∧
    (∀ d p l, readlink_tmp d p = some l → l.length ≤ LINUX_PATH_MAX) ∧
    ({ into := Buffer.buf, upto := 4103 } : Write) ∈
      grab_writes readlink_tmp 3 grab_fuel AT_FDCWD long_name 0 0 ∧
    ¬ (4103 ≤ LINUX_PATH_MAX) ∧
    (∃ p, vfs_grab_dir readlink_tmp 3 AT_FDCWD long_name 0 = Grab.ok p ∧
      p.subpath.length + 1 = 4103) ∧
    (∀ (vfs_root : Int) (rest : List Char), 4083 < rest.length →
      ∃ w ∈ grab_writes readlink_tmp vfs_root grab_fuel AT_FDCWD
          (['/', 't', 'm', 'p', '/'] ++ rest) 0 0,
        w.into = Buffer.buf ∧ LINUX_PATH_MAX < w.upto) := by
  refine ⟨by unfold long_name; rw [List.length_append, List.length_replicate]; rfl, ?_, ?_,
    by decide, ?_, ?_⟩
  · intro d p l h
    unfold readlink_tmp at h
    split at h
    · simp only [Option.some.injEq] at h
      rw [← h]
      decide
    · simp at h
  · have := grab_writes_tmp 3 (List.replicate 4090 'x')
    rw [List.length_replicate] at this
    exact this
  · have hnul : Char.ofNat 0 ∉ List.replicate 4090 'x' := by
      intro hmem
      have := (List.mem_replicate.mp hmem).2
      revert this
      decide
    refine ⟨_, grab_tmp_ok 3 (List.replicate 4090 'x') hnul, ?_⟩
    simp only [List.length_append, List.length_replicate]
    rfl
  · intro root rest hlen
    refine ⟨_, grab_writes_tmp root rest, rfl, ?_⟩
    simp only [LINUX_PATH_MAX]
    omega

theorem acquired_append (l1 l2 : List VfsCall) :
    acquired (l1 ++ l2) = acquired l1 + acquired l2 := by
  induction l1 with
  | nil => simp [acquired]
  | cons c rest ih =>
    cases c with
    | acquire fd file =>
      cases file with
      | none => simp [acquired, ih]
      | some p => simp [acquired, ih]; omega
    | release p => simp [acquired, ih]

theorem released_append (l1 l2 : List VfsCall) :
    released (l1 ++ l2) = released l1 + released l2 := by
  induction l1 with
  | nil => simp [released]
  | cons c rest ih =>
    cases c with
    | acquire fd file => simp [released, ih]
    | release p => simp [released, ih]; omega

theorem heap_set_same (heap : Nat → Option file) (p : Nat) (f : file)
    (h : heap p = some f) : heap_set heap p (some f) = heap := by
  funext q
  simp only [heap_set]
  split
  · rename_i hq; rw [hq, h]
  · rfl

theorem with_file_none (close : file → Int) (st : proc) (fd : Int) (body : Nat → Int)
    (h : ¬ (0 ≤ fd ∧ fd.toNat < st.fdtab.length) ∨ st.slot fd.toNat = none) :
    with_file close st fd body = some ((st, [VfsCall.acquire fd none]), -LINUX_EBADF) := by
  have ha : vfs_acquire st fd = some (st, none) := by
    unfold vfs_acquire
    by_cases hr : 0 ≤ fd ∧ fd.toNat < st.fdtab.length
    · rcases h with h | h
      · exact absurd hr h
      · simp [hr, h]
    · simp [hr]
  simp [with_file, acquire, ha]

theorem with_file_held (close : file → Int) (st : proc) (fd : Int) (body : Nat → Int)
    (p : Nat) (f : file) (hfd : 0 ≤ fd) (hlt : fd.toNat < st.fdtab.length)
    (hslot : st.slot fd.toNat = some p) (hheap : st.heap p = some f)
    (h1 : 1 ≤ f.ref) (h2 : f.ref < 2 ^ 32) :
    with_file close st fd body =
      some ((st, [VfsCall.acquire fd (some p), VfsCall.release p]), body p) := by
  have ha := vfs_acquire_eq st fd p f hfd hlt hslot hheap
  have hr := vfs_release_eq close
    { st with heap := heap_set st.heap p (some { f with ref := (f.ref + 1) % 2 ^ 32 }) } p
    { f with ref := (f.ref + 1) % 2 ^ 32 } (by simp [heap_set])
  have hp : (2 : Nat) ^ 32 = 4294967296 := by norm_num
  have hne : ¬ ((f.ref + 1) % 2 ^ 32 = 1) := by rw [hp] at h2 ⊢; omega
  have hback : ((f.ref + 1) % 2 ^ 32 + 2 ^ 32 - 1) % 2 ^ 32 = f.ref := by
    rw [hp] at h2 ⊢; omega
  simp only [hne, if_false, hback, heap_set_twice] at hr
  have hf : ({ fd := f.fd, ref := f.ref } : file) = f := by cases f; rfl
  rw [hf, heap_set_same _ _ _ hheap] at hr
  simp only [with_file, acquire, ha, release, hr]
  rfl

theorem with_file_balance (close : file → Int) (st : proc) (fd : Int) (body : Nat → Int)
    (s : proc × List VfsCall) (r : Int) (h : with_file close st fd body = some (s, r)) :
    acquired s.2 = released s.2 := by
  unfold with_file acquire at h
  rcases hq : vfs_acquire st fd with _ | ⟨st1, file⟩
  · rw [hq] at h; simp at h
  · rw [hq] at h
    cases file with
    | none =>
      simp only [Option.some.injEq, Prod.mk.injEq] at h
      rw [← h.1]
      rfl
    | some p =>
      simp only [] at h
      unfold release at h
      rcases hv : vfs_release close st1 p with _ | ⟨st2, x⟩
      · rw [hv] at h; simp at h
      · rw [hv] at h
        simp only [Option.map_some', Option.some.injEq, Prod.mk.injEq] at h
        rw [← h.1]
        rfl

theorem with_file_balanced (close : file → Int) (st : proc) (fd : Int) (body : Nat → Int) :
    balanced st fd (with_file close st fd body) := by
  refine ⟨fun s r h => with_file_balance close st fd body s r h, ?_, ?_⟩
  · intro p f hfd hlt hslot hheap h1 h2
    exact ⟨_, _, with_file_held close st fd body p f hfd hlt hslot hheap h1 h2⟩
  · intro h
    exact ⟨_, _, with_file_none close st fd body h, rfl⟩

theorem early_balanced (st : proc) (fd : Int) (r : Int) :
    balanced st fd (some ((st, []), r)) := by
  refine ⟨?_, ?_, ?_⟩
  · intro s r1 h
    simp only [Option.some.injEq, Prod.mk.injEq] at h
    rw [← h.1]
    rfl
  · intro p f _ _ _ _ _ _
    exact ⟨_, _, rfl⟩
  · intro _
    exact ⟨_, _, rfl, rfl⟩

theorem sys_write_eq (o : file_operations) (u : user_mem) (st : proc) (fd : Int)
    (buf_ptr size : Nat) :
    sys_write o u st fd buf_ptr size =
      if u.copy_from_user buf_ptr size ≠ 0 then some ((st, []), -LINUX_EFAULT)
      else with_file o.close st fd (fun p =>
        match o.writev p with
        | none => -LINUX_EBADF
        | some r => r) := rfl

theorem sys_read_eq (o : file_operations) (u : user_mem) (st : proc) (fd : Int)
    (buf_ptr : Nat) :
    sys_read o u st fd buf_ptr =
      with_file o.close st fd (fun p =>
        match o.readv p with
        | none => -LINUX_EBADF
        | some r =>
          if r < 0 then r
          else if u.copy_to_user buf_ptr r.toNat ≠ 0 then -LINUX_EFAULT
          else r) := rfl

theorem sys_writev_eq (o : file_operations) (u : user_mem) (st : proc) (fd : Int)
    (iov_ptr iovcnt : Nat) :
    sys_writev o u st fd iov_ptr iovcnt =
      match u.read_iov iov_ptr iovcnt with
      | none => some ((st, []), -LINUX_EFAULT)
      | some liov =>
        if liov.any (fun v => u.copy_from_user v.1 v.2 ≠ 0) then
          some ((st, []), -LINUX_EFAULT)
        else with_file o.close st fd (fun p =>
          match o.writev p with
          | none => -LINUX_EBADF
          | some r => r) := by
  unfold sys_writev
  cases u.read_iov iov_ptr iovcnt <;> rfl

theorem sys_readv_eq (o : file_operations) (u : user_mem) (st : proc) (fd : Int)
    (iov_ptr iovcnt : Nat) :
    sys_readv o u st fd iov_ptr iovcnt =
      match u.read_iov iov_ptr iovcnt with
      | none => some ((st, []), -LINUX_EFAULT)
      | some liov =>
        with_file o.close st fd (fun p =>
          match o.readv p with
          | none => -LINUX_EBADF
          | some r =>
            if r < 0 then r
            else if readv_copy u liov r.toNat then -LINUX_EFAULT
            else r) := by
  unfold sys_readv
  cases u.read_iov iov_ptr iovcnt <;> rfl

theorem sys_fstat_eq (o : file_operations) (u : user_mem) (st : proc) (fd : Int)
    (st_ptr size : Nat) :
    sys_fstat o u st fd st_ptr size =
      with_file o.close st fd (fun p =>
        if o.fstat p < 0 then o.fstat p
        else if u.copy_to_user st_ptr size ≠ 0 then -LINUX_EFAULT else o.fstat p) := rfl

theorem sys_getdents_eq (o : file_operations) (u : user_mem) (st : proc) (fd : Int)
    (dirent_ptr count : Nat) :
    sys_getdents o u st fd dirent_ptr count =
      with_file o.close st fd (fun p =>
        if o.getdents p < 0 then o.getdents p
        else if u.copy_to_user dirent_ptr count ≠ 0 then -LINUX_EFAULT
        else o.getdents p) := rfl

theorem sys_fstatfs_eq (o : file_operations) (u : user_mem) (st : proc) (fd : Int)
    (buf_ptr size : Nat) :
    sys_fstatfs o u st fd buf_ptr size =
      with_file o.close st fd (fun p =>
        if o.fstatfs p < 0 then o.fstatfs p
        else if u.copy_to_user buf_ptr size ≠ 0 then -LINUX_EFAULT else o.fstatfs p) := rfl

theorem sys_ioctl_eq (o : file_operations) (st : proc) (fd : Int) :
    sys_ioctl o st fd =
      with_file o.close st fd (fun p =>
        match o.ioctl p with
        | none => -LINUX_ENOTTY
        | some r => r) := rfl

theorem with_file_ebadf (close : file → Int) (st : proc) (fd : Int) (body : Nat → Int)
    (h : ¬ (0 ≤ fd ∧ fd.toNat < st.fdtab.length) ∨ st.slot fd.toNat = none) :
    (with_file close st fd body).map (fun r => r.2) = some (-LINUX_EBADF) := by
  rw [with_file_none close st fd body h]
  rfl

/-- C28, refuted: for the descriptor -1, which holds no file, and a buffer that cannot be
read, `sys_write` returns `-EFAULT` and not `-EBADF`: it copies the buffer before it
looks at the descriptor. -/
theorem fd_handler_efault_counterexample :
    ¬ (0 ≤ (-1 : Int) ∧ (-1 : Int).toNat < (proc_init 0 8).fdtab.length) ∧
    user_none.copy_from_user 0x1000 4 ≠ 0 ∧
    (sys_write ops_zero user_none (proc_init 0 8) (-1) 0x1000 4).map (fun r => r.2)
      = some (-LINUX_EFAULT) ∧
    (sys_write ops_zero user_none (proc_init 0 8) (-1) 0x1000 4).map (fun r => r.1.2)
      = some [] ∧
    -LINUX_EFAULT ≠ -LINUX_EBADF := by
  decide

/-- C28, amended: for each of the thirteen handlers and every return of it, the number of
`vfs_release` calls equals the number of successful `vfs_acquire` calls; when the
descriptor holds a file (with a count from 1 up to the range of the `atomic_uint`) the
handler returns and leaves the descriptor table and every reference count as on entry; when
the descriptor holds no file the handler returns without a release and leaves the state as
it was, and its value is `-EBADF`, except that `sys_write`, `sys_writev` and `sys_readv`
return `-EFAULT`, before any acquire, when their copy from guest memory fails. -/
theorem fd_handlers_balanced (o : file_operations) (u : user_mem) (st : proc) (fd : Int)
    (a b : Nat) :
    (balanced st fd (sys_write o u st fd a b) ∧ balanced st fd (sys_read o u st fd a) ∧
     balanced st fd (sys_writev o u st fd a b) ∧ balanced st fd (sys_readv o u st fd a b) ∧
     balanced st fd (sys_fstat o u st fd a b) ∧ balanced st fd (sys_fchown o st fd) ∧
     balanced st fd (sys_fchmod o st fd) ∧ balanced st fd (sys_ioctl o st fd) ∧
     balanced st fd (sys_lseek o st fd) ∧ balanced st fd (sys_getdents o u st fd a b) ∧
     balanced st fd (sys_fcntl o st fd) ∧ balanced st fd (sys_fstatfs o u st fd a b) ∧
     balanced st fd (sys_fsync o st fd)) ∧
    (¬ (0 ≤ fd ∧ fd.toNat < st.fdtab.length) ∨ st.slot fd.toNat = none →
      (sys_read o u st fd a).map (fun r => r.2) = some (-LINUX_EBADF) ∧
      (sys_fstat o u st fd a b).map (fun r => r.2) = some (-LINUX_EBADF) ∧
      (sys_fchown o st fd).map (fun r => r.2) = some (-LINUX_EBADF) ∧
      (sys_fchmod o st fd).map (fun r => r.2) = some (-LINUX_EBADF) ∧
      (sys_ioctl o st fd).map (fun r => r.2) = some (-LINUX_EBADF) ∧
      (sys_lseek o st fd).map (fun r => r.2) = some (-LINUX_EBADF) ∧
      (sys_getdents o u st fd a b).map (fun r => r.2) = some (-LINUX_EBADF) ∧
      (sys_fcntl o st fd).map (fun r => r.2) = some (-LINUX_EBADF) ∧
      (sys_fstatfs o u st fd a b).map (fun r => r.2) = some (-LINUX_EBADF) ∧
      (sys_fsync o st fd).map (fun r => r.2) = some (-LINUX_EBADF) ∧
      (sys_write o u st fd a b).map (fun r => r.2) =
        some (if u.copy_from_user a b ≠ 0 then -LINUX_EFAULT else -LINUX_EBADF) ∧
      (sys_writev o u st fd a b).map (fun r => r.2) =
        some (match u.read_iov a b with
          | none => -LINUX_EFAULT
          | some liov =>
            if liov.any (fun v => u.copy_from_user v.1 v.2 ≠ 0) then -LINUX_EFAULT
            else -LINUX_EBADF) ∧
      (sys_readv o u st fd a b).map (fun r => r.2) =
        some (match u.read_iov a b with
          | none => -LINUX_EFAULT
          | some _ => -LINUX_EBADF)) := by
  refine ⟨⟨?_, ?_, ?_, ?_, ?_, ?_, ?_, ?_, ?_, ?_, ?_, ?_, ?_⟩, ?_⟩
  · rw [sys_write_eq]
    split
    · exact early_balanced st fd _
    · exact with_file_balanced _ _ _ _
  · rw [sys_read_eq]; exact with_file_balanced _ _ _ _
  · rw [sys_writev_eq]
    cases u.read_iov a b with
    | none => exact early_balanced st fd _
    | some liov =>
      simp only []
      split
      · exact early_balanced st fd _
      · exact with_file_balanced _ _ _ _
  · rw [sys_readv_eq]
    cases u.read_iov a b with
    | none => exact early_balanced st fd _
    | some liov => exact with_file_balanced _ _ _ _
  · rw [sys_fstat_eq]; exact with_file_balanced _ _ _ _
  · exact with_file_balanced o.close st fd (fun p => o.fchown p)
  · exact with_file_balanced o.close st fd (fun p => o.fchmod p)
  · rw [sys_ioctl_eq]; exact with_file_balanced _ _ _ _
  · exact with_file_balanced o.close st fd (fun p => o.lseek p)
  · rw [sys_getdents_eq]; exact with_file_balanced _ _ _ _
  · exact with_file_balanced o.close st fd (fun p => o.fcntl p)
  · rw [sys_fstatfs_eq]; exact with_file_balanced _ _ _ _
  · exact with_file_balanced o.close st fd (fun p => o.fsync p)
  · intro h
    refine ⟨?_, ?_, ?_, ?_, ?_, ?_, ?_, ?_, ?_, ?_, ?_, ?_, ?_⟩
    · rw [sys_read_eq]; exact with_file_ebadf _ _ _ _ h
    · rw [sys_fstat_eq]; exact with_file_ebadf _ _ _ _ h
    · exact with_file_ebadf o.close st fd (fun p => o.fchown p) h
    · exact with_file_ebadf o.close st fd (fun p => o.fchmod p) h
    · rw [sys_ioctl_eq]; exact with_file_ebadf _ _ _ _ h
    · exact with_file_ebadf o.close st fd (fun p => o.lseek p) h
    · rw [sys_getdents_eq]; exact with_file_ebadf _ _ _ _ h
    · exact with_file_ebadf o.close st fd (fun p => o.fcntl p) h
    · rw [sys_fstatfs_eq]; exact with_file_ebadf _ _ _ _ h
    · exact with_file_ebadf o.close st fd (fun p => o.fsync p) h
    · rw [sys_write_eq]
      split
      · rfl
      · exact with_file_ebadf _ _ _ _ h
    · rw [sys_writev_eq]
      cases u.read_iov a b with
      | none => rfl
      | some liov =>
        simp only []
        split
        · rfl
        · exact with_file_ebadf _ _ _ _ h
    · rw [sys_readv_eq]
      cases u.read_iov a b with
      | none => rfl
      | some liov => exact with_file_ebadf _ _ _ _ h

/-- C28 amended, for `sys_fstat` on descriptor 3 of `proc_one`: one acquire, one release,
the value of `ops->fstat`, and the record still has the count 1. -/
theorem fd_handlers_balanced_witness :
    ∃ log r, sys_fstat ops_zero user_all proc_one 3 0x1000 144 = some ((proc_one, log), r) ∧
      acquired log = released log :=
  ((fd_handlers_balanced ops_zero user_all proc_one 3 0x1000 144).1.2.2.2.2.1.2.1 0
    { fd := 3, ref := 1 } (by decide) (by decide) (by decide) (by decide) (by decide)
    (by decide)).elim (fun log hx => hx.elim (fun r hr =>
      ⟨log, r, hr,
        (fd_handlers_balanced ops_zero user_all proc_one 3 0x1000 144).1.2.2.2.2.1.1 _ _ hr⟩))

/-! ### The lookup with its arrays of `LINUX_PATH_MAX` bytes -/

theorem within_iff (ws : List Write) :
    within ws = true ↔ ∀ w ∈ ws, w.upto ≤ LINUX_PATH_MAX := by
  simp [within, List.all_eq_true]

theorem within_false_of_mem (ws : List Write) (w : Write) (hw : w ∈ ws)
    (hu : LINUX_PATH_MAX < w.upto) : within ws = false := by
  cases h : within ws with
  | false => rfl
  | true =>
    have := (within_iff ws).mp h w hw
    omega

theorem bounded_of_overrun (rl : Readlinkat) (vfs_root : Int) (fuel : Nat) (parent : Int)
    (name : List Char) (flags : Nat) (loop : Int)
    (h : within (grab_writes rl vfs_root fuel parent name flags loop) = false) :
    __vfs_grab_dir_bounded rl vfs_root fuel parent name flags loop = none := by
  unfold __vfs_grab_dir_bounded
  rw [if_neg (by simp [h])]

theorem visit_writes_def (rl : Readlinkat) (vfs_root parent : Int) (name : List Char)
    (flags : Nat) :
    visit_writes rl vfs_root parent name flags =
      if name = ['/'] then [{ into := Buffer.subpath, upto := 2 }]
      else
        ({ into := Buffer.subpath, upto := 1 } : Write) ::
          walk_writes rl (walk_dir vfs_root parent name) flags ((walk_name name).length + 1) []
            (walk_name name) := by
  have h1 : (name.head? = some '/' ∧ name.tail = []) ↔ name = ['/'] := by
    cases name with
    | nil => simp
    | cons a rest => simp
  unfold visit_writes walk_dir walk_name
  by_cases hn : name = ['/']
  · rw [if_pos (h1.mpr hn), if_pos hn]
  · rw [if_neg (fun h => hn (h1.mp h)), if_neg hn]
    by_cases hr : name.head? = some '/' ∧ outside_mounts name = true
    · simp only [hr, and_self, decide_True, if_true]
    · simp only [hr, decide_False, if_false, Bool.false_eq_true]

theorem vfs_grab_dir_bounded_eq (rl : Readlinkat) (vfs_root dirfd : Int) (name : List Char)
    (flags : Nat) (hne : name ≠ []) :
    vfs_grab_dir_bounded rl vfs_root dirfd name flags =
      __vfs_grab_dir_bounded rl vfs_root grab_fuel
        (if dirfd = LINUX_AT_FDCWD then AT_FDCWD else dirfd) name flags 0 := by
  unfold vfs_grab_dir_bounded
  rw [if_neg hne]

/-- The lookup of the name `/tmp/xx..x` of 4095 bytes on a host where `/tmp` is a symlink
to `private/tmp` overruns `buf`: the bounded call has no result. -/
theorem bounded_overrun_tmp (vfs_root : Int) :
    vfs_grab_dir_bounded readlink_tmp vfs_root LINUX_AT_FDCWD long_name 0 = none := by
  have hne : long_name ≠ [] := by
    unfold long_name
    intro h
    have := congrArg List.length h
    simp only [List.length_append, List.length_cons, List.length_nil] at this
    omega
  rw [vfs_grab_dir_bounded_eq _ _ _ _ _ hne]
  apply bounded_of_overrun
  have hd : (if LINUX_AT_FDCWD = LINUX_AT_FDCWD then AT_FDCWD else LINUX_AT_FDCWD) = AT_FDCWD := by
    simp
  rw [hd]
  apply within_false_of_mem _ _ (grab_writes_tmp vfs_root (List.replicate 4090 'x'))
  simp only [List.length_replicate, LINUX_PATH_MAX]
  omega

theorem walk_writes_dot_a (dir : Int) (rest : List Char) (k : Nat) :
    ({ into := Buffer.buf, upto := 3 + (rest.length + 1) + 1 } : Write) ∈
      walk_writes readlink_dot_a dir 0 (k + 1) [] ('a' :: '/' :: rest) := by
  rw [walk_writes]
  have h3 : List.takeWhile (fun ch => decide (ch ≠ '/')) ('a' :: '/' :: rest) = ['a'] := by
    simp [List.takeWhile]
  have h4 : List.dropWhile (fun ch => decide (ch ≠ '/')) ('a' :: '/' :: rest) = '/' :: rest := by
    simp [List.dropWhile]
  have h6 : readlink_dot_a dir ['a'] = some ['.', '/', 'a'] := by
    simp [readlink_dot_a, strip_dot]
  simp only [h3, h4, List.nil_append, h6]
  simp
  split <;> simp

theorem grab_writes_dot_a (vfs_root : Int) (rest : List Char) :
    ({ into := Buffer.buf, upto := rest.length + 5 } : Write) ∈
      grab_writes readlink_dot_a vfs_root grab_fuel AT_FDCWD (['a', '/'] ++ rest) 0 0 := by
  have hf : grab_fuel = 21 + 1 := rfl
  have hflags : ¬ (0 &&& (0xFFFFFFFF ^^^ (LOOKUP_NOFOLLOW ||| LOOKUP_DIRECTORY)) ≠ 0) := by
    decide
  have hloop : ¬ ((0 : Int) > LOOP_MAX) := by decide
  rw [hf, grab_writes, if_neg hflags, if_neg hloop]
  apply List.mem_append_left
  rw [visit_writes_def, if_neg (by simp)]
  apply List.mem_cons_of_mem
  have hd : walk_dir vfs_root AT_FDCWD (['a', '/'] ++ rest) = AT_FDCWD := by
    simp [walk_dir]
  have hn : walk_name (['a', '/'] ++ rest) = 'a' :: '/' :: rest := by
    simp [walk_name]
  rw [hd, hn]
  have := walk_writes_dot_a AT_FDCWD rest (rest.length + 1 + 1)
  have he : 3 + (rest.length + 1) + 1 = rest.length + 5 := by omega
  rw [he] at this
  simpa using this

/-- The lookup of the name `a/xx..x` of 4095 bytes where `a` is the symlink `a -> ./a`
overruns `buf` at the first substitution: `readlinkat` stores 3 bytes and
`strcpy(buf + n, c)` writes the 4094 bytes of the rest of the name and a NUL behind them.
The bounded call has no result. -/
theorem bounded_overrun_dot_a (vfs_root : Int) :
    within (grab_writes readlink_dot_a vfs_root grab_fuel AT_FDCWD
      (['a', '/'] ++ List.replicate 4093 'x') 0 0) = false ∧
    __vfs_grab_dir_bounded readlink_dot_a vfs_root grab_fuel AT_FDCWD
      (['a', '/'] ++ List.replicate 4093 'x') 0 0 = none := by
  have hw := within_false_of_mem _ _ (grab_writes_dot_a vfs_root (List.replicate 4093 'x'))
    (by simp only [List.length_replicate, LINUX_PATH_MAX]; omega)
  exact ⟨hw, bounded_of_overrun _ _ _ _ _ _ _ hw⟩

theorem vfs_openat_of_bounded (h : host) (st : proc) (dirfd : Int) (name : List Char)
    (flags mode : Nat) (x : proc × Int)
    (hb : vfs_openat_bounded h st dirfd name flags mode = some x) :
    vfs_openat h st dirfd name flags mode = some x := by
  unfold vfs_openat_bounded at hb
  split at hb
  · simp at hb
  · exact hb

theorem vfs_openat_published (h : host) (st st1 : proc) (dirfd : Int) (name : List Char)
    (flags mode : Nat) (f : Int)
    (hopen : vfs_openat h st dirfd name flags mode = some (st1, f)) (hf : 0 ≤ f) :
    f.toNat < st.fdtab.length ∧ st.fdtab.getD f.toNat none = none ∧
    st1 = { st with
            heap := heap_set st.heap st.next (some { fd := f, ref := 1 })
            next := st.next + 1
            fdtab := st.fdtab.set f.toNat (some st.next) } := by
  unfold vfs_openat at hopen
  split at hopen
  · simp at hopen
  · simp at hopen
  · rename_i r hg
    simp only [Option.some.injEq, Prod.mk.injEq] at hopen
    have := vfs_grab_dir_fail_neg _ _ _ _ _ _ hg
    omega
  · rename_i pth hg
    unfold darwinfs_openat at hopen
    simp only [] at hopen
    generalize syswrap h.darwin_to_linux_errno
      (h.openat pth.dir pth.subpath (h.linux_to_darwin_o_flags flags) mode) = r at hopen
    split at hopen
    · rename_i st0 r0 p hd
      split at hd
      · simp at hd
      · rename_i hr
        simp only [new_file, Prod.mk.injEq, Option.some.injEq] at hd
        obtain ⟨hst0, _, hp⟩ := hd
        subst hst0 hp
        simp only [heap_set_self] at hopen
        split at hopen
        · rename_i hassert
          simp only [Option.some.injEq, Prod.mk.injEq] at hopen
          obtain ⟨hst1, hfeq⟩ := hopen
          subst hfeq
          subst hst1
          obtain ⟨_, hlt, hslot⟩ := hassert
          simp only [proc.slot] at hslot
          exact ⟨by simpa using hlt, hslot, rfl⟩
        · simp at hopen
    · rename_i st0 r0 hd
      split at hd
      · rename_i hr
        simp only [Prod.mk.injEq] at hd
        simp only [Option.some.injEq, Prod.mk.injEq] at hopen
        omega
      · simp [new_file] at hd

/-- C7: after a `vfs_openat` that returned the descriptor `f`, the slot `f` of the table
holds a fresh record whose field `fd` is `f`. A `close(f)` then invokes the close operation
on that record, which is the host `close(f)`: for every host, `close(f)` returns what
`syswrap` makes of the result of the host `close(f)`. When the host `close` succeeds,
`close(f)` returns 0, frees the record and leaves the descriptor table as it was before the
open; when it fails, `close(f)` returns minus its `errno` and the record stays. -/
theorem open_then_close (h h2 : host) (st st1 : proc) (dirfd : Int) (name : List Char)
    (flags mode : Nat) (f : Int)
    (hopen : vfs_openat_bounded h st dirfd name flags mode = some (st1, f)) (hf : 0 ≤ f) :
    st1.slot f.toNat = some st.next ∧
    st1.heap st.next = some { fd := f, ref := 1 } ∧
    darwinfs_close h2 { fd := f, ref := 1 } =
      syswrap h2.darwin_to_linux_errno (h2.close f) ∧
    (∃ st2, sys_close (darwinfs_close h2) st1 f =
        some (st2, syswrap h2.darwin_to_linux_errno (h2.close f)) ∧
      st2.trace = st.trace ++ Event.ops_close st.next f ::
        (if syswrap h2.darwin_to_linux_errno (h2.close f) < 0 then []
         else [Event.shm_free st.next])) ∧
    ((h2.close f).1 = 0 →
      ∃ st2, sys_close (darwinfs_close h2) st1 f = some (st2, 0) ∧
        st2.fdtab = st.fdtab ∧
        st2.trace = st.trace ++ [Event.ops_close st.next f, Event.shm_free st.next] ∧
        st2.heap st.next = none) ∧
    ((h2.close f).1 < 0 → 0 < h2.darwin_to_linux_errno (h2.close f).2 →
      sys_close (darwinfs_close h2) st1 f =
        some ({ st1 with trace := st.trace ++ [Event.ops_close st.next f] },
          -(h2.darwin_to_linux_errno (h2.close f).2))) := by
  obtain ⟨hlt, hslot, hst1⟩ := vfs_openat_published h st st1 dirfd name flags mode f
    (vfs_openat_of_bounded h st dirfd name flags mode _ hopen) hf
  subst hst1
  have hs : ({ st with
      heap := heap_set st.heap st.next (some { fd := f, ref := 1 })
      next := st.next + 1
      fdtab := st.fdtab.set f.toNat (some st.next) } : proc).slot f.toNat = some st.next := by
    simp only [proc.slot]
    exact getD_set_self _ _ _ _ hlt
  have hh : ({ st with
      heap := heap_set st.heap st.next (some { fd := f, ref := 1 })
      next := st.next + 1
      fdtab := st.fdtab.set f.toNat (some st.next) } : proc).heap st.next =
        some { fd := f, ref := 1 } := by
    simp only [heap_set_self]
  have hc := vfs_close_eq (darwinfs_close h2) _ f st.next { fd := f, ref := 1 } hf
    (by simpa using hlt) hs hh
  have hd : darwinfs_close h2 { fd := f, ref := 1 } =
      syswrap h2.darwin_to_linux_errno (h2.close f) := rfl
  refine ⟨hs, hh, hd, ?_, ?_, ?_⟩
  · unfold sys_close
    rw [hc, hd]
    by_cases hneg : syswrap h2.darwin_to_linux_errno (h2.close f) < 0
    · rw [if_pos hneg, if_pos hneg]
      exact ⟨_, rfl, rfl⟩
    · rw [if_neg hneg, if_neg hneg]
      simp only [if_true]
      exact ⟨_, rfl, by simp⟩
  · intro hclose
    have hcl : darwinfs_close h2 { fd := f, ref := 1 } = 0 := by
      simp [darwinfs_close, syswrap, hclose]
    unfold sys_close
    rw [hc, hcl]
    simp only [lt_self_iff_false, if_false, if_true]
    refine ⟨_, rfl, ?_, ?_, ?_⟩
    · simp only [List.set_set]
      rw [← hslot]
      exact set_getD_self _ _ _
    · simp
    · simp only [heap_set_self]
  · intro hfail hpos
    have hcl : darwinfs_close h2 { fd := f, ref := 1 } =
        -(h2.darwin_to_linux_errno (h2.close f).2) := by
      simp [darwinfs_close, syswrap, hfail]
    unfold sys_close
    rw [hc, hcl, if_pos (by omega)]

/-- C7, at the empty table of 8 slots: opening `x` returns descriptor 5; closing 5 returns
0 and leaves the table empty again when the host `close` succeeds, and returns `-5` on a
host whose `close` fails with the `errno` 5. -/
theorem open_then_close_witness :
    ∃ st1, vfs_openat_bounded host_ab (proc_init 3 8) LINUX_AT_FDCWD ['x'] 0 0 = some (st1, 5) ∧
      (host_ab.close 5).1 = 0 ∧
      (∃ st2, sys_close (darwinfs_close host_ab) st1 5 = some (st2, 0) ∧
        st2.fdtab = (proc_init 3 8).fdtab ∧
        st2.trace = (proc_init 3 8).trace ++
          [Event.ops_close (proc_init 3 8).next 5, Event.shm_free (proc_init 3 8).next] ∧
        st2.heap (proc_init 3 8).next = none) ∧
      sys_close (darwinfs_close host_close_fails) st1 5 =
        some ({ st1 with trace := (proc_init 3 8).trace ++
            [Event.ops_close (proc_init 3 8).next 5] },
          -(host_close_fails.darwin_to_linux_errno (host_close_fails.close 5).2)) := by
  have h : (vfs_openat_bounded host_ab (proc_init 3 8) LINUX_AT_FDCWD ['x'] 0 0).isSome
      = true := by
    decide
  obtain ⟨⟨st1, f⟩, hs⟩ := Option.isSome_iff_exists.mp h
  have hf : f = 5 := by
    have h5 : (vfs_openat_bounded host_ab (proc_init 3 8) LINUX_AT_FDCWD ['x'] 0 0).map
        (fun r => r.2) = some 5 := by decide
    rw [hs] at h5
    simpa using h5
  subst hf
  exact ⟨st1, hs, by decide,
    (open_then_close host_ab host_ab (proc_init 3 8) st1 LINUX_AT_FDCWD ['x'] 0 0 5 hs
      (by decide)).2.2.2.2.1 (by decide),
    (open_then_close host_ab host_close_fails (proc_init 3 8) st1 LINUX_AT_FDCWD ['x'] 0 0 5 hs
      (by decide)).2.2.2.2.2 (by decide) (by decide)⟩

/-- C4, the code on a host where `/tmp` is the relative symlink `/tmp -> private/tmp`, as
on macOS: the lookup of the allow-listed name `/tmp/x` from the current directory
substitutes the link and recurses on `/private/tmp/x`, which the mount-prefix test of the
recursive call finds outside the list. The lookup, all of whose writes stay within the
arrays, returns the subpath `private/tmp/x`, which does not begin with `/`, bound to
`proc.vfs_root` and not to the token of the caller. -/
theorem allow_listed_lookup_rebound :
    (['/', 't', 'm', 'p'] ∈ mount_points ∧
      ['/', 't', 'm', 'p'] <+: ['/', 't', 'm', 'p', '/', 'x']) ∧
    (∀ d p l, readlink_tmp d p = some l → l.head? ≠ some '/') ∧
    visit readlink_tmp 3 AT_FDCWD ['/', 't', 'm', 'p', '/', 'x'] 0 =
      Visit.again AT_FDCWD
        ['/', 'p', 'r', 'i', 'v', 'a', 't', 'e', '/', 't', 'm', 'p', '/', 'x'] ∧
    outside_mounts ['/', 'p', 'r', 'i', 'v', 'a', 't', 'e', '/', 't', 'm', 'p', '/', 'x'] = true ∧
    within (grab_writes readlink_tmp 3 grab_fuel AT_FDCWD ['/', 't', 'm', 'p', '/', 'x'] 0 0)
      = true ∧
    (∀ vfs_root : Int,
      vfs_grab_dir_bounded readlink_tmp vfs_root LINUX_AT_FDCWD ['/', 't', 'm', 'p', '/', 'x'] 0 =
        some (Grab.ok
          { dir := vfs_root,
            subpath := ['p', 'r', 'i', 'v', 'a', 't', 'e', '/', 't', 'm', 'p', '/', 'x'] })) ∧
    ¬ (∃ p : path,
        vfs_grab_dir_bounded readlink_tmp 3 LINUX_AT_FDCWD ['/', 't', 'm', 'p', '/', 'x'] 0 =
          some (Grab.ok p) ∧
        p.subpath.head? = some '/' ∧ p.dir = AT_FDCWD) := by
  have hg : ∀ vfs_root : Int,
      vfs_grab_dir_bounded readlink_tmp vfs_root LINUX_AT_FDCWD ['/', 't', 'm', 'p', '/', 'x'] 0 =
        some (Grab.ok
          { dir := vfs_root,
            subpath := ['p', 'r', 'i', 'v', 'a', 't', 'e', '/', 't', 'm', 'p', '/', 'x'] }) := by
    intro vfs_root
    rfl
  refine ⟨⟨by decide, by decide⟩, ?_, by decide, by decide, by decide, hg, ?_⟩
  · intro d p l h
    unfold readlink_tmp at h
    split at h
    · simp only [Option.some.injEq] at h
      subst h
      decide
    · simp at h
  · rintro ⟨p, hp, hhead, _⟩
    rw [hg 3] at hp
    simp only [Option.some.injEq, Grab.ok.injEq] at hp
    subst hp
    simp at hhead

/-- C18, the code at an EPT violation by a read-modify-write access (exit qualification
`0x83`: read, write and a valid guest linear address) to an address that `addr_ok` accepts
for reading and rejects for writing: `main_loop` asks `addr_ok` about the read only, posts
no signal and goes on. For every exit with bits 7 and 0 set, the write and execute bits
play no part: `SIGSEGV` is posted exactly when `addr_ok` rejects the read. -/
theorem ept_violation_write_unchecked :
    exit_rw.exit_reason = VMX_REASON_EPT_VIOLATION ∧
    exit_rw.qualification &&& (1 <<< 7) ≠ 0 ∧
    exit_rw.qualification &&& (1 <<< 0) ≠ 0 ∧
    exit_rw.qualification &&& (1 <<< 1) ≠ 0 ∧
    exit_rw.addr_ok exit_rw.guest_lin_addr VERIFY_READ = true ∧
    exit_rw.addr_ok exit_rw.guest_lin_addr VERIFY_WRITE = false ∧
    exit_rw.addr_ok exit_rw.guest_lin_addr (VERIFY_READ ||| VERIFY_WRITE) = false ∧
    main_loop_body exit_rw false vcpu_init = (vcpu_init, Flow.next) ∧
    (main_loop_body exit_rw false vcpu_init).1.actions = [] ∧
    (∀ (e : vmexit) (ros : Bool) (m : vcpu), e.exit_reason = VMX_REASON_EPT_VIOLATION →
      e.qualification &&& (1 <<< 7) ≠ 0 → e.qualification &&& (1 <<< 0) ≠ 0 →
      main_loop_body e ros m =
        if e.addr_ok e.guest_lin_addr VERIFY_READ = false
        then (m.act (Action.send_signal LINUX_SIGSEGV), Flow.next)
        else (m, Flow.next)) := by
  refine ⟨rfl, by decide, by decide, by decide, by decide, by decide, by decide, rfl,
    by decide, ?_⟩
  intro e ros m he h7 h0
  rw [(ept_violation_checked e ros m he).1 h7, if_pos h0]

end Noah
